import Mathlib

/-!
# external-dns NextDNS webhook: configuration loading and start-up

A shallow embedding of `main.go` (the `Config` record, `defaultConfig`,
`allLogLevelsAsStrings`, `Config.ParseFlags` and `main`) together with the parts of
the libraries that `main.go` calls and that decide what it computes:

* `logrus`: `AllLevels`, `Level.String`, `ParseLevel`;
* `time`: `Duration.String`, `ParseDuration`;
* `strconv.ParseBool`;
* `kingpin` (v2.2.6, the release behind the import path
  `github.com/alecthomas/kingpin`): the tokenizer, the flag parser,
  `setDefaults`, `setValues`, the pre-actions and `Application.Parse`;
* `sigs.k8s.io/external-dns/endpoint`: `NewDomainFilter`, `DomainFilter.Match`.

Go strings are modelled by `String`, slices by `List`, `time.Duration` (an int64
count of nanoseconds) by `Int`.  The operating system enters through a `World`:
the environment (`os.Getenv`) and the files that kingpin may read for `@file`
arguments.
-/

namespace NextDNSWebhook

/-! ## Errors -/

/-- The error values that the modelled functions return; each constructor stands for
one `fmt.Errorf`/`errors.New` site and carries the data that is formatted into it. -/
inductive Error where
  /-- kingpin `enumValue.Set`: "enum value must be one of %s, got '%s'". -/
  | enumValue (options : List String) (got : String)
  /-- The syntax error of `strconv.ParseBool`. -/
  | parseBool (s : String)
  /-- Package time: "time: invalid duration". -/
  | invalidDuration (orig : String)
  /-- Package time: "time: missing unit in duration". -/
  | missingUnit (orig : String)
  /-- Package time: "time: unknown unit". -/
  | unknownUnit (unit orig : String)
  /-- kingpin: "unknown long flag '%s'". -/
  | unknownLongFlag (name : String)
  /-- kingpin: "unknown short flag '%s'". -/
  | unknownShortFlag (name : String)
  /-- kingpin: "expected argument for flag '%s'". -/
  | expectedArgument (name : String)
  /-- kingpin: "unexpected %s" (a positional argument that nothing consumes). -/
  | unexpected (value : String)
  /-- kingpin: the message of an error token (an `@file` that cannot be read). -/
  | tokenError (message : String)
  /-- kingpin: "flag '%s' cannot be repeated". -/
  | cannotBeRepeated (name : String)
  /-- logrus: "not a valid logrus Level: %q". -/
  | invalidLevel (s : String)
  deriving DecidableEq, Repr

deriving instance DecidableEq for Except

/-! ## Package strings -/

namespace strings

/-- Go `strings.HasPrefix`. -/
def HasPrefix (s p : String) : Bool := p.data.isPrefixOf s.data

/-- Go `strings.HasSuffix`. -/
def HasSuffix (s p : String) : Bool := p.data.reverse.isPrefixOf s.data.reverse

/-- Go `strings.TrimSuffix`. -/
def TrimSuffix (s p : String) : String :=
  if HasSuffix s p then String.mk (s.data.take (s.data.length - p.data.length)) else s

/-- Go `unicode.IsSpace`. -/
def isSpace (c : Char) : Bool :=
  c.toNat ∈ [0x09, 0x0A, 0x0B, 0x0C, 0x0D, 0x20, 0x85, 0xA0, 0x1680, 0x2028, 0x2029, 0x202F,
    0x205F, 0x3000] || (0x2000 ≤ c.toNat && c.toNat ≤ 0x200A)

/-- Go `strings.TrimSpace`. -/
def TrimSpace (s : String) : String :=
  String.mk ((s.data.dropWhile isSpace).reverse.dropWhile isSpace).reverse

/-- Go `strings.ToLower`, on the ASCII letters. (Go lowers the other letters of Unicode
too; here they are left alone. The strings that the theorems below lower are ASCII.) -/
def ToLower (s : String) : String := String.mk (s.data.map Char.toLower)

/-- Go `strings.ToUpper`, on the ASCII letters (other characters are left alone). -/
def ToUpper (s : String) : String := String.mk (s.data.map Char.toUpper)

/-- Go `strings.Count(s, ".")`. -/
def CountDot (s : String) : Nat := s.data.count '.'

/-- Go `strings.Join`. -/
def Join (xs : List String) (sep : String) : String := sep.intercalate xs

end strings

/-! ## Package strconv -/

namespace strconv

/-- Go `strconv.ParseBool`. -/
def ParseBool (str : String) : Except Error Bool :=
  if str ∈ ["1", "t", "T", "true", "TRUE", "True"] then .ok true
  else if str ∈ ["0", "f", "F", "false", "FALSE", "False"] then .ok false
  else .error (.parseBool str)

end strconv

/-! ## Package logrus -/

namespace logrus

/-- The logrus `Level` type; in Go a `uint32`, `PanicLevel` = 0 up to `TraceLevel` = 6. -/
inductive Level where
  | PanicLevel | FatalLevel | ErrorLevel | WarnLevel | InfoLevel | DebugLevel | TraceLevel
  deriving DecidableEq, Repr

/-- The logrus variable `AllLevels`. -/
def AllLevels : List Level :=
  [.PanicLevel, .FatalLevel, .ErrorLevel, .WarnLevel, .InfoLevel, .DebugLevel, .TraceLevel]

/-- The logrus method `Level.String` (through `MarshalText`). -/
def Level.String : Level → String
  | .TraceLevel => "trace"
  | .DebugLevel => "debug"
  | .InfoLevel => "info"
  | .WarnLevel => "warning"
  | .ErrorLevel => "error"
  | .FatalLevel => "fatal"
  | .PanicLevel => "panic"

/-- The logrus function `ParseLevel`: a switch on `strings.ToLower(lvl)`. -/
def ParseLevel (lvl : String) : Except Error Level :=
  let l := strings.ToLower lvl
  if l = "panic" then .ok .PanicLevel
  else if l = "fatal" then .ok .FatalLevel
  else if l = "error" then .ok .ErrorLevel
  else if l = "warn" ∨ l = "warning" then .ok .WarnLevel
  else if l = "info" then .ok .InfoLevel
  else if l = "debug" then .ok .DebugLevel
  else if l = "trace" then .ok .TraceLevel
  else .error (.invalidLevel lvl)

end logrus

/-! ## Package time -/

namespace time

/-- Go `time.Duration`: an int64 number of nanoseconds. -/
abbrev Duration := Int

/-- Go `time.Nanosecond`. -/
def Nanosecond : Duration := 1
/-- Go `time.Microsecond`. -/
def Microsecond : Duration := 1000 * Nanosecond
/-- Go `time.Millisecond`. -/
def Millisecond : Duration := 1000 * Microsecond
/-- Go `time.Second`. -/
def Second : Duration := 1000 * Millisecond
/-- Go `time.Minute`. -/
def Minute : Duration := 60 * Second
/-- Go `time.Hour`. -/
def Hour : Duration := 60 * Minute

/-- The digit character `byte(d) + '0'`. -/
def digitChar (d : Nat) : Char := Char.ofNat (d + 48)

/-- The loop of Go `fmtFrac`: `i` iterations remain; digits are written in front of `buf`. -/
def fmtFracLoop : Nat → Nat → Bool → List Char → List Char × Nat × Bool
  | 0, v, print, buf => (buf, v, print)
  | i + 1, v, print, buf =>
    let digit := v % 10
    let print := print || digit != 0
    fmtFracLoop i (v / 10) print (if print then digitChar digit :: buf else buf)

/-- Go `fmtFrac`: the fraction of `v/10^prec` in front of `buf`, without trailing zeros
(and without the point when the fraction is 0), and `v/10^prec`. -/
def fmtFrac (buf : List Char) (v prec : Nat) : List Char × Nat :=
  match fmtFracLoop prec v false buf with
  | (buf, v, print) => (if print then '.' :: buf else buf, v)

/-- The loop `for v > 0` of Go `fmtInt`; a uint64 has at most 20 digits. -/
def fmtIntLoop : Nat → Nat → List Char → List Char
  | 0, _, buf => buf
  | n + 1, v, buf => if v = 0 then buf else fmtIntLoop n (v / 10) (digitChar (v % 10) :: buf)

/-- Go `fmtInt`: the decimal digits of `v` in front of `buf`. -/
def fmtInt (buf : List Char) (v : Nat) : List Char :=
  if v = 0 then '0' :: buf else fmtIntLoop 20 v buf

/-- Go `Duration.format`, returning the bytes written. `u` is `uint64(d)`, negated when
`d < 0`, which for an int64 `d` is its absolute value. -/
def Duration.format (d : Duration) : List Char :=
  let u := d.natAbs
  let neg := decide (d < 0)
  let body : List Char :=
    if u < Second.natAbs then
      if u = 0 then ['0', 's']
      else if u < Microsecond.natAbs then fmtInt ['n', 's'] u
      else if u < Millisecond.natAbs then
        match fmtFrac ['µ', 's'] u 3 with
        | (buf, u) => fmtInt buf u
      else
        match fmtFrac ['m', 's'] u 6 with
        | (buf, u) => fmtInt buf u
    else
      match fmtFrac ['s'] u 9 with
      | (buf, u) =>
        let buf := fmtInt buf (u % 60)
        let u := u / 60
        if u > 0 then
          let buf := fmtInt ('m' :: buf) (u % 60)
          let u := u / 60
          if u > 0 then fmtInt ('h' :: buf) u else buf
        else buf
  if neg then '-' :: body else body

/-- Go `Duration.String`. -/
def Duration.String (d : Duration) : String := String.mk (Duration.format d)

/-- Is the byte one of `'0'..'9'`. -/
def isDigit (c : Char) : Bool := decide ('0' ≤ c) && decide (c ≤ '9')

/-- Go `leadingInt`: the leading `[0-9]*` of `s` as a number and the rest; `none` is
`errLeadingInt` (overflow). -/
def leadingInt : List Char → Nat → Option (Nat × List Char)
  | [], x => some (x, [])
  | c :: s, x =>
    if !isDigit c then some (x, c :: s)
    else if x > 2 ^ 63 / 10 then none
    else
      let x := x * 10 + (c.toNat - 48)
      if x > 2 ^ 63 then none else leadingInt s x

/-- Go `leadingFraction`: the leading `[0-9]*` of `s` as a number `x` with its scale (a
power of ten), and the rest; once `x` would overflow the further digits are dropped. -/
def leadingFraction : List Char → Nat → Nat → Bool → Nat × Nat × List Char
  | [], x, scale, _ => (x, scale, [])
  | c :: s, x, scale, overflow =>
    if !isDigit c then (x, scale, c :: s)
    else if overflow then leadingFraction s x scale true
    else if x > (2 ^ 63 - 1) / 10 then leadingFraction s x scale true
    else
      let y := x * 10 + (c.toNat - 48)
      if y > 2 ^ 63 then leadingFraction s x scale true
      else leadingFraction s y (scale * 10) false

/-- Go `unitMap`. -/
def unitMap (u : String) : Option Nat :=
  if u = "ns" then some 1
  else if u = "us" ∨ u = "µs" ∨ u = "μs" then some 1000
  else if u = "ms" then some 1000000
  else if u = "s" then some 1000000000
  else if u = "m" then some 60000000000
  else if u = "h" then some 3600000000000
  else none

/-- The end of one iteration of the loop of Go `ParseDuration`, from `d += v` on: the new
sum, or the overflow error. -/
def addGroup (orig : String) (d v : Nat) : Except Error Nat :=
  let d := (d + v) % 2 ^ 64
  if d > 2 ^ 63 then .error (.invalidDuration orig) else .ok d

/-- The body of the loop `for s != ""` of Go `ParseDuration`; `d` is the sum so far.
`frac f scale unit` stands for `uint64(float64(f) * (float64(unit) / scale))`, the one
floating-point expression of the function; it is evaluated only when the group has a
non-zero fraction. The loop runs at most once per character of `s`. -/
def parseDurationLoop (frac : Nat → Nat → Nat → Nat) (orig : String) :
    Nat → List Char → Nat → Except Error Nat
  | 0, _, d => .ok d
  | n + 1, s, d =>
    match s with
    | [] => .ok d
    | c :: _ =>
      if !(c = '.' || isDigit c) then .error (.invalidDuration orig)
      else
        match leadingInt s 0 with
        | none => .error (.invalidDuration orig)
        | some (v, s1) =>
          let pre := decide (s.length ≠ s1.length)
          let (f, scale, s2, post) :=
            match s1 with
            | '.' :: r =>
              match leadingFraction r 0 1 false with
              | (f, scale, s2) => (f, scale, s2, decide (r.length ≠ s2.length))
            | _ => (0, 1, s1, false)
          if !pre && !post then .error (.invalidDuration orig)
          else
            let u := s2.takeWhile (fun c => !(c = '.' || isDigit c))
            let s3 := s2.dropWhile (fun c => !(c = '.' || isDigit c))
            if u = [] then .error (.missingUnit orig)
            else
              match unitMap (String.mk u) with
              | none => .error (.unknownUnit (String.mk u) orig)
              | some unit =>
                if v > 2 ^ 63 / unit then .error (.invalidDuration orig)
                else if f > 0 then
                  let v := (v * unit + frac f scale unit) % 2 ^ 64
                  if v > 2 ^ 63 then .error (.invalidDuration orig)
                  else
                    match addGroup orig d v with
                    | .error e => .error e
                    | .ok d => parseDurationLoop frac orig n s3 d
                else
                  match addGroup orig d (v * unit) with
                  | .error e => .error e
                  | .ok d => parseDurationLoop frac orig n s3 d

/-- Go `time.ParseDuration`. -/
def ParseDuration (frac : Nat → Nat → Nat → Nat) (orig : String) : Except Error Duration :=
  let s := orig.data
  let neg := decide (s.head? = some '-')
  let s := if s.head? = some '-' ∨ s.head? = some '+' then s.tail else s
  if s = ['0'] then .ok 0
  else if s = [] then .error (.invalidDuration orig)
  else
    match parseDurationLoop frac orig (s.length + 1) s 0 with
    | .error e => .error e
    | .ok d =>
      if neg then .ok (-(d : Int))
      else if d > 2 ^ 63 - 1 then .error (.invalidDuration orig)
      else .ok (d : Int)

end time

/-! ## The operating system and the Go runtime -/

/-- What the process reads from outside itself, and what the Go runtime leaves open. -/
structure World where
  /-- Go `os.Getenv`: the value of the variable, the empty string when it is unset. -/
  Getenv : String → String
  /-- Opening a file and scanning it line by line (`os.Open`, `bufio.Scanner`): the lines,
  or `none` when the file cannot be opened or read. -/
  readLines : String → Option (List String)
  /-- The float64 expression `uint64(float64(f) * (float64(unit) / scale))` of
  `time.ParseDuration`, as the platform computes it. -/
  fracNanos : Nat → Nat → Nat → Nat
  /-- The order in which a `range` loop over a Go map with `n` entries visits them, as
  positions `0, ..., n - 1` of the entries; the Go runtime does not specify it. -/
  rangeOrder : Nat → List Nat
  /-- A `range` loop visits every entry of the map exactly once. -/
  rangeOrder_perm : ∀ n, (rangeOrder n).Perm (List.range n)

/-- Go `for _, v := range m` over a map that holds `entries`: the entries in the order in
which the loop visits them. -/
def World.range {α : Type} (w : World) (entries : List α) : List α :=
  (w.rangeOrder entries.length).filterMap fun i => entries[i]?

/-! ## main.go: the configuration record -/

/-- The struct `Config` of main.go. -/
structure Config where
  DomainFilter : List String
  NextDNSAPIKey : String
  NextDNSProfileId : String
  LogFormat : String
  DryRun : Bool
  LogLevel : String
  WebhookProviderReadTimeout : time.Duration
  WebhookProviderWriteTimeout : time.Duration
  WebhookProviderURL : String
  deriving DecidableEq, Repr

/-- The variable `defaultConfig` of main.go. -/
def defaultConfig : Config where
  DomainFilter := []
  NextDNSAPIKey := ""
  NextDNSProfileId := ""
  LogFormat := "text"
  DryRun := false
  LogLevel := logrus.Level.String .InfoLevel
  WebhookProviderReadTimeout := 5 * time.Second
  WebhookProviderWriteTimeout := 10 * time.Second
  WebhookProviderURL := "http://localhost:8888"

/-- The zero value `Config{}` with which `main` starts. -/
def Config.zero : Config where
  DomainFilter := []
  NextDNSAPIKey := ""
  NextDNSProfileId := ""
  LogFormat := ""
  DryRun := false
  LogLevel := ""
  WebhookProviderReadTimeout := 0
  WebhookProviderWriteTimeout := 0
  WebhookProviderURL := ""

/-- The function `allLogLevelsAsStrings` of main.go: the loop appends `level.String()`
for each `level` of `log.AllLevels`. -/
def allLogLevelsAsStrings : List String :=
  logrus.AllLevels.foldl (fun levels level => levels ++ [level.String]) []

/-! ## Package kingpin -/

namespace kingpin

/-- The kingpin `TokenType`. -/
inductive TokenType where
  | TokenShort | TokenLong | TokenArg | TokenError | TokenEOL
  deriving DecidableEq, Repr

/-- The kingpin `Token` (without its index, which only error positions use). -/
structure Token where
  Kind : TokenType
  Value : String
  deriving DecidableEq, Repr

/-- The `*string` fields of `Config` that a flag of main.go is bound to. -/
inductive StringPtr where
  | NextDNSAPIKey | NextDNSProfileId | LogFormat | LogLevel
  deriving DecidableEq, Repr

/-- The `*bool` targets: `&cfg.DryRun`, the field `a.completion` of the application, and
the anonymous variable that `.Bool()` allocates. -/
inductive BoolPtr where
  | DryRun | completion | anonymous
  deriving DecidableEq, Repr

/-- The `*time.Duration` fields of `Config` that a flag is bound to. -/
inductive DurationPtr where
  | WebhookProviderReadTimeout | WebhookProviderWriteTimeout
  deriving DecidableEq, Repr

/-- The kingpin `Value` of a flag: which parser it runs and where it stores the result.
`StringsVar` is the accumulator over `&cfg.DomainFilter`, the only `[]string` field. -/
inductive Value where
  | StringVar (target : StringPtr)
  | StringsVar
  | EnumVar (target : StringPtr) (options : List String)
  | BoolVar (target : BoolPtr)
  | DurationVar (target : DurationPtr)
  deriving DecidableEq, Repr

/-- The pre-actions that kingpin and `Application.Version` attach to flags; each of them
writes its output and calls `a.terminate(0)`. -/
inductive PreAction where
  | version | generateLongHelp | generateManPage
  | generateBashCompletionScript | generateZSHCompletionScript
  deriving DecidableEq, Repr

/-- The kingpin `FlagClause`. -/
structure FlagClause where
  name : String
  envar : String
  defaultValues : List String
  preAction : Option PreAction
  value : Value
  deriving DecidableEq, Repr

/-- The kingpin `ParseElement`: a flag matched on the command line and its value. -/
structure ParseElement where
  Clause : FlagClause
  Value : String
  deriving DecidableEq, Repr

/-- The kingpin `ParseContext`: the arguments not yet tokenized, the stack of pushed-back
tokens (top first), `argsOnly` (set by `--`), and the elements matched so far. -/
structure ParseContext where
  args : List String
  peek : List Token
  argsOnly : Bool
  Elements : List ParseElement
  deriving DecidableEq, Repr

/-- The memory that the flag values point into: the `Config` and `a.completion`. -/
structure State where
  cfg : Config
  completion : Bool
  deriving DecidableEq, Repr

/-- The kingpin `Application`: its name, whether `DefaultEnvars` was called, and the flags
in the order of registration. -/
structure Application where
  Name : String
  defaultEnvars : Bool
  flags : List FlagClause
  deriving DecidableEq, Repr

/-- How a call of `Application.Parse` ends, seen from `Config.ParseFlags`: it returns nil
and has filled the `Config`, it returns an error, or kingpin has terminated the process
(help, version, completion). The `Config` left behind by an error return is not modelled:
`main` exits without reading it. -/
inductive Outcome where
  | ok (cfg : Config)
  | err (e : Error)
  | exit (code : Nat)
  deriving DecidableEq, Repr

/-- Writing through a `*string`. -/
def State.setString (st : State) : StringPtr → String → State
  | .NextDNSAPIKey, s => { st with cfg := { st.cfg with NextDNSAPIKey := s } }
  | .NextDNSProfileId, s => { st with cfg := { st.cfg with NextDNSProfileId := s } }
  | .LogFormat, s => { st with cfg := { st.cfg with LogFormat := s } }
  | .LogLevel, s => { st with cfg := { st.cfg with LogLevel := s } }

/-- Writing through a `*bool`. -/
def State.setBool (st : State) : BoolPtr → Bool → State
  | .DryRun, b => { st with cfg := { st.cfg with DryRun := b } }
  | .completion, b => { st with completion := b }
  | .anonymous, _ => st

/-- Writing through a `*time.Duration`. -/
def State.setDuration (st : State) : DurationPtr → time.Duration → State
  | .WebhookProviderReadTimeout, d =>
    { st with cfg := { st.cfg with WebhookProviderReadTimeout := d } }
  | .WebhookProviderWriteTimeout, d =>
    { st with cfg := { st.cfg with WebhookProviderWriteTimeout := d } }

/-- The method `Set` of the kingpin values: `stringValue.Set` stores, the accumulator
appends, `enumValue.Set` stores one of its options or fails, `boolValue.Set` stores the
result of `strconv.ParseBool` when it succeeds, `durationValue.Set` stores the result of
`time.ParseDuration` (0 on failure) and returns its error. -/
def Value.Set (w : World) : Value → String → State → State × Option Error
  | .StringVar p, s, st => (st.setString p s, none)
  | .StringsVar, s, st => ({ st with cfg := { st.cfg with DomainFilter := st.cfg.DomainFilter ++ [s] } }, none)
  | .EnumVar p options, s, st =>
    if s ∈ options then (st.setString p s, none) else (st, some (.enumValue options s))
  | .BoolVar p, s, st =>
    match strconv.ParseBool s with
    | .ok v => (st.setBool p v, none)
    | .error e => (st, some e)
  | .DurationVar p, s, st =>
    match time.ParseDuration w.fracNanos s with
    | .ok v => (st.setDuration p v, none)
    | .error e => (st.setDuration p 0, some e)

/-- The kingpin `IsBoolFlag` test: only bool values take no argument. -/
def Value.IsBoolFlag : Value → Bool
  | .BoolVar _ => true
  | _ => false

/-- The kingpin `IsCumulative` test: only the accumulator may be repeated. -/
def Value.IsCumulative : Value → Bool
  | .StringsVar => true
  | _ => false

/-- The kingpin `New`: an application with the flags that kingpin itself registers. -/
def New (name : String) : Application where
  Name := name
  defaultEnvars := false
  flags := [
    { name := "help", envar := "", defaultValues := [], preAction := none,
      value := .BoolVar .anonymous },
    { name := "help-long", envar := "", defaultValues := [],
      preAction := some .generateLongHelp, value := .BoolVar .anonymous },
    { name := "help-man", envar := "", defaultValues := [],
      preAction := some .generateManPage, value := .BoolVar .anonymous },
    { name := "completion-bash", envar := "", defaultValues := [], preAction := none,
      value := .BoolVar .completion },
    { name := "completion-script-bash", envar := "", defaultValues := [],
      preAction := some .generateBashCompletionScript, value := .BoolVar .anonymous },
    { name := "completion-script-zsh", envar := "", defaultValues := [],
      preAction := some .generateZSHCompletionScript, value := .BoolVar .anonymous }]

/-- The kingpin `Application.Version`: registers the flag `--version`, whose pre-action
prints the version and terminates. -/
def Application.Version (a : Application) : Application :=
  let flag : FlagClause :=
    { name := "version", envar := "", defaultValues := [], preAction := some .version,
      value := .BoolVar .anonymous }
  { a with flags := a.flags ++ [flag] }

/-- The kingpin `Application.DefaultEnvars`. -/
def Application.DefaultEnvars (a : Application) : Application :=
  { a with defaultEnvars := true }

/-- The chain `app.Flag(name, help).Default(defaults...).XVar(target)`. -/
def Application.Flag (a : Application) (name : String) (defaults : List String)
    (value : Value) : Application :=
  let flag : FlagClause :=
    { name := name, envar := "", defaultValues := defaults, preAction := none, value := value }
  { a with flags := a.flags ++ [flag] }

/-- Is the character matched by `[a-zA-Z0-9_]`. -/
def isEnvarChar (c : Char) : Bool := c.isAlphanum || c = '_'

/-- The replacement `envarTransformRegexp.ReplaceAllString(name, "_")` for the pattern
`[^a-zA-Z0-9_]+`: every maximal run of other characters becomes one underscore. The flag
says whether the previous character was part of such a run. -/
def replaceRuns : Bool → List Char → List Char
  | _, [] => []
  | inRun, c :: cs =>
    if isEnvarChar c then c :: replaceRuns false cs
    else if inRun then replaceRuns true cs
    else '_' :: replaceRuns true cs

/-- The kingpin `envarTransform`. -/
def envarTransform (name : String) : String :=
  strings.ToUpper (String.mk (replaceRuns false name.data))

/-- The kingpin `Application.init`, as far as it changes the flags: with `DefaultEnvars`
every flag without an explicit variable gets `envarTransform(a.Name + "_" + flag.name)`.
(The checks of `init` for duplicate or ill-formed flags are static and pass for the
flags of main.go.) -/
def Application.init (a : Application) : Application :=
  { a with flags := a.flags.map fun flag =>
      if a.defaultEnvars ∧ flag.envar = "" then
        { flag with envar := envarTransform (a.Name ++ "_" ++ flag.name) }
      else flag }

/-- The kingpin `ExpandArgsFromFile`: the lines of the file that do not start with `#`. -/
def ExpandArgsFromFile (w : World) (filename : String) : Option (List String) :=
  if filename = "" then none
  else (w.readLines filename).map fun lines => lines.filter fun line => !strings.HasPrefix line "#"

/-- The kingpin `ParseContext.Next`: the next token. The function calls itself after `--`
and after the expansion of an `@file` argument; `fuel` bounds the depth of these calls,
and `none` means that the bound was reached. No short flag is registered, so the lookup
`p.flags.short[short]` fails for every rune. -/
def ParseContext.Next (w : World) : Nat → ParseContext → Option (Token × ParseContext)
  | 0, _ => none
  | fuel + 1, p =>
    match p.peek with
    | t :: rest => some (t, { p with peek := rest })
    | [] =>
      match p.args with
      | [] => some (⟨.TokenEOL, ""⟩, p)
      | arg :: args =>
        let p := { p with args := args }
        if p.argsOnly then some (⟨.TokenArg, arg⟩, p)
        else if arg = "--" then ParseContext.Next w fuel { p with argsOnly := true }
        else if strings.HasPrefix arg "--" then
          let body := arg.data.drop 2
          let name := String.mk (body.takeWhile (fun c => c != '='))
          match body.dropWhile (fun c => c != '=') with
          | [] => some (⟨.TokenLong, name⟩, p)
          | _ :: v => some (⟨.TokenLong, name⟩, { p with peek := [⟨.TokenArg, String.mk v⟩] })
        else if strings.HasPrefix arg "-" then
          match arg.data.drop 1 with
          | [] => some (⟨.TokenShort, ""⟩, p)
          | c :: rest =>
            some (⟨.TokenShort, String.mk [c]⟩,
              if rest = [] then p else { p with args := String.mk ('-' :: rest) :: p.args })
        else if strings.HasPrefix arg "@" then
          match ExpandArgsFromFile w (String.mk (arg.data.drop 1)) with
          | none => some (⟨.TokenError, String.mk (arg.data.drop 1)⟩, p)
          | some expanded => ParseContext.Next w fuel { p with args := expanded ++ p.args }
        else some (⟨.TokenArg, arg⟩, p)

/-- The kingpin `ParseContext.Peek`: the token on top of the stack, after pushing the next
token when the stack is empty. -/
def ParseContext.Peek (w : World) (fuel : Nat) (p : ParseContext) :
    Option (Token × ParseContext) :=
  match p.peek with
  | t :: _ => some (t, p)
  | [] =>
    match p.Next w fuel with
    | none => none
    | some (t, p) => some (t, { p with peek := t :: p.peek })

/-- The lookup `f.long[name]`. -/
def lookupLong (flags : List FlagClause) (name : String) : Option FlagClause :=
  flags.find? fun flag => flag.name = name

/-- The kingpin `ParseContext.matchedFlag`. -/
def ParseContext.matchedFlag (p : ParseContext) (flag : FlagClause) (value : String) :
    ParseContext :=
  { p with Elements := p.Elements ++ [{ Clause := flag, Value := value }] }

/-- The kingpin `flagGroup.parse`: matches one flag (and its argument, unless it is a bool
flag) at the head of the context. `--no-x` inverts the bool flag `x`. -/
def flagGroupParse (w : World) (fuel : Nat) (flags : List FlagClause)
    (context : ParseContext) : Option (ParseContext × Except Error (Option FlagClause)) :=
  match context.Peek w fuel with
  | none => none
  | some (token, context) =>
    if token.Kind = .TokenLong ∨ token.Kind = .TokenShort then
      let found : Option (FlagClause × Bool) :=
        if token.Kind = .TokenLong then
          match lookupLong flags token.Value with
          | some flag => some (flag, false)
          | none =>
            if strings.HasPrefix token.Value "no-" then
              (lookupLong flags (String.mk (token.Value.data.drop 3))).map fun flag => (flag, true)
            else none
        else none
      match found with
      | none =>
        some (context, .error (if token.Kind = .TokenLong then .unknownLongFlag token.Value
          else .unknownShortFlag token.Value))
      | some (flag, invert) =>
        match context.Next w fuel with
        | none => none
        | some (_, context) =>
          if flag.value.IsBoolFlag then
            some (context.matchedFlag flag (if invert then "false" else "true"), .ok (some flag))
          else if invert then
            some ({ context with peek := token :: context.peek },
              .error (.unknownLongFlag token.Value))
          else
            match context.Peek w fuel with
            | none => none
            | some (argToken, context) =>
              if argToken.Kind ≠ .TokenArg then
                some ({ context with peek := argToken :: context.peek },
                  .error (.expectedArgument token.Value))
              else
                match context.Next w fuel with
                | none => none
                | some (_, context) => some (context.matchedFlag flag argToken.Value, .ok (some flag))
    else some (context, .ok none)

/-- The kingpin function `parse` for an application without commands and positional
arguments: flags are matched until the end of the line; a positional argument or an
error token ends the loop with an error. `fuel` bounds the number of iterations. -/
def parse (w : World) (flags : List FlagClause) :
    Nat → ParseContext → Option (ParseContext × Option Error)
  | 0, _ => none
  | fuel + 1, context =>
    match context.Peek w fuel with
    | none => none
    | some (token, context) =>
      match token.Kind with
      | .TokenEOL => some (context, none)
      | .TokenError => some (context, some (.tokenError token.Value))
      | .TokenArg => some (context, some (.unexpected token.Value))
      | _ =>
        match flagGroupParse w fuel flags context with
        | none => none
        | some (context, .error e) => some (context, some e)
        | some (context, .ok _) => parse w flags fuel context

/-- Splitting at the separators of `envVarValuesSplitter`, the pattern `\r?\n`; `cur` is
the piece being read, reversed. -/
def splitLines : List Char → List Char → List String
  | [], cur => [String.mk cur.reverse]
  | '\r' :: '\n' :: rest, cur => String.mk cur.reverse :: splitLines rest []
  | '\n' :: rest, cur => String.mk cur.reverse :: splitLines rest []
  | c :: rest, cur => splitLines rest (c :: cur)

/-- The replacement `envVarValuesTrimmer.ReplaceAllString(v, "")` for the pattern
`\r?\n$`: one line end at the very end of the value is removed. -/
def trimLineEnd (v : List Char) : List Char :=
  match v.reverse with
  | '\n' :: '\r' :: rest => rest.reverse
  | '\n' :: rest => rest.reverse
  | _ => v

/-- The kingpin `GetSplitEnvarValue`, for a non-empty value. -/
def splitEnvarValue (envarValue : String) : List String :=
  if envarValue = "" then []
  else
    match trimLineEnd envarValue.data with
    | [] => [""]
    | trimmed => splitLines trimmed []

/-- Calling `Set` for each of the values in turn, stopping at the first error. -/
def setEach (w : World) (value : Value) : List String → State → Except Error State
  | [], st => .ok st
  | s :: rest, st =>
    match value.Set w s st with
    | (_, some e) => .error e
    | (st, none) => setEach w value rest st

/-- The kingpin `GetEnvarValue`. -/
def FlagClause.GetEnvarValue (w : World) (f : FlagClause) : String :=
  if f.envar = "" then "" else w.Getenv f.envar

/-- The kingpin `FlagClause.setDefault`: a non-empty environment variable wins over the
default values; the accumulator takes one value per line of the variable. -/
def FlagClause.setDefault (w : World) (f : FlagClause) (st : State) : Except Error State :=
  if f.GetEnvarValue w ≠ "" then
    if !f.value.IsCumulative then setEach w f.value [f.GetEnvarValue w] st
    else setEach w f.value (splitEnvarValue (f.GetEnvarValue w)) st
  else setEach w f.value f.defaultValues st

/-- The loop of `setDefaults` over the flags, in the order in which they are visited:
every flag that was not matched on the command line gets its default; the first error
ends the loop. -/
def setDefaultsLoop (w : World) (matched : List String) :
    List FlagClause → State → Except Error State
  | [], st => .ok st
  | flag :: rest, st =>
    if flag.name ∈ matched then setDefaultsLoop w matched rest st
    else
      match flag.setDefault w st with
      | .error e => .error e
      | .ok st => setDefaultsLoop w matched rest st

/-- The kingpin `Application.setDefaults`: nothing is set when `--help` was matched;
otherwise the loop `for _, flag := range context.flags.long` runs over the flags, a Go
map, in the order that the runtime chooses. -/
def Application.setDefaults (a : Application) (w : World) (context : ParseContext)
    (st : State) : Except Error State :=
  if context.Elements.any (fun element => element.Clause.name = "help") then .ok st
  else
    setDefaultsLoop w (context.Elements.map fun element => element.Clause.name)
      (w.range a.flags) st

/-- The kingpin `Application.setValues`: `Set` for every matched element in order;
`flagSet` holds the names already set. The loop stops at the first error and leaves the
state as it is then. -/
def setValues (w : World) : List ParseElement → List String → State → State × Option Error
  | [], _, st => (st, none)
  | element :: rest, flagSet, st =>
    if element.Clause.name ∈ flagSet ∧ !element.Clause.value.IsCumulative then
      (st, some (.cannotBeRepeated element.Clause.name))
    else
      match element.Clause.value.Set w element.Value st with
      | (st, some e) => (st, some e)
      | (st, none) => setValues w rest (element.Clause.name :: flagSet) st

/-- The kingpin `Application.Parse`, with `a.terminate = os.Exit`: tokenize and match the
flags, set the defaults (an error here is returned at once), set the values (an error
here is kept), run the pre-actions of the matched flags unless `a.completion` is set
(each pre-action here terminates), generate the completion when `a.completion` is set,
return the parse error if any, print the usage when `--help` was matched, return the
error of `setValues` if any, and otherwise return nil. -/
def Application.Parse (a : Application) (w : World) (fuel : Nat) (cfg : Config)
    (args : List String) : Option Outcome :=
  let a := a.init
  match parse w a.flags fuel { args := args, peek := [], argsOnly := false, Elements := [] } with
  | none => none
  | some (context, parseErr) =>
    match a.setDefaults w context { cfg := cfg, completion := false } with
    | .error e => some (.err e)
    | .ok st =>
      match setValues w context.Elements [] st with
      | (st, setValuesErr) =>
        if !st.completion ∧ context.Elements.any (fun element => element.Clause.preAction.isSome)
        then some (.exit 0)
        else if st.completion then some (.exit 0)
        else
          match parseErr with
          | some e => some (.err e)
          | none =>
            if context.Elements.any (fun element => element.Clause.name = "help") then
              some (.exit 0)
            else
              match setValuesErr with
              | some e => some (.err e)
              | none => some (.ok st.cfg)

end kingpin

/-! ## main.go: ParseFlags -/

/-- The application that `ParseFlags` builds: `kingpin.New`, `Version`, `DefaultEnvars`
and the eight flags with their defaults and targets. -/
def app : kingpin.Application :=
  ((((((((((kingpin.New "nextdns-webhook").Version.DefaultEnvars
    ).Flag "domain-filter" [""] .StringsVar
    ).Flag "api-key" [defaultConfig.NextDNSAPIKey] (.StringVar .NextDNSAPIKey)
    ).Flag "profile-id" [defaultConfig.NextDNSProfileId] (.StringVar .NextDNSProfileId)
    ).Flag "log-format" [defaultConfig.LogFormat] (.EnumVar .LogFormat ["text", "json"])
    ).Flag "dry-run" [] (.BoolVar .DryRun)
    ).Flag "log-level" [defaultConfig.LogLevel] (.EnumVar .LogLevel allLogLevelsAsStrings)
    ).Flag "read-timeout" [defaultConfig.WebhookProviderReadTimeout.String]
      (.DurationVar .WebhookProviderReadTimeout)
    ).Flag "write-timeout" [defaultConfig.WebhookProviderWriteTimeout.String]
      (.DurationVar .WebhookProviderWriteTimeout))

/-- The method `Config.ParseFlags` of main.go: `app.Parse(args)` with the flags bound to
the fields of `cfg`; the error of `Parse` is returned as it is. `none` means that `fuel`
did not suffice for the tokenizer. -/
def Config.ParseFlags (w : World) (fuel : Nat) (cfg : Config) (args : List String) :
    Option kingpin.Outcome :=
  app.Parse w fuel cfg args

/-! ## Package endpoint of external-dns -/

namespace endpoint

/-- The external-dns `DomainFilter` as `NewDomainFilter` builds it: the include filters
and the (empty) exclusions; no regular expression is set. -/
structure DomainFilter where
  Filters : List String
  exclude : List String
  deriving DecidableEq, Repr

/-- The external-dns `prepareFilters`: each filter is trimmed, loses a final dot and is
lower-cased; a filter that is empty after that is dropped. -/
def prepareFilters (filters : List String) : List String :=
  (filters.map fun filter =>
    strings.ToLower (strings.TrimSuffix (strings.TrimSpace filter) ".")).filter
      fun domain => domain != ""

/-- The external-dns `NewDomainFilter`. -/
def NewDomainFilter (domainFilters : List String) : DomainFilter where
  Filters := prepareFilters domainFilters
  exclude := []

/-- The loop over the filters in the external-dns `matchFilter`. -/
def matchFilterLoop (strippedDomain : String) (emptyval : Bool) : List String → Bool
  | [] => false
  | filter :: rest =>
    if filter = "" then emptyval
    else if strings.HasPrefix filter "." && strings.HasSuffix strippedDomain filter then true
    else if strings.CountDot strippedDomain = strings.CountDot filter then
      if strippedDomain = filter then true else matchFilterLoop strippedDomain emptyval rest
    else if strings.HasSuffix strippedDomain ("." ++ filter) then true
    else matchFilterLoop strippedDomain emptyval rest

/-- The external-dns `matchFilter`: does one of the filters match the domain; with no
filter at all the answer is `emptyval`. -/
def matchFilter (filters : List String) (domain : String) (emptyval : Bool) : Bool :=
  if filters.length = 0 then emptyval
  else matchFilterLoop (strings.ToLower (strings.TrimSuffix domain ".")) emptyval filters

/-- The external-dns `DomainFilter.Match` (without a regular expression). -/
def DomainFilter.Match (df : DomainFilter) (domain : String) : Bool :=
  matchFilter df.Filters domain true && !matchFilter df.exclude domain false

end endpoint

/-! ## main.go: main -/

/-- The struct `NextDNSConfig` that `main` fills in: the four fields of its composite
literal. -/
structure NextDNSConfig where
  DryRun : Bool
  NextDNSAPIKey : String
  NextDNSProfileId : String
  DomainFilter : endpoint.DomainFilter
  deriving DecidableEq, Repr

/-- What `main` does to the outside, in order: calls into logrus, the construction of
the provider, the start of the webhook server, and the ways it ends the process.
`P` is the type of the provider that `NewNextDNSProvider` returns. -/
inductive Effect (P : Type) where
  /-- The call `log.SetFormatter(&log.JSONFormatter{})`. -/
  | SetFormatterJSON
  /-- The call `log.Info(message)`. -/
  | Info (message : String)
  /-- The call `log.SetLevel(level)`. -/
  | SetLevel (level : logrus.Level)
  /-- The call `NewNextDNSProvider(config)`. -/
  | NewNextDNSProvider (config : NextDNSConfig)
  /-- The call `webhook.StartHTTPApi(provider, make(chan struct{}), readTimeout,
  writeTimeout, providerPort)`. -/
  | StartHTTPApi (provider : P) (readTimeout writeTimeout : time.Duration)
      (providerPort : String)
  /-- The call `log.Fatalf(format, err)`, which logs and exits with status 1. -/
  | Fatalf (format : String) (err : Error)
  /-- The process was terminated by kingpin inside `ParseFlags`. -/
  | Exit (code : Nat)
  deriving DecidableEq, Repr

/-- The function `main` of main.go, as the list of its effects. `args` is `os.Args[1:]`;
`NewNextDNSProvider` is the constructor of the provider, defined elsewhere in the
package. `none` means that `fuel` did not suffice for `ParseFlags`. -/
def main {P : Type} (w : World) (fuel : Nat)
    (NewNextDNSProvider : NextDNSConfig → Except Error P) (args : List String) :
    Option (List (Effect P)) :=
  match Config.ParseFlags w fuel Config.zero args with
  | none => none
  | some (.exit code) => some [.Exit code]
  | some (.err err) => some [.Fatalf "flag parsing error: %v" err]
  | some (.ok cfg) =>
    let fx : List (Effect P) := if cfg.LogFormat = "json" then [.SetFormatterJSON] else []
    let fx := if cfg.DryRun then
      fx ++ [.Info "running in dry-run mode. No changes to DNS records will be made."] else fx
    match logrus.ParseLevel cfg.LogLevel with
    | .error err => some (fx ++ [.Fatalf "failed to parse log level: %v" err])
    | .ok logLevel =>
      let fx := fx ++ [.SetLevel logLevel]
      let config : NextDNSConfig :=
        { DryRun := cfg.DryRun
          NextDNSAPIKey := cfg.NextDNSAPIKey
          NextDNSProfileId := cfg.NextDNSProfileId
          DomainFilter := endpoint.NewDomainFilter cfg.DomainFilter }
      let fx := fx ++ [.NewNextDNSProvider config]
      match NewNextDNSProvider config with
      | .error err => some (fx ++ [.Fatalf "failed to create NextDNS provider: %v" err])
      | .ok dnsProvider =>
        some (fx ++ [.StartHTTPApi dnsProvider cfg.WebhookProviderReadTimeout
          cfg.WebhookProviderWriteTimeout "127.0.0.1:8888"])

namespace kingpin

/-- The places in memory that `Config.ParseFlags` can touch: the fields of `Config` by
type, `a.completion`, the anonymous bool variables of kingpin, and the field
`WebhookProviderURL`, to which no flag is bound. -/
inductive Slot where
  | str (p : StringPtr)
  | strs
  | bool (p : BoolPtr)
  | dur (p : DurationPtr)
  | url
  deriving DecidableEq, Repr

/-- The content of a slot. -/
inductive Stored where
  | s (x : String)
  | l (x : List String)
  | b (x : Bool)
  | d (x : time.Duration)
  deriving DecidableEq, Repr

/-- The slot that a value writes to. -/
def Value.slot : Value → Slot
  | .StringVar p => .str p
  | .StringsVar => .strs
  | .EnumVar p _ => .str p
  | .BoolVar p => .bool p
  | .DurationVar p => .dur p

/-- Reading a slot of the state (an anonymous variable is never read). -/
def State.read (st : State) : Slot → Stored
  | .str .NextDNSAPIKey => .s st.cfg.NextDNSAPIKey
  | .str .NextDNSProfileId => .s st.cfg.NextDNSProfileId
  | .str .LogFormat => .s st.cfg.LogFormat
  | .str .LogLevel => .s st.cfg.LogLevel
  | .strs => .l st.cfg.DomainFilter
  | .bool .DryRun => .b st.cfg.DryRun
  | .bool .completion => .b st.completion
  | .bool .anonymous => .b false
  | .dur .WebhookProviderReadTimeout => .d st.cfg.WebhookProviderReadTimeout
  | .dur .WebhookProviderWriteTimeout => .d st.cfg.WebhookProviderWriteTimeout
  | .url => .s st.cfg.WebhookProviderURL

/-- Putting matched elements in front of those of a context. -/
def ParseContext.addPre (pre : List ParseElement) (p : ParseContext) : ParseContext :=
  { p with Elements := pre ++ p.Elements }

/-- The part of `Application.Parse` that follows the tokenizing and matching, for an
application that is initialized: from the matched elements and the parse error to the
outcome. -/
def Application.finish (a : Application) (w : World) (Elements : List ParseElement)
    (parseErr : Option Error) (cfg : Config) : Outcome :=
  match a.setDefaults w ⟨[], [], false, Elements⟩ { cfg := cfg, completion := false } with
  | .error e => .err e
  | .ok st =>
    match setValues w Elements [] st with
    | (st, setValuesErr) =>
      if !st.completion ∧ Elements.any (fun element => element.Clause.preAction.isSome)
      then .exit 0
      else if st.completion then .exit 0
      else
        match parseErr with
        | some e => .err e
        | none =>
          if Elements.any (fun element => element.Clause.name = "help") then .exit 0
          else
            match setValuesErr with
            | some e => .err e
            | none => .ok st.cfg

end kingpin

/-- The world after `os.Setenv(key, value)`; the empty value stands for an unset
variable, which `os.Getenv` does not tell apart. -/
def World.setenv (w : World) (key value : String) : World :=
  { w with Getenv := fun k => if k = key then value else w.Getenv k }

/-- The world in which the file `name` holds the given lines. -/
def World.withFile (w : World) (name : String) (lines : List String) : World :=
  { w with readLines := fun file => if file = name then some lines else w.readLines file }

/-- The elements that kingpin matches on a command line: the flags that `args` supply
to `Config.ParseFlags`, each with its value, in order (up to the first parse error). -/
def matchedElements (w : World) (fuel : Nat) (args : List String) : List kingpin.ParseElement :=
  match kingpin.parse w app.init.flags fuel
      { args := args, peek := [], argsOnly := false, Elements := [] } with
  | some (context, _) => context.Elements
  | none => []

/-- The flag `--log-format` as `ParseFlags` registers it and `init` completes it. -/
def logFormatFlag : kingpin.FlagClause where
  name := "log-format"
  envar := "NEXTDNS_WEBHOOK_LOG_FORMAT"
  defaultValues := ["text"]
  preAction := none
  value := .EnumVar .LogFormat ["text", "json"]

/-- The flag `--log-level` as `ParseFlags` registers it and `init` completes it. -/
def logLevelFlag : kingpin.FlagClause where
  name := "log-level"
  envar := "NEXTDNS_WEBHOOK_LOG_LEVEL"
  defaultValues := ["info"]
  preAction := none
  value := .EnumVar .LogLevel allLogLevelsAsStrings

/-- The flag `--read-timeout` as `ParseFlags` registers it and `init` completes it. -/
def readTimeoutFlag : kingpin.FlagClause where
  name := "read-timeout"
  envar := "NEXTDNS_WEBHOOK_READ_TIMEOUT"
  defaultValues := ["5s"]
  preAction := none
  value := .DurationVar .WebhookProviderReadTimeout

/-- The flag `--write-timeout` as `ParseFlags` registers it and `init` completes it. -/
def writeTimeoutFlag : kingpin.FlagClause where
  name := "write-timeout"
  envar := "NEXTDNS_WEBHOOK_WRITE_TIMEOUT"
  defaultValues := ["10s"]
  preAction := none
  value := .DurationVar .WebhookProviderWriteTimeout

/-- The flag `--domain-filter` as `ParseFlags` registers it and `init` completes it. -/
def domainFilterFlag : kingpin.FlagClause where
  name := "domain-filter"
  envar := "NEXTDNS_WEBHOOK_DOMAIN_FILTER"
  defaultValues := [""]
  preAction := none
  value := .StringsVar

/-- The flag `--dry-run` as `ParseFlags` registers it and `init` completes it. -/
def dryRunFlag : kingpin.FlagClause where
  name := "dry-run"
  envar := "NEXTDNS_WEBHOOK_DRY_RUN"
  defaultValues := []
  preAction := none
  value := .BoolVar .DryRun

/-- The flag `--api-key` as `ParseFlags` registers it and `init` completes it. -/
def apiKeyFlag : kingpin.FlagClause where
  name := "api-key"
  envar := "NEXTDNS_WEBHOOK_API_KEY"
  defaultValues := [""]
  preAction := none
  value := .StringVar .NextDNSAPIKey

/-- The flag `--profile-id` as `ParseFlags` registers it and `init` completes it. -/
def profileIdFlag : kingpin.FlagClause where
  name := "profile-id"
  envar := "NEXTDNS_WEBHOOK_PROFILE_ID"
  defaultValues := [""]
  preAction := none
  value := .StringVar .NextDNSProfileId

/-- The eight flags that `ParseFlags` registers. -/
def ownFlags : List kingpin.FlagClause :=
  [domainFilterFlag, apiKeyFlag, profileIdFlag, logFormatFlag, dryRunFlag, logLevelFlag,
    readTimeoutFlag, writeTimeoutFlag]

/-- A world without environment variables and without readable files, in which maps are
visited in the order of insertion. -/
def World.empty : World where
  Getenv := fun _ => ""
  readLines := fun _ => none
  fracNanos := fun _ _ _ => 0
  rangeOrder := List.range
  rangeOrder_perm := fun _ => List.Perm.refl _

/-- A world without environment variables and without readable files, in which maps are
visited in the reverse order of insertion. -/
def World.backwards : World where
  Getenv := fun _ => ""
  readLines := fun _ => none
  fracNanos := fun _ _ _ => 0
  rangeOrder := fun n => (List.range n).reverse
  rangeOrder_perm := fun n => List.reverse_perm (List.range n)

/-- The `Config` that `ParseFlags` fills in from `Config{}` when nothing is supplied. -/
def Config.parsedDefaults : Config where
  DomainFilter := [""]
  NextDNSAPIKey := ""
  NextDNSProfileId := ""
  LogFormat := "text"
  DryRun := false
  LogLevel := "info"
  WebhookProviderReadTimeout := 5 * time.Second
  WebhookProviderWriteTimeout := 10 * time.Second
  WebhookProviderURL := ""

/-! ## The provider adapter

The adapter (record mapper, capability filter, reconciliation engine) is code of the
package that is not part of main.go; it is modelled from the specification.
-/

namespace adapter

/-- Modelled from the spec: the record types of an Endpoint, `enum{A, AAAA, CNAME, TXT,
...}` of section 3; the adapter source is missing. -/
inductive RecordType where
  | A | AAAA | CNAME | TXT
  | other (name : String)
  deriving DecidableEq, Repr

/-- Modelled from the spec: the Endpoint of section 3 (dnsName, recordType, targets,
optional TTL in seconds, labels); the adapter source is missing. -/
structure Endpoint where
  dnsName : String
  recordType : RecordType
  targets : List String
  recordTTL : Option Int
  labels : List (String × String)
  deriving DecidableEq, Repr

/-- Modelled from the spec: the ChangeSet of section 3; the adapter source is missing. -/
structure ChangeSet where
  create : List Endpoint
  updateOld : List Endpoint
  updateNew : List Endpoint
  delete : List Endpoint
  deriving DecidableEq, Repr

/-- Modelled from the spec: the VendorRewriteRule of section 3, one rule per pair of
hostname and target; the adapter source is missing. -/
structure VendorRewriteRule where
  id : String
  hostname : String
  targetAddress : String
  deriving DecidableEq, Repr

/-- Modelled from the spec: a pair `{hostname, targetAddress}` as `toVendorRules`
returns it (section 4.2); the adapter source is missing. -/
structure RulePair where
  hostname : String
  targetAddress : String
  deriving DecidableEq, Repr

/-- Modelled from the spec: the ProviderConfig of section 3; the adapter source is
missing. -/
structure ProviderConfig where
  apiKey : String
  profileId : String
  domainFilter : endpoint.DomainFilter
  dryRun : Bool
  deriving DecidableEq, Repr

/-- Modelled from the spec: splitting a text at a separator character, used to read
address literals; the adapter source is missing. `cur` is the field being read,
reversed. -/
def splitAt (sep : Char) : List Char → List Char → List (List Char)
  | [], cur => [cur.reverse]
  | c :: rest, cur =>
    if c = sep then cur.reverse :: splitAt sep rest [] else splitAt sep rest (c :: cur)

/-- Modelled from the spec: one field of a dotted-decimal IPv4 literal, one to three
digits with a value of at most 255; the adapter source is missing. -/
def isOctet (field : List Char) : Bool :=
  field ≠ [] && field.length ≤ 3 && field.all time.isDigit &&
    field.foldl (fun n c => 10 * n + (c.toNat - 48)) 0 ≤ 255

/-- Modelled from the spec: "IPv4 literal" of section 4.2, read as four dotted decimal
octets; the adapter source is missing. -/
def isIPv4Literal (target : String) : Bool :=
  (splitAt '.' target.data []).length = 4 && (splitAt '.' target.data []).all isOctet

/-- Modelled from the spec: one group of an IPv6 literal, one to four hexadecimal
digits; the adapter source is missing. -/
def isHexGroup (group : List Char) : Bool :=
  group ≠ [] && group.length ≤ 4 &&
    group.all fun c => time.isDigit c || (decide ('a' ≤ c) && decide (c ≤ 'f')) ||
      (decide ('A' ≤ c) && decide (c ≤ 'F'))

/-- Modelled from the spec: the number of 16-bit groups that a colon-separated list
stands for, when every group is hexadecimal, the last one possibly a dotted IPv4 tail
(two groups); the adapter source is missing. -/
def groupCount (text : List Char) (tailIPv4 : Bool) : Option Nat :=
  if text = [] then some 0
  else
    match (splitAt ':' text []).reverse with
    | [] => some 0
    | last :: front =>
      if front.all isHexGroup then
        if isHexGroup last then some (front.length + 1)
        else if tailIPv4 && isIPv4Literal (String.mk last) then some (front.length + 2)
        else none
      else none

/-- Modelled from the spec: the text before and after the first `::`; the adapter source
is missing. `seen` is the text read so far, reversed. -/
def splitAtGap : List Char → List Char → Option (List Char × List Char)
  | [], _ => none
  | [_], _ => none
  | c :: d :: rest, seen =>
    if c = ':' ∧ d = ':' then some (seen.reverse, rest) else splitAtGap (d :: rest) (c :: seen)

/-- Modelled from the spec: "IPv6 literal" of section 4.2, read as the text forms of
RFC 4291: eight groups, or fewer groups around one `::`; the adapter source is
missing. -/
def isIPv6Literal (target : String) : Bool :=
  match splitAtGap target.data [] with
  | none => groupCount target.data true = some 8
  | some (left, right) =>
    match groupCount left false, groupCount right true with
    | some m, some n => decide (m + n ≤ 7)
    | _, _ => false

/-- Modelled from the spec: the record type inferred from the syntax of a target address
(section 4.2): IPv4 literal gives A, IPv6 literal gives AAAA, anything else CNAME; the
adapter source is missing. -/
def inferRecordType (target : String) : RecordType :=
  if isIPv4Literal target then .A else if isIPv6Literal target then .AAAA else .CNAME

/-- Modelled from the spec: `toVendorRules` of section 4.2, one pair per target with the
dnsName as hostname; the adapter source is missing. -/
def toVendorRules (e : Endpoint) : List RulePair :=
  e.targets.map fun target => { hostname := e.dnsName, targetAddress := target }

/-- Modelled from the spec: the pair `{hostname, targetAddress}` of a rule that the
vendor holds, the rule without its id (section 3); the adapter source is missing. -/
def VendorRewriteRule.pair (rule : VendorRewriteRule) : RulePair :=
  { hostname := rule.hostname, targetAddress := rule.targetAddress }

/-- Modelled from the spec: the hostnames of a list of rules, each once, in the order of
their first rule (the groups of `toEndpoints`); the adapter source is missing. -/
def hostnames : List VendorRewriteRule → List String
  | [] => []
  | rule :: rest => rule.hostname :: (hostnames rest).filter fun h => h != rule.hostname

/-- Modelled from the spec: `toEndpoints` of section 4.2: the rules are grouped by
hostname, all targets of a hostname are collected into one Endpoint, the record type is
inferred from the syntax of the (first) target and the TTL is empty; the adapter source
is missing. -/
def toEndpoints (rules : List VendorRewriteRule) : List Endpoint :=
  (hostnames rules).map fun h =>
    let targets := (rules.filter fun rule => rule.hostname = h).map fun rule =>
      rule.targetAddress
    { dnsName := h
      recordType := match targets with
        | [] => .CNAME
        | target :: _ => inferRecordType target
      targets := targets
      recordTTL := none
      labels := [] }

/-- Modelled from the spec: `isSupported` of section 4.3; the adapter source is
missing. -/
def isSupported (cfg : ProviderConfig) (e : Endpoint) : Bool :=
  (e.recordType = .A || e.recordType = .AAAA || e.recordType = .CNAME) &&
    e.dnsName != "" && cfg.domainFilter.Match e.dnsName

/-- Modelled from the spec: the error taxonomy of the vendor client (sections 4.1 and
7); the adapter source is missing. -/
inductive VendorError where
  | TransientError | AuthError | FatalError | NotFoundError
  deriving DecidableEq, Repr

/-- Modelled from the spec: the calls of the vendor API client (section 4.1); the
adapter source is missing. -/
inductive VendorCall where
  | listRules (profileId : String)
  | createRule (profileId hostname targetAddress : String)
  | deleteRule (profileId ruleId : String)
  deriving DecidableEq, Repr

/-- Modelled from the spec: the remote service: the rewrite rules it holds, a counter
for fresh rule ids, and which calls fail; the adapter source is missing. -/
structure Vendor where
  rules : List VendorRewriteRule
  nextId : Nat
  failure : VendorCall → Option VendorError

/-- Modelled from the spec: a planned vendor-level operation of section 4.4 step 3, for
one hostname and target; the adapter source is missing. -/
inductive Operation where
  | createRule (hostname targetAddress : String)
  | deleteRule (hostname targetAddress : String)
  deriving DecidableEq, Repr

/-- Modelled from the spec: the operations for one pair of `updateOld` and `updateNew`
(section 4.4 step 3): targets only in the old endpoint are deleted, targets only in the
new one are created, common targets are left alone; the adapter source is missing. -/
def updateOperations (old new : Endpoint) : List Operation :=
  ((old.targets.filter fun t => !new.targets.contains t).map fun t =>
      Operation.deleteRule old.dnsName t) ++
    ((new.targets.filter fun t => !old.targets.contains t).map fun t =>
      Operation.createRule new.dnsName t)

/-- Modelled from the spec: steps 1 to 3 of `ApplyChanges` (section 4.4): entries out of
the DomainFilter are dropped, the others are validated against the capability filter,
and the valid ones are turned into operations; the second component lists the endpoints
that fail validation; the adapter source is missing. -/
def planOperations (cfg : ProviderConfig) (changes : ChangeSet) :
    List Operation × List Endpoint :=
  let inScope := fun (e : Endpoint) => cfg.domainFilter.Match e.dnsName
  let create := changes.create.filter inScope
  let delete := changes.delete.filter inScope
  let updateOld := changes.updateOld.filter inScope
  let updateNew := changes.updateNew.filter inScope
  let invalid := (create ++ delete ++ updateOld ++ updateNew).filter fun e =>
    !isSupported cfg e
  let creates := (create.filter (isSupported cfg)).flatMap fun e =>
    e.targets.map fun t => Operation.createRule e.dnsName t
  let deletes := (delete.filter (isSupported cfg)).flatMap fun e =>
    e.targets.map fun t => Operation.deleteRule e.dnsName t
  let updates := (updateOld.filter (isSupported cfg)).flatMap fun old =>
    match (updateNew.filter (isSupported cfg)).find? fun new =>
        new.dnsName = old.dnsName ∧ new.recordType = old.recordType with
    | some new => updateOperations old new
    | none => []
  (creates ++ deletes ++ updates, invalid)

/-- Modelled from the spec: deleting the rules with the given ids one call at a time; an
id that the vendor no longer has (NotFoundError) counts as deleted (section 4.1); the
adapter source is missing. -/
def deleteRules (profileId : String) :
    List String → Vendor → List VendorCall → Vendor × List VendorCall × Option VendorError
  | [], vendor, calls => (vendor, calls, none)
  | id :: rest, vendor, calls =>
    let call := VendorCall.deleteRule profileId id
    match vendor.failure call with
    | some .NotFoundError => deleteRules profileId rest vendor (calls ++ [call])
    | some err => (vendor, calls ++ [call], some err)
    | none =>
      deleteRules profileId rest
        { vendor with rules := vendor.rules.filter fun rule => rule.id != id } (calls ++ [call])

/-- Modelled from the spec: the live execution of one operation (section 4.4 steps 3 and
4): a create calls `createRule` and adds the rule unless an identical one exists; a
delete looks the rule ids up with a fresh `listRules` and calls `deleteRule` for each
match; the adapter source is missing. -/
def executeOperation (cfg : ProviderConfig) (vendor : Vendor) (calls : List VendorCall) :
    Operation → Vendor × List VendorCall × Option VendorError
  | .createRule hostname target =>
    let call := VendorCall.createRule cfg.profileId hostname target
    match vendor.failure call with
    | some err => (vendor, calls ++ [call], some err)
    | none =>
      if vendor.rules.any fun rule => rule.hostname = hostname ∧ rule.targetAddress = target
      then (vendor, calls ++ [call], none)
      else
        ({ vendor with
            rules := vendor.rules ++ [⟨toString vendor.nextId, hostname, target⟩]
            nextId := vendor.nextId + 1 }, calls ++ [call], none)
  | .deleteRule hostname target =>
    let call := VendorCall.listRules cfg.profileId
    match vendor.failure call with
    | some err => (vendor, calls ++ [call], some err)
    | none =>
      deleteRules cfg.profileId
        ((vendor.rules.filter fun rule =>
          rule.hostname = hostname ∧ rule.targetAddress = target).map fun rule => rule.id)
        vendor (calls ++ [call])

/-- Modelled from the spec: the live execution of the operation list, each operation
independently of the failures of the others (section 4.4 step 5); the adapter source is
missing. -/
def executeAll (cfg : ProviderConfig) :
    List Operation → Vendor → List VendorCall → List (Operation × Option VendorError) →
      Vendor × List VendorCall × List (Operation × Option VendorError)
  | [], vendor, calls, recorded => (vendor, calls, recorded)
  | op :: rest, vendor, calls, recorded =>
    match executeOperation cfg vendor calls op with
    | (vendor, calls, result) => executeAll cfg rest vendor calls (recorded ++ [(op, result)])

/-- Modelled from the spec: what `ApplyChanges` leaves behind: the remote service, the
vendor calls made, each planned operation with its result, and the endpoints that failed
validation; the adapter source is missing. -/
structure ApplyResult where
  vendor : Vendor
  calls : List VendorCall
  recorded : List (Operation × Option VendorError)
  invalid : List Endpoint

/-- Modelled from the spec: `ApplyChanges` of section 4.4: plan, then execute; in
dry-run mode no network call is made and each planned operation is recorded as if it
succeeded; the adapter source is missing. -/
def ApplyChanges (cfg : ProviderConfig) (vendor : Vendor) (changes : ChangeSet) :
    ApplyResult :=
  match planOperations cfg changes with
  | (operations, invalid) =>
    if cfg.dryRun then
      { vendor := vendor, calls := [], recorded := operations.map fun op => (op, none),
        invalid := invalid }
    else
      match executeAll cfg operations vendor [] [] with
      | (vendor, calls, recorded) =>
        { vendor := vendor, calls := calls, recorded := recorded, invalid := invalid }

/-- Modelled from the spec: the aggregated result of `ApplyChanges` (section 4.4 step
5): success when no operation and no validation failed; the adapter source is
missing. -/
def ApplyResult.success (r : ApplyResult) : Bool :=
  r.invalid.isEmpty && r.recorded.all fun entry => entry.2.isNone

end adapter

theorem range_getElem {α : Type} (xs : List α) :
    (List.range xs.length).filterMap (fun i => xs[i]?) = xs := by
  induction xs using List.reverseRecOn with
  | nil => rfl
  | append_singleton ys a ih =>
    rw [List.length_append, List.length_singleton, List.range_succ, List.filterMap_append]
    have h1 : (List.range ys.length).filterMap (fun i => (ys ++ [a])[i]?) =
        (List.range ys.length).filterMap (fun i => ys[i]?) := by
      apply List.filterMap_congr
      intro i hi
      rw [List.getElem?_append_left (List.mem_range.1 hi)]
    rw [h1, ih]
    simp

/-- A `range` loop over a map visits the entries of the map, each once. -/
theorem World.range_perm {α : Type} (w : World) (entries : List α) :
    (w.range entries).Perm entries := by
  have h := (w.rangeOrder_perm entries.length).filterMap (fun i => entries[i]?)
  rw [range_getElem] at h
  exact h

theorem World.range_mem {α : Type} (w : World) (entries : List α) (x : α) :
    x ∈ w.range entries ↔ x ∈ entries :=
  (w.range_perm entries).mem_iff

namespace kingpin

theorem Next_addPre (w : World) (pre : List ParseElement) :
    ∀ (fuel : Nat) (p : ParseContext),
      (p.addPre pre).Next w fuel = (p.Next w fuel).map fun r => (r.1, r.2.addPre pre)
  | 0, p => by simp [ParseContext.Next]
  | fuel + 1, p => by
    have ih := Next_addPre w pre fuel
    obtain ⟨args, peek, argsOnly, Elements⟩ := p
    simp only [ParseContext.Next, ParseContext.addPre]
    cases peek with
    | cons t rest => simp
    | nil =>
      cases args with
      | nil => simp
      | cons arg args =>
        simp only []
        split_ifs
        · simp
        · simpa [ParseContext.addPre] using ih ⟨args, [], true, Elements⟩
        · split <;> simp
        · split
          · simp
          · split_ifs <;> simp
        · split
          · simp
          · simpa [ParseContext.addPre] using ih ⟨_ ++ args, [], argsOnly, Elements⟩
        · simp

theorem Peek_addPre (w : World) (pre : List ParseElement) (fuel : Nat) (p : ParseContext) :
    (p.addPre pre).Peek w fuel = (p.Peek w fuel).map fun r => (r.1, r.2.addPre pre) := by
  unfold ParseContext.Peek
  rw [Next_addPre]
  obtain ⟨args, peek, argsOnly, Elements⟩ := p
  cases peek with
  | cons t rest => simp [ParseContext.addPre]
  | nil =>
    simp only [ParseContext.addPre]
    cases h : ParseContext.Next w fuel ⟨args, [], argsOnly, Elements⟩ with
    | none => simp
    | some r => simp [ParseContext.addPre]

theorem matchedFlag_addPre (pre : List ParseElement) (p : ParseContext) (flag : FlagClause)
    (value : String) :
    (p.addPre pre).matchedFlag flag value = (p.matchedFlag flag value).addPre pre := by
  simp [ParseContext.addPre, ParseContext.matchedFlag]

theorem flagGroupParse_addPre (w : World) (pre : List ParseElement) (fuel : Nat)
    (flags : List FlagClause) (p : ParseContext) :
    flagGroupParse w fuel flags (p.addPre pre) =
      (flagGroupParse w fuel flags p).map fun r => (r.1.addPre pre, r.2) := by
  unfold flagGroupParse
  rw [Peek_addPre]
  cases h1 : p.Peek w fuel with
  | none => simp
  | some r1 =>
    obtain ⟨token, p1⟩ := r1
    simp only [Option.map_some']
    by_cases hk : token.Kind = .TokenLong ∨ token.Kind = .TokenShort
    · simp only [hk, if_true]
      generalize (if token.Kind = TokenType.TokenLong then
          match lookupLong flags token.Value with
          | some flag => some (flag, false)
          | none =>
            if strings.HasPrefix token.Value "no-" then
              (lookupLong flags (String.mk (token.Value.data.drop 3))).map fun flag => (flag, true)
            else none
        else none) = found
      cases found with
      | none => simp
      | some fi =>
        obtain ⟨flag, invert⟩ := fi
        simp only []
        rw [Next_addPre]
        cases h2 : p1.Next w fuel with
        | none => simp
        | some r2 =>
          obtain ⟨t2, p2⟩ := r2
          simp only [Option.map_some']
          by_cases hb : flag.value.IsBoolFlag = true
          · simp [hb, matchedFlag_addPre]
          · by_cases hi : invert = true
            · simp [hb, hi, ParseContext.addPre]
            · simp only [hb, hi, if_false]
              rw [Peek_addPre]
              cases h3 : p2.Peek w fuel with
              | none => simp
              | some r3 =>
                obtain ⟨t3, p3⟩ := r3
                simp only [Option.map_some']
                by_cases ha : t3.Kind ≠ .TokenArg
                · simp [ha, ParseContext.addPre]
                · simp only [ha, if_false]
                  rw [Next_addPre]
                  cases h4 : p3.Next w fuel with
                  | none => simp
                  | some r4 => simp [matchedFlag_addPre]
    · simp [hk]

theorem parse_addPre (w : World) (pre : List ParseElement) (flags : List FlagClause) :
    ∀ (fuel : Nat) (p : ParseContext),
      parse w flags fuel (p.addPre pre) =
        (parse w flags fuel p).map fun r => (r.1.addPre pre, r.2)
  | 0, p => by simp [parse]
  | fuel + 1, p => by
    have ih := parse_addPre w pre flags fuel
    simp only [parse]
    rw [Peek_addPre]
    cases h1 : p.Peek w fuel with
    | none => simp
    | some r1 =>
      obtain ⟨token, p1⟩ := r1
      simp only [Option.map_some']
      cases hk : token.Kind <;> simp only [] <;> try simp
      all_goals
        rw [flagGroupParse_addPre]
        cases h2 : flagGroupParse w fuel flags p1 with
        | none => simp
        | some r2 =>
          obtain ⟨p2, res⟩ := r2
          cases res with
          | error e => simp
          | ok f => simpa using ih p2

theorem Next_Elements (w : World) :
    ∀ (fuel : Nat) (p : ParseContext) (t : Token) (p' : ParseContext),
      p.Next w fuel = some (t, p') → p'.Elements = p.Elements
  | 0, p, t, p', h => by simp [ParseContext.Next] at h
  | fuel + 1, p, t, p', h => by
    have ih := Next_Elements w fuel
    obtain ⟨args, peek, argsOnly, Elements⟩ := p
    simp only [ParseContext.Next] at h
    cases peek with
    | cons t rest => simp at h; rw [← h.2]
    | nil =>
      cases args with
      | nil => simp at h; rw [← h.2]
      | cons arg args =>
        simp only [] at h
        split_ifs at h
        · simp at h; rw [← h.2]
        · exact (ih _ _ _ h).trans rfl
        · split at h <;> (simp at h; rw [← h.2])
        · split at h
          · simp at h; rw [← h.2]
          · split_ifs at h <;> (simp at h; rw [← h.2])
        · split at h
          · simp at h; rw [← h.2]
          · exact (ih _ _ _ h).trans rfl
        · simp at h; rw [← h.2]

theorem Peek_Elements (w : World) (fuel : Nat) (p : ParseContext) (t : Token)
    (p' : ParseContext) (h : p.Peek w fuel = some (t, p')) : p'.Elements = p.Elements := by
  unfold ParseContext.Peek at h
  split at h
  · simp at h; rw [← h.2]
  · cases h1 : p.Next w fuel with
    | none => simp [h1] at h
    | some r =>
      simp [h1] at h
      rw [← h.2]
      exact Next_Elements w fuel p r.1 r.2 h1

theorem lookupLong_some {flags : List FlagClause} {name : String} {flag : FlagClause}
    (h : lookupLong flags name = some flag) : flag ∈ flags := by
  unfold lookupLong at h
  exact List.mem_of_find?_eq_some h

/-- What `flagGroupParse` does to the matched elements: nothing, or one more element at
the end, for a flag of the table. -/
theorem flagGroupParse_Elements (w : World) (fuel : Nat) (flags : List FlagClause)
    (p p' : ParseContext) (r : Except Error (Option FlagClause))
    (h : flagGroupParse w fuel flags p = some (p', r)) :
    p'.Elements = p.Elements ∨
      ∃ flag value, flag ∈ flags ∧ p'.Elements = p.Elements ++ [⟨flag, value⟩] := by
  unfold flagGroupParse at h
  cases h1 : p.Peek w fuel with
  | none => simp [h1] at h
  | some r1 =>
    obtain ⟨token, p1⟩ := r1
    have e1 := Peek_Elements w fuel p token p1 h1
    simp only [h1] at h
    by_cases hk : token.Kind = .TokenLong ∨ token.Kind = .TokenShort
    · simp only [hk, if_true] at h
      split at h
      · simp at h; left; rw [← h.1, e1]
      · rename_i found flag invert hfound
        have hmem : flag ∈ flags := by
          by_cases hl : token.Kind = .TokenLong
          · simp only [hl, if_true] at hfound
            cases hf : lookupLong flags token.Value with
            | some f =>
              simp [hf] at hfound
              rw [← hfound.1]; exact lookupLong_some hf
            | none =>
              simp only [hf] at hfound
              by_cases hn : strings.HasPrefix token.Value "no-" = true
              · simp [hn] at hfound
                obtain ⟨a, ha, hb⟩ := hfound
                rw [← hb.1]
                exact lookupLong_some ha
              · simp [hn] at hfound
          · simp [hl] at hfound
        cases h2 : p1.Next w fuel with
        | none => simp [h2] at h
        | some r2 =>
          obtain ⟨t2, p2⟩ := r2
          have e2 := Next_Elements w fuel p1 t2 p2 h2
          simp only [h2] at h
          by_cases hb : flag.value.IsBoolFlag = true
          · simp only [hb, if_true] at h
            simp at h
            right
            refine ⟨flag, (if invert = true then "false" else "true"), hmem, ?_⟩
            rw [← h.1]
            simp [ParseContext.matchedFlag, e2, e1]
          · by_cases hi : invert = true
            · simp [hb, hi] at h
              left; rw [← h.1]; simp [e2, e1]
            · simp only [hb, hi, if_false] at h
              cases h3 : p2.Peek w fuel with
              | none => simp [h3] at h
              | some r3 =>
                obtain ⟨t3, p3⟩ := r3
                have e3 := Peek_Elements w fuel p2 t3 p3 h3
                simp only [h3] at h
                by_cases ha : t3.Kind ≠ .TokenArg
                · simp [ha] at h
                  left; rw [← h.1]; simp [e3, e2, e1]
                · simp only [ha, if_false] at h
                  cases h4 : p3.Next w fuel with
                  | none => simp [h4] at h
                  | some r4 =>
                    obtain ⟨t4, p4⟩ := r4
                    have e4 := Next_Elements w fuel p3 t4 p4 h4
                    simp [h4] at h
                    right
                    refine ⟨flag, t3.Value, hmem, ?_⟩
                    rw [← h.1]
                    simp [ParseContext.matchedFlag, e4, e3, e2, e1]
    · simp [hk] at h
      left; rw [← h.1, e1]

/-- Every element that `parse` adds is for a flag of the table. -/
theorem parse_Elements_mem (w : World) (flags : List FlagClause) :
    ∀ (fuel : Nat) (p p' : ParseContext) (e : Option Error),
      parse w flags fuel p = some (p', e) →
      (∀ el ∈ p.Elements, el.Clause ∈ flags) → ∀ el ∈ p'.Elements, el.Clause ∈ flags
  | 0, p, p', e, h, _ => by simp [parse] at h
  | fuel + 1, p, p', e, h, hp => by
    have ih := parse_Elements_mem w flags fuel
    simp only [parse] at h
    cases h1 : p.Peek w fuel with
    | none => simp [h1] at h
    | some r1 =>
      obtain ⟨token, p1⟩ := r1
      have e1 := Peek_Elements w fuel p token p1 h1
      simp only [h1] at h
      have key : ∀ q r, flagGroupParse w fuel flags p1 = some (q, r) →
          ∀ el ∈ q.Elements, el.Clause ∈ flags := by
        intro q r hq el hel
        rcases flagGroupParse_Elements w fuel flags p1 q r hq with h' | ⟨flag, value, hm, h'⟩
        · rw [h', e1] at hel; exact hp el hel
        · rw [h', e1] at hel
          rcases List.mem_append.1 hel with h'' | h''
          · exact hp el h''
          · simp at h''; rw [h'']; exact hm
      cases hk : token.Kind <;> simp only [hk] at h
      case TokenEOL => simp at h; rw [← h.1, e1]; exact hp
      case TokenError => simp at h; rw [← h.1, e1]; exact hp
      case TokenArg => simp at h; rw [← h.1, e1]; exact hp
      all_goals
        cases h2 : flagGroupParse w fuel flags p1 with
        | none => simp [h2] at h
        | some r2 =>
          obtain ⟨p2, res⟩ := r2
          simp only [h2] at h
          cases res with
          | error e' => simp at h; rw [← h.1]; exact key _ _ h2
          | ok f => exact ih p2 p' e h (key _ _ h2)

theorem Set_frame (w : World) (v : Value) (s : String) (st : State) (k : Slot)
    (h : v.slot ≠ k) : (v.Set w s st).1.read k = st.read k := by
  cases v with
  | StringVar p =>
    cases p <;> cases k <;> (try rename_i q; cases q) <;>
      simp_all [Value.Set, Value.slot, State.read, State.setString]
  | StringsVar =>
    cases k <;> (try rename_i q; cases q) <;>
      simp_all [Value.Set, Value.slot, State.read]
  | EnumVar p options =>
    by_cases hm : s ∈ options <;>
    cases p <;> cases k <;> (try rename_i q; cases q) <;>
      simp_all [Value.Set, Value.slot, State.read, State.setString]
  | BoolVar p =>
    cases hb : strconv.ParseBool s <;>
    cases p <;> cases k <;> (try rename_i q; cases q) <;>
      simp_all [Value.Set, Value.slot, State.read, State.setBool]
  | DurationVar p =>
    cases hd : time.ParseDuration w.fracNanos s <;>
    cases p <;> cases k <;> (try rename_i q; cases q) <;>
      simp_all [Value.Set, Value.slot, State.read, State.setDuration]

/-- Whether `Set` fails does not depend on the state. -/
theorem Set_error (w : World) (v : Value) (s : String) (st st' : State) :
    (v.Set w s st).2 = (v.Set w s st').2 := by
  cases v with
  | StringVar p => simp [Value.Set]
  | StringsVar => simp [Value.Set]
  | EnumVar p options => by_cases hm : s ∈ options <;> simp [Value.Set, hm]
  | BoolVar p => cases hb : strconv.ParseBool s <;> simp [Value.Set, hb]
  | DurationVar p => cases hd : time.ParseDuration w.fracNanos s <;> simp [Value.Set, hd]

theorem setEach_frame (w : World) (v : Value) (k : Slot) (h : v.slot ≠ k) :
    ∀ (vals : List String) (st st' : State), setEach w v vals st = .ok st' →
      st'.read k = st.read k
  | [], st, st', hs => by simp [setEach] at hs; rw [hs]
  | s :: rest, st, st', hs => by
    simp only [setEach] at hs
    have hf := Set_frame w v s st k h
    cases hv : v.Set w s st with
    | mk st1 e =>
      rw [hv] at hs hf
      cases e with
      | some e => simp at hs
      | none =>
        simp only [] at hs hf
        rw [setEach_frame w v k h rest st1 st' hs, hf]

theorem setDefault_frame (w : World) (f : FlagClause) (k : Slot) (h : f.value.slot ≠ k)
    (st st' : State) (hs : f.setDefault w st = .ok st') : st'.read k = st.read k := by
  unfold FlagClause.setDefault at hs
  split_ifs at hs <;> exact setEach_frame w f.value k h _ st st' hs

theorem setDefaultsLoop_frame (w : World) (matched : List String) (k : Slot) :
    ∀ (flags : List FlagClause) (st st' : State),
      (∀ f ∈ flags, f.value.slot ≠ k) → setDefaultsLoop w matched flags st = .ok st' →
      st'.read k = st.read k
  | [], st, st', _, hs => by simp [setDefaultsLoop] at hs; rw [hs]
  | f :: rest, st, st', hk, hs => by
    have ih := setDefaultsLoop_frame w matched k rest
    have hk' : ∀ g ∈ rest, g.value.slot ≠ k := fun g hg => hk g (List.mem_cons_of_mem _ hg)
    simp only [setDefaultsLoop] at hs
    split_ifs at hs with hm
    · exact ih st st' hk' hs
    · cases hd : f.setDefault w st with
      | error e => simp [hd] at hs
      | ok st1 =>
        simp only [hd] at hs
        rw [ih st1 st' hk' hs, setDefault_frame w f k (hk f (List.mem_cons_self _ _)) st st1 hd]

theorem setValues_frame (w : World) (k : Slot) :
    ∀ (E : List ParseElement) (fs : List String) (st st' : State) (e : Option Error),
      (∀ el ∈ E, el.Clause.value.slot ≠ k) → setValues w E fs st = (st', e) →
      st'.read k = st.read k
  | [], fs, st, st', e, _, hs => by simp [setValues] at hs; rw [hs.1]
  | el :: rest, fs, st, st', e, hk, hs => by
    have ih := setValues_frame w k rest
    have hk' : ∀ g ∈ rest, g.Clause.value.slot ≠ k := fun g hg => hk g (List.mem_cons_of_mem _ hg)
    simp only [setValues] at hs
    split_ifs at hs with hm
    · simp at hs; rw [hs.1]
    · have hf := Set_frame w el.Clause.value el.Value st k (hk el (List.mem_cons_self _ _))
      cases hv : el.Clause.value.Set w el.Value st with
      | mk st1 e1 =>
        rw [hv] at hs hf
        cases e1 with
        | some e1 => simp at hs; rw [← hs.1, hf]
        | none =>
          simp only [] at hs hf
          rw [ih _ st1 st' e hk' hs, hf]

/-- A flag that is not cumulative and is set without error was not in `flagSet`. -/
theorem setValues_seen (w : World) (el : ParseElement) (post : List ParseElement) :
    ∀ (pre : List ParseElement) (fs : List String) (st st' : State),
      setValues w (pre ++ el :: post) fs st = (st', none) →
      el.Clause.value.IsCumulative = false → el.Clause.name ∉ fs
  | [], fs, st, st', hs, hc => by
    simp only [List.nil_append, setValues] at hs
    split_ifs at hs with hm
    · simp at hs
    · intro hmem
      exact hm ⟨hmem, by simp [hc]⟩
  | g :: pre, fs, st, st', hs, hc => by
    simp only [List.cons_append, setValues] at hs
    split_ifs at hs with hm
    · simp at hs
    · cases hv : g.Clause.value.Set w g.Value st with
      | mk st1 e1 =>
        rw [hv] at hs
        cases e1 with
        | some e1 => simp at hs
        | none =>
          simp only [] at hs
          have := setValues_seen w el post pre _ st1 st' hs hc
          intro hmem
          exact this (List.mem_cons_of_mem _ hmem)

theorem exists_last_occurrence {α : Type} (p : α → Prop) [DecidablePred p] :
    ∀ (l : List α), (∃ x ∈ l, p x) →
      ∃ pre x post, l = pre ++ x :: post ∧ p x ∧ ∀ y ∈ post, ¬ p y
  | [], h => by simp at h
  | a :: t, h => by
    by_cases ht : ∃ x ∈ t, p x
    · obtain ⟨pre, x, post, hl, hx, hpost⟩ := exists_last_occurrence p t ht
      exact ⟨a :: pre, x, post, by simp [hl], hx, hpost⟩
    · have ha : p a := by
        obtain ⟨x, hx, hpx⟩ := h
        rcases List.mem_cons.1 hx with rfl | hx'
        · exact hpx
        · exact absurd ⟨x, hx', hpx⟩ ht
      refine ⟨[], a, t, rfl, ha, ?_⟩
      intro y hy hpy
      exact ht ⟨y, hy, hpy⟩

/-- The default of one flag inside the loop of `setDefaults`: when the other flags write
elsewhere, the slot holds afterwards what `setDefault` of that flag put there. -/
theorem setDefaultsLoop_at (w : World) (matched : List String) (k : Slot) (F : FlagClause)
    (post : List FlagClause) (hF : F.name ∉ matched) (hpost : ∀ g ∈ post, g.value.slot ≠ k) :
    ∀ (pre : List FlagClause) (st st' : State), (∀ g ∈ pre, g.value.slot ≠ k) →
      setDefaultsLoop w matched (pre ++ F :: post) st = .ok st' →
      ∃ st1 st2, st1.read k = st.read k ∧ F.setDefault w st1 = .ok st2 ∧
        st'.read k = st2.read k
  | [], st, st', _, hs => by
    simp only [List.nil_append, setDefaultsLoop, hF, if_false] at hs
    cases hd : F.setDefault w st with
    | error e => simp [hd] at hs
    | ok st2 =>
      simp only [hd] at hs
      exact ⟨st, st2, rfl, hd, setDefaultsLoop_frame w matched k post st2 st' hpost hs⟩
  | f :: pre, st, st', hpre, hs => by
    have ih := setDefaultsLoop_at w matched k F post hF hpost pre
    have hpre' : ∀ g ∈ pre, g.value.slot ≠ k :=
      fun g hg => hpre g (List.mem_cons_of_mem _ hg)
    simp only [List.cons_append, setDefaultsLoop] at hs
    split_ifs at hs with hm
    · exact ih st st' hpre' hs
    · cases hd : f.setDefault w st with
      | error e => simp [hd] at hs
      | ok st1 =>
        simp only [hd] at hs
        obtain ⟨s1, s2, h1, h2, h3⟩ := ih st1 st' hpre' hs
        refine ⟨s1, s2, ?_, h2, h3⟩
        rw [h1, setDefault_frame w f k (hpre f (List.mem_cons_self _ _)) st st1 hd]

/-- The last element that writes to a slot decides what the slot holds after a
`setValues` without error; a flag that is not cumulative was not set before. -/
theorem setValues_at (w : World) (k : Slot) (el : ParseElement) (post : List ParseElement)
    (hpost : ∀ g ∈ post, g.Clause.value.slot ≠ k) :
    ∀ (pre : List ParseElement) (fs : List String) (st st' : State),
      setValues w (pre ++ el :: post) fs st = (st', none) →
      (∃ st1 st2, el.Clause.value.Set w el.Value st1 = (st2, none) ∧
        st'.read k = st2.read k) ∧
      (el.Clause.value.IsCumulative = false →
        ∀ g ∈ pre, g.Clause.name ≠ el.Clause.name)
  | [], fs, st, st', hs => by
    simp only [List.nil_append, setValues] at hs
    split_ifs at hs with hm
    · simp at hs
    · cases hv : el.Clause.value.Set w el.Value st with
      | mk st1 e1 =>
        rw [hv] at hs
        cases e1 with
        | some e1 => simp at hs
        | none =>
          simp only [] at hs
          exact ⟨⟨st, st1, hv, setValues_frame w k post _ st1 st' none hpost hs⟩, by simp⟩
  | g :: pre, fs, st, st', hs => by
    have ih := setValues_at w k el post hpost pre
    simp only [List.cons_append, setValues] at hs
    split_ifs at hs with hm
    · simp at hs
    · cases hv : g.Clause.value.Set w g.Value st with
      | mk st1 e1 =>
        rw [hv] at hs
        cases e1 with
        | some e1 => simp at hs
        | none =>
          simp only [] at hs
          obtain ⟨h1, h2⟩ := ih _ st1 st' hs
          refine ⟨h1, ?_⟩
          intro hc x hx
          rcases List.mem_cons.1 hx with rfl | hx'
          · intro hn
            -- the element el is processed with flagSet ⊇ {x.name}
            have := setValues_seen w el post pre (x.Clause.name :: fs) st1 st' hs hc
            exact this (by simp [hn])
          · exact h2 hc x hx'

theorem Parse_ok (a : Application) (w : World) (fuel : Nat) (cfg : Config)
    (args : List String) (cfg' : Config) (h : a.Parse w fuel cfg args = some (.ok cfg')) :
    ∃ context st0,
      parse w a.init.flags fuel ⟨args, [], false, []⟩ = some (context, none) ∧
      setDefaultsLoop w (context.Elements.map fun el => el.Clause.name)
        (w.range a.init.flags) ⟨cfg, false⟩ = .ok st0 ∧
      setValues w context.Elements [] st0 = (⟨cfg', false⟩, none) ∧
      (∀ el ∈ context.Elements, el.Clause.name ≠ "help") ∧
      (∀ el ∈ context.Elements, el.Clause.preAction = none) := by
  unfold Application.Parse at h
  simp only [] at h
  cases hp : parse w a.init.flags fuel ⟨args, [], false, []⟩ with
  | none => simp [hp] at h
  | some r =>
    obtain ⟨context, parseErr⟩ := r
    simp only [hp] at h
    cases hd : a.init.setDefaults w context ⟨cfg, false⟩ with
    | error e => simp [hd] at h
    | ok st0 =>
      simp only [hd] at h
      cases hv : setValues w context.Elements [] st0 with
      | mk st setValuesErr =>
        simp only [hv] at h
        by_cases h1 : (!st.completion) = true ∧
            (context.Elements.any fun element => element.Clause.preAction.isSome) = true
        · simp [h1] at h
        · simp only [h1, if_false] at h
          by_cases h2 : st.completion = true
          · simp [h2] at h
          · simp only [h2, if_false] at h
            cases parseErr with
            | some e => simp at h
            | none =>
              simp only [] at h
              by_cases h3 : (context.Elements.any fun element =>
                  decide (element.Clause.name = "help")) = true
              · simp [h3] at h
              · simp only [h3, if_false] at h
                cases setValuesErr with
                | some e => simp at h
                | none =>
                  simp at h
                  have hhelp : ∀ el ∈ context.Elements, el.Clause.name ≠ "help" := by
                    intro el hel hn
                    exact h3 (List.any_eq_true.2 ⟨el, hel, by simp [hn]⟩)
                  have hcomp : st.completion = false := by simpa using h2
                  have hpre : ∀ el ∈ context.Elements, el.Clause.preAction = none := by
                    intro el hel
                    by_contra hne
                    apply h1
                    refine ⟨by simp [hcomp], List.any_eq_true.2 ⟨el, hel, ?_⟩⟩
                    cases hpa : el.Clause.preAction with
                    | none => exact absurd hpa hne
                    | some x => simp
                  refine ⟨context, st0, rfl, ?_, ?_, hhelp, hpre⟩
                  · unfold Application.setDefaults at hd
                    split_ifs at hd
                    exact hd
                  · obtain ⟨c, b⟩ := st
                    simp at h hcomp
                    rw [← h, ← hcomp]
                    exact hv

end kingpin

set_option maxRecDepth 100000 in
theorem app_flags_slot :
    ∀ F ∈ app.init.flags, F.value.slot ≠ .bool .anonymous →
      ∀ g ∈ app.init.flags, g.value.slot = F.value.slot → g = F := by
  decide

set_option maxRecDepth 100000 in
theorem app_flags_name :
    ∀ F ∈ app.init.flags, ∀ g ∈ app.init.flags, g.name = F.name → g = F := by
  decide

set_option maxRecDepth 100000 in
theorem app_flags_nodup : app.init.flags.Nodup := by
  decide

/-- In whatever order the flags are visited, a flag of `ParseFlags` is visited once, and
the flags visited before and after it are other flags, which write to other places. -/
theorem range_flags_split (w : World) (F : kingpin.FlagClause) (hF : F ∈ app.init.flags)
    (hk : F.value.slot ≠ .bool .anonymous) :
    ∃ pre post, w.range app.init.flags = pre ++ F :: post ∧
      (∀ g ∈ pre, g ∈ app.init.flags ∧ g ≠ F ∧ g.value.slot ≠ F.value.slot) ∧
      (∀ g ∈ post, g ∈ app.init.flags ∧ g ≠ F ∧ g.value.slot ≠ F.value.slot) := by
  obtain ⟨pre, post, hsplit⟩ := List.append_of_mem ((w.range_mem _ F).2 hF)
  have hnd : (pre ++ F :: post).Nodup := by
    rw [← hsplit]
    exact (w.range_perm _).nodup_iff.2 app_flags_nodup
  have hparts := List.nodup_append.1 hnd
  have hFpost : F ∉ post := (List.nodup_cons.1 hparts.2.1).1
  have hFpre : F ∉ pre := fun h => hparts.2.2 h (List.mem_cons_self _ _)
  have hsub : ∀ g, g ∈ pre ∨ g ∈ post → g ∈ app.init.flags := by
    intro g hg
    refine (w.range_mem _ g).1 ?_
    rw [hsplit]
    rcases hg with hg | hg
    · exact List.mem_append_left _ hg
    · exact List.mem_append_right _ (List.mem_cons_of_mem _ hg)
  refine ⟨pre, post, hsplit, ?_, ?_⟩
  · intro g hg
    have hne : g ≠ F := fun e => hFpre (e ▸ hg)
    exact ⟨hsub g (Or.inl hg), hne,
      fun hs => hne (app_flags_slot F hF hk g (hsub g (Or.inl hg)) hs)⟩
  · intro g hg
    have hne : g ≠ F := fun e => hFpost (e ▸ hg)
    exact ⟨hsub g (Or.inr hg), hne,
      fun hs => hne (app_flags_slot F hF hk g (hsub g (Or.inr hg)) hs)⟩

open kingpin

theorem ParseFlags_decompose (w : World) (fuel : Nat) (cfg : Config) (args : List String)
    (cfg' : Config) (h : Config.ParseFlags w fuel cfg args = some (.ok cfg')) :
    ∃ st0,
      setDefaultsLoop w ((matchedElements w fuel args).map fun el => el.Clause.name)
        (w.range app.init.flags) ⟨cfg, false⟩ = .ok st0 ∧
      setValues w (matchedElements w fuel args) [] st0 = (⟨cfg', false⟩, none) ∧
      (∀ el ∈ matchedElements w fuel args, el.Clause.name ≠ "help") ∧
      (∀ el ∈ matchedElements w fuel args, el.Clause.preAction = none) ∧
      (∀ el ∈ matchedElements w fuel args, el.Clause ∈ app.init.flags) := by
  obtain ⟨context, st0, hp, hd, hv, hh, hpa⟩ := Parse_ok app w fuel cfg args cfg' h
  have hE : matchedElements w fuel args = context.Elements := by
    simp [matchedElements, hp]
  rw [hE]
  refine ⟨st0, hd, hv, hh, hpa, ?_⟩
  exact parse_Elements_mem w app.init.flags fuel _ context none hp (by simp)

/-- A flag that the command line does not supply: after a successful `ParseFlags` its
slot holds what `setDefault` of the flag wrote, starting from the initial content. -/
theorem slot_default (w : World) (fuel : Nat) (cfg : Config) (args : List String)
    (cfg' : Config) (h : Config.ParseFlags w fuel cfg args = some (.ok cfg'))
    (F : FlagClause) (hF : F ∈ app.init.flags) (hk : F.value.slot ≠ .bool .anonymous)
    (hun : ∀ el ∈ matchedElements w fuel args, el.Clause.name ≠ F.name) :
    ∃ st1 st2, st1.read F.value.slot = State.read ⟨cfg, false⟩ F.value.slot ∧
      F.setDefault w st1 = .ok st2 ∧
      State.read ⟨cfg', false⟩ F.value.slot = st2.read F.value.slot := by
  obtain ⟨st0, hd, hv, _, _, hmem⟩ := ParseFlags_decompose w fuel cfg args cfg' h
  obtain ⟨pre, post, hsplit, hpre, hpost⟩ := range_flags_split w F hF hk
  rw [hsplit] at hd
  have hFm : F.name ∉ (matchedElements w fuel args).map fun el => el.Clause.name := by
    intro hc
    obtain ⟨el, hel, hn⟩ := List.mem_map.1 hc
    exact hun el hel hn
  obtain ⟨st1, st2, h1, h2, h3⟩ :=
    setDefaultsLoop_at w _ F.value.slot F _ hFm (fun g hg => (hpost g hg).2.2) _ _ st0
      (fun g hg => (hpre g hg).2.2) hd
  refine ⟨st1, st2, h1, h2, ?_⟩
  rw [← h3]
  refine setValues_frame w F.value.slot _ [] st0 _ none ?_ hv
  intro el hel hs
  exact hun el hel (by rw [app_flags_slot F hF hk el.Clause (hmem el hel) hs])

/-- A flag that the command line supplies: after a successful `ParseFlags` its slot
holds what `Set` wrote for a supplied value; a flag that is not cumulative is supplied
only once. -/
theorem slot_supplied (w : World) (fuel : Nat) (cfg : Config) (args : List String)
    (cfg' : Config) (h : Config.ParseFlags w fuel cfg args = some (.ok cfg'))
    (F : FlagClause) (hF : F ∈ app.init.flags) (hk : F.value.slot ≠ .bool .anonymous)
    (hs : ∃ el ∈ matchedElements w fuel args, el.Clause.name = F.name) :
    ∃ v st1 st2, (⟨F, v⟩ : ParseElement) ∈ matchedElements w fuel args ∧
      F.value.Set w v st1 = (st2, none) ∧
      State.read ⟨cfg', false⟩ F.value.slot = st2.read F.value.slot ∧
      (F.value.IsCumulative = false →
        ∀ el ∈ matchedElements w fuel args, el.Clause.name = F.name → el.Value = v) := by
  obtain ⟨st0, _, hv, _, _, hmem⟩ := ParseFlags_decompose w fuel cfg args cfg' h
  have hname : ∀ el ∈ matchedElements w fuel args, el.Clause.name = F.name → el.Clause = F :=
    fun el hel hn => app_flags_name F hF el.Clause (hmem el hel) hn
  have hs' : ∃ el ∈ matchedElements w fuel args, el.Clause.value.slot = F.value.slot := by
    obtain ⟨el, hel, hn⟩ := hs
    exact ⟨el, hel, by rw [hname el hel hn]⟩
  obtain ⟨pre, el, post, hl, hel, hpost⟩ :=
    exists_last_occurrence (fun el : ParseElement => el.Clause.value.slot = F.value.slot) _ hs'
  have helmem : el ∈ matchedElements w fuel args := by rw [hl]; simp
  have hcl : el.Clause = F := app_flags_slot F hF hk el.Clause (hmem el helmem) hel
  rw [hl] at hv
  obtain ⟨⟨st1, st2, h1, h2⟩, h3⟩ := setValues_at w F.value.slot el post hpost pre [] st0 _ hv
  refine ⟨el.Value, st1, st2, ?_, ?_, h2, ?_⟩
  · rw [← hcl]; exact helmem
  · rw [← hcl]; exact h1
  · intro hc x hx hxn
    rw [hl] at hx
    rcases List.mem_append.1 hx with hx' | hx'
    · exact absurd (by rw [hxn, hcl]) (h3 (by rw [hcl]; exact hc) x hx')
    · rcases List.mem_cons.1 hx' with rfl | hx''
      · rfl
      · have hxm : x ∈ matchedElements w fuel args := by rw [hl]; simp [hx'']
        exact absurd (by rw [hname x hxm hxn]) (hpost x hx'')

open kingpin

set_option maxRecDepth 100000 in
theorem ownFlags_mem : ∀ F ∈ ownFlags, F ∈ app.init.flags ∧ F.value.slot ≠ .bool .anonymous ∧
    F.preAction = none ∧ F.name ≠ "help" := by
  decide

theorem read_setString (st : State) (p : StringPtr) (s : String) :
    (st.setString p s).read (.str p) = .s s := by
  cases p <;> rfl

theorem Set_enum_ok (w : World) (p : StringPtr) (opts : List String) (s : String)
    (st st2 : State) (h : (Value.EnumVar p opts).Set w s st = (st2, none)) :
    s ∈ opts ∧ st2.read (.str p) = .s s := by
  by_cases hm : s ∈ opts
  · simp [Value.Set, hm] at h
    rw [← h]
    exact ⟨hm, read_setString st p s⟩
  · simp [Value.Set, hm] at h

theorem setEach_enum (w : World) (p : StringPtr) (opts : List String) :
    ∀ (vals : List String) (st st2 : State),
      setEach w (.EnumVar p opts) vals st = .ok st2 → vals ≠ [] →
      ∃ x ∈ opts, st2.read (.str p) = .s x
  | [], _, _, _, hne => absurd rfl hne
  | s :: rest, st, st2, hs, _ => by
    simp only [setEach] at hs
    cases hv : (Value.EnumVar p opts).Set w s st with
    | mk st1 e =>
      rw [hv] at hs
      cases e with
      | some e => simp at hs
      | none =>
        simp only [] at hs
        cases rest with
        | nil =>
          simp [setEach] at hs
          rw [← hs]
          exact ⟨s, Set_enum_ok w p opts s st st1 hv⟩
        | cons s' rest' => exact setEach_enum w p opts (s' :: rest') st1 st2 hs (by simp)

theorem setDefault_enum (w : World) (F : FlagClause) (p : StringPtr) (opts : List String)
    (hv : F.value = .EnumVar p opts) (hd : F.defaultValues ≠ []) (st st2 : State)
    (h : F.setDefault w st = .ok st2) : ∃ x ∈ opts, st2.read (.str p) = .s x := by
  unfold FlagClause.setDefault at h
  rw [hv] at h
  split_ifs at h with h1 h2
  · exact setEach_enum w p opts _ st st2 h (by simp)
  · simp [Value.IsCumulative] at h2
  · exact setEach_enum w p opts _ st st2 h hd

/-- After a successful `ParseFlags` the field of an enum flag with a default holds one of
the options of the flag. -/
theorem enum_invariant (w : World) (fuel : Nat) (cfg : Config) (args : List String)
    (cfg' : Config) (h : Config.ParseFlags w fuel cfg args = some (.ok cfg'))
    (F : FlagClause) (hF : F ∈ app.init.flags) (p : StringPtr) (opts : List String)
    (hv : F.value = .EnumVar p opts) (hd : F.defaultValues ≠ []) :
    ∃ x ∈ opts, State.read ⟨cfg', false⟩ (.str p) = .s x := by
  have hk : F.value.slot ≠ .bool .anonymous := by rw [hv]; simp [Value.slot]
  have hsl : F.value.slot = .str p := by rw [hv]; rfl
  by_cases hs : ∃ el ∈ matchedElements w fuel args, el.Clause.name = F.name
  · obtain ⟨v, st1, st2, _, h1, h2, _⟩ := slot_supplied w fuel cfg args cfg' h F hF hk hs
    rw [hv] at h1
    rw [hsl] at h2
    rw [h2]
    exact ⟨v, Set_enum_ok w p opts v st1 st2 h1⟩
  · have hun : ∀ el ∈ matchedElements w fuel args, el.Clause.name ≠ F.name :=
      fun el hel hn => hs ⟨el, hel, hn⟩
    obtain ⟨st1, st2, _, h1, h2⟩ := slot_default w fuel cfg args cfg' h F hF hk hun
    rw [hsl] at h2
    rw [h2]
    exact setDefault_enum w F p opts hv hd st1 st2 h1

theorem logLevel_invariant (w : World) (fuel : Nat) (cfg : Config) (args : List String)
    (cfg' : Config) (h : Config.ParseFlags w fuel cfg args = some (.ok cfg')) :
    cfg'.LogLevel ∈ allLogLevelsAsStrings := by
  obtain ⟨x, hx, hr⟩ := enum_invariant w fuel cfg args cfg' h logLevelFlag
    (ownFlags_mem _ (by decide)).1 .LogLevel allLogLevelsAsStrings rfl (by decide)
  simp [State.read] at hr
  rw [hr]; exact hx

theorem logFormat_invariant (w : World) (fuel : Nat) (cfg : Config) (args : List String)
    (cfg' : Config) (h : Config.ParseFlags w fuel cfg args = some (.ok cfg')) :
    cfg'.LogFormat = "text" ∨ cfg'.LogFormat = "json" := by
  obtain ⟨x, hx, hr⟩ := enum_invariant w fuel cfg args cfg' h logFormatFlag
    (ownFlags_mem _ (by decide)).1 .LogFormat ["text", "json"] rfl (by decide)
  simp [State.read] at hr
  rw [hr]; simpa using hx

theorem ParseLevel_allLevels : ∀ l ∈ logrus.AllLevels, logrus.ParseLevel l.String = .ok l := by
  decide

theorem allLogLevelsAsStrings_eq :
    allLogLevelsAsStrings = logrus.AllLevels.map logrus.Level.String := by
  decide

theorem ParseLevel_of_mem (x : String) (hx : x ∈ allLogLevelsAsStrings) :
    ∃ l ∈ logrus.AllLevels, l.String = x ∧ logrus.ParseLevel x = .ok l := by
  rw [allLogLevelsAsStrings_eq] at hx
  obtain ⟨l, hl, rfl⟩ := List.mem_map.1 hx
  exact ⟨l, hl, rfl, ParseLevel_allLevels l hl⟩

open kingpin

theorem slot_ne_url (v : Value) : v.slot ≠ .url := by
  cases v <;> simp [Value.slot]

/-- No flag writes to `WebhookProviderURL`. -/
theorem url_frame (w : World) (fuel : Nat) (cfg : Config) (args : List String)
    (cfg' : Config) (h : Config.ParseFlags w fuel cfg args = some (.ok cfg')) :
    cfg'.WebhookProviderURL = cfg.WebhookProviderURL := by
  obtain ⟨st0, hd, hv, _, _, _⟩ := ParseFlags_decompose w fuel cfg args cfg' h
  have h1 := setDefaultsLoop_frame w _ .url (w.range app.init.flags) _ st0
    (fun f _ => slot_ne_url f.value) hd
  have h2 := setValues_frame w .url _ [] st0 _ none (fun el _ => slot_ne_url el.Clause.value) hv
  rw [h1] at h2
  simpa [State.read] using h2

/-- The effects of `main` before the provider is constructed, for a parsed `cfg`. -/
theorem main_ok {P : Type} (w : World) (fuel : Nat)
    (NewNextDNSProvider : NextDNSConfig → Except Error P) (args : List String) (cfg : Config)
    (h : Config.ParseFlags w fuel Config.zero args = some (.ok cfg)) :
    ∃ l, logrus.ParseLevel cfg.LogLevel = .ok l ∧
      main w fuel NewNextDNSProvider args = some (
        ((if cfg.LogFormat = "json" then [Effect.SetFormatterJSON] else []) ++
         (if cfg.DryRun then
            [Effect.Info "running in dry-run mode. No changes to DNS records will be made."]
          else []) ++
         [Effect.SetLevel l]) ++
        Effect.NewNextDNSProvider
          { DryRun := cfg.DryRun
            NextDNSAPIKey := cfg.NextDNSAPIKey
            NextDNSProfileId := cfg.NextDNSProfileId
            DomainFilter := endpoint.NewDomainFilter cfg.DomainFilter } ::
        (match NewNextDNSProvider
            { DryRun := cfg.DryRun
              NextDNSAPIKey := cfg.NextDNSAPIKey
              NextDNSProfileId := cfg.NextDNSProfileId
              DomainFilter := endpoint.NewDomainFilter cfg.DomainFilter } with
          | .error err => [Effect.Fatalf "failed to create NextDNS provider: %v" err]
          | .ok dnsProvider =>
            [Effect.StartHTTPApi dnsProvider cfg.WebhookProviderReadTimeout
              cfg.WebhookProviderWriteTimeout "127.0.0.1:8888"])) := by
  obtain ⟨l, _, _, hl⟩ := ParseLevel_of_mem cfg.LogLevel (logLevel_invariant w fuel _ args cfg h)
  refine ⟨l, hl, ?_⟩
  unfold main
  simp only [h, hl]
  cases hn : NewNextDNSProvider
      { DryRun := cfg.DryRun
        NextDNSAPIKey := cfg.NextDNSAPIKey
        NextDNSProfileId := cfg.NextDNSProfileId
        DomainFilter := endpoint.NewDomainFilter cfg.DomainFilter } <;>
    by_cases hj : cfg.LogFormat = "json" <;> by_cases hdr : cfg.DryRun = true <;>
    simp [hj, hdr]

open kingpin

theorem ParseFlags_empty :
    Config.ParseFlags World.empty 2 Config.zero [] = some (.ok Config.parsedDefaults) := by
  decide

theorem ParseDuration_5s (frac : Nat → Nat → Nat → Nat) :
    time.ParseDuration frac "5s" = .ok (5 * time.Second) := rfl

theorem ParseDuration_10s (frac : Nat → Nat → Nat → Nat) :
    time.ParseDuration frac "10s" = .ok (10 * time.Second) := rfl

theorem read_setDuration (st : State) (p : DurationPtr) (d : time.Duration) :
    (st.setDuration p d).read (.dur p) = .d d := by
  cases p <;> rfl

theorem Set_duration_ok (w : World) (p : DurationPtr) (s : String) (st st2 : State)
    (h : (Value.DurationVar p).Set w s st = (st2, none)) :
    ∃ d, time.ParseDuration w.fracNanos s = .ok d ∧ st2.read (.dur p) = .d d := by
  cases hd : time.ParseDuration w.fracNanos s with
  | error e => simp [Value.Set, hd] at h
  | ok d =>
    simp [Value.Set, hd] at h
    rw [← h]
    exact ⟨d, rfl, read_setDuration st p d⟩

/-- A duration flag that is neither supplied on the command line nor in the environment
ends with its default. -/
theorem duration_default (w : World) (fuel : Nat) (cfg : Config) (args : List String)
    (cfg' : Config) (h : Config.ParseFlags w fuel cfg args = some (.ok cfg'))
    (F : FlagClause) (hF : F ∈ app.init.flags) (p : DurationPtr) (s : String)
    (d : time.Duration) (hv : F.value = .DurationVar p) (hdef : F.defaultValues = [s])
    (hs : time.ParseDuration w.fracNanos s = .ok d)
    (hun : ∀ el ∈ matchedElements w fuel args, el.Clause.name ≠ F.name)
    (henv : w.Getenv F.envar = "") :
    State.read ⟨cfg', false⟩ (.dur p) = .d d := by
  have hk : F.value.slot ≠ .bool .anonymous := by rw [hv]; simp [Value.slot]
  have hsl : F.value.slot = .dur p := by rw [hv]; rfl
  obtain ⟨st1, st2, _, h1, h2⟩ := slot_default w fuel cfg args cfg' h F hF hk hun
  rw [hsl] at h2
  rw [h2]
  have he : F.GetEnvarValue w = "" := by
    unfold FlagClause.GetEnvarValue; split_ifs <;> simp [henv]
  unfold FlagClause.setDefault at h1
  simp only [he, ne_eq, not_true_eq_false, if_false, hdef, hv, setEach, Value.Set, hs] at h1
  simp at h1
  rw [← h1]
  exact read_setDuration st1 p d

/-- A duration flag that is supplied on the command line ends with the duration that
`time.ParseDuration` reads from the supplied value. -/
theorem duration_supplied (w : World) (fuel : Nat) (cfg : Config) (args : List String)
    (cfg' : Config) (h : Config.ParseFlags w fuel cfg args = some (.ok cfg'))
    (F : FlagClause) (hF : F ∈ app.init.flags) (p : DurationPtr)
    (hv : F.value = .DurationVar p)
    (el : ParseElement) (hel : el ∈ matchedElements w fuel args)
    (hn : el.Clause.name = F.name) :
    ∃ d, time.ParseDuration w.fracNanos el.Value = .ok d ∧
      State.read ⟨cfg', false⟩ (.dur p) = .d d := by
  have hk : F.value.slot ≠ .bool .anonymous := by rw [hv]; simp [Value.slot]
  have hsl : F.value.slot = .dur p := by rw [hv]; rfl
  obtain ⟨v, st1, st2, _, h1, h2, h3⟩ :=
    slot_supplied w fuel cfg args cfg' h F hF hk ⟨el, hel, hn⟩
  rw [hsl] at h2
  rw [hv] at h1
  rw [h3 (by rw [hv]; rfl) el hel hn, h2]
  exact Set_duration_ok w p v st1 st2 h1

open kingpin

/-- A flag that is neither supplied on the command line nor in the environment: its slot
holds what `Set` of its default values wrote, starting from the initial content. -/
theorem slot_default_noenv (w : World) (fuel : Nat) (cfg : Config) (args : List String)
    (cfg' : Config) (h : Config.ParseFlags w fuel cfg args = some (.ok cfg'))
    (F : FlagClause) (hF : F ∈ app.init.flags) (hk : F.value.slot ≠ .bool .anonymous)
    (hun : ∀ el ∈ matchedElements w fuel args, el.Clause.name ≠ F.name)
    (henv : w.Getenv F.envar = "") :
    ∃ st1 st2, st1.read F.value.slot = State.read ⟨cfg, false⟩ F.value.slot ∧
      setEach w F.value F.defaultValues st1 = .ok st2 ∧
      State.read ⟨cfg', false⟩ F.value.slot = st2.read F.value.slot := by
  obtain ⟨st1, st2, h0, h1, h2⟩ := slot_default w fuel cfg args cfg' h F hF hk hun
  refine ⟨st1, st2, h0, ?_, h2⟩
  have he : F.GetEnvarValue w = "" := by
    unfold FlagClause.GetEnvarValue; split_ifs <;> simp [henv]
  unfold FlagClause.setDefault at h1
  simpa [he] using h1

theorem domainFilter_default (w : World) (fuel : Nat) (cfg : Config) (args : List String)
    (cfg' : Config) (h : Config.ParseFlags w fuel cfg args = some (.ok cfg'))
    (hun : ∀ el ∈ matchedElements w fuel args, el.Clause.name ≠ "domain-filter")
    (henv : w.Getenv "NEXTDNS_WEBHOOK_DOMAIN_FILTER" = "") :
    cfg'.DomainFilter = cfg.DomainFilter ++ [""] := by
  obtain ⟨st1, st2, h0, h1, h2⟩ := slot_default_noenv w fuel cfg args cfg' h domainFilterFlag
    (ownFlags_mem _ (by decide)).1 (by decide) hun henv
  simp [domainFilterFlag, setEach, Value.Set] at h1
  simp [domainFilterFlag, Value.slot, State.read] at h0 h2
  rw [h2, ← h1, h0]

theorem dryRun_default (w : World) (fuel : Nat) (cfg : Config) (args : List String)
    (cfg' : Config) (h : Config.ParseFlags w fuel cfg args = some (.ok cfg'))
    (hun : ∀ el ∈ matchedElements w fuel args, el.Clause.name ≠ "dry-run")
    (henv : w.Getenv "NEXTDNS_WEBHOOK_DRY_RUN" = "") :
    cfg'.DryRun = cfg.DryRun := by
  obtain ⟨st1, st2, h0, h1, h2⟩ := slot_default_noenv w fuel cfg args cfg' h dryRunFlag
    (ownFlags_mem _ (by decide)).1 (by decide) hun henv
  simp [dryRunFlag, setEach] at h1
  simp [dryRunFlag, Value.slot, State.read] at h0 h2
  rw [h2, ← h1, h0]

theorem logFormat_default (w : World) (fuel : Nat) (cfg : Config) (args : List String)
    (cfg' : Config) (h : Config.ParseFlags w fuel cfg args = some (.ok cfg'))
    (hun : ∀ el ∈ matchedElements w fuel args, el.Clause.name ≠ "log-format")
    (henv : w.Getenv "NEXTDNS_WEBHOOK_LOG_FORMAT" = "") :
    cfg'.LogFormat = "text" := by
  obtain ⟨st1, st2, _, h1, h2⟩ := slot_default_noenv w fuel cfg args cfg' h logFormatFlag
    (ownFlags_mem _ (by decide)).1 (by decide) hun henv
  simp [logFormatFlag, setEach, Value.Set] at h1
  simp [logFormatFlag, Value.slot, State.read] at h2
  rw [h2, ← h1]
  rfl

/-- The filter that `NewDomainFilter` makes of the one empty pattern has no pattern at
all, and it matches every name. -/
theorem NewDomainFilter_empty_pattern (dnsName : String) :
    endpoint.NewDomainFilter [""] = ⟨[], []⟩ ∧
      (endpoint.NewDomainFilter [""]).Match dnsName = true := by
  have h : endpoint.NewDomainFilter [""] = ⟨[], []⟩ := by decide
  rw [h]
  simp [endpoint.DomainFilter.Match, endpoint.matchFilter]

namespace kingpin

theorem Parse_eq_finish (a : Application) (w : World) (fuel : Nat) (cfg : Config)
    (args : List String) :
    a.Parse w fuel cfg args =
      (parse w a.init.flags fuel ⟨args, [], false, []⟩).map fun r =>
        a.init.finish w r.1.Elements r.2 cfg := by
  simp only [Application.Parse, Application.finish]
  cases parse w a.init.flags fuel ⟨args, [], false, []⟩ with
  | none => simp
  | some r =>
    obtain ⟨context, parseErr⟩ := r
    simp only [Option.map_some', Application.setDefaults]
    cases (if (context.Elements.any fun element => decide (element.Clause.name = "help")) = true
        then Except.ok (⟨cfg, false⟩ : State)
        else setDefaultsLoop w (List.map (fun element => element.Clause.name) context.Elements)
          (w.range a.init.flags) ⟨cfg, false⟩) with
    | error e => simp
    | ok st =>
      simp only []
      cases setValues w context.Elements [] st with
      | mk st1 e1 =>
        simp only []
        cases parseErr <;> cases e1 <;> split_ifs <;> simp

/-- A state is determined by the content of its slots. -/
theorem State.ext_read (st st' : State) (h : ∀ k, st.read k = st'.read k) : st = st' := by
  obtain ⟨⟨a1, a2, a3, a4, a5, a6, a7, a8, a9⟩, c⟩ := st
  obtain ⟨⟨b1, b2, b3, b4, b5, b6, b7, b8, b9⟩, c'⟩ := st'
  have h1 := h .strs
  have h2 := h (.str .NextDNSAPIKey)
  have h3 := h (.str .NextDNSProfileId)
  have h4 := h (.str .LogFormat)
  have h5 := h (.bool .DryRun)
  have h6 := h (.str .LogLevel)
  have h7 := h (.dur .WebhookProviderReadTimeout)
  have h8 := h (.dur .WebhookProviderWriteTimeout)
  have h9 := h .url
  have h10 := h (.bool .completion)
  simp [State.read] at h1 h2 h3 h4 h5 h6 h7 h8 h9 h10
  simp [h1, h2, h3, h4, h5, h6, h7, h8, h9, h10]

/-- What `Set` leaves in a slot depends only on what the slot held. -/
theorem Set_local (w : World) (v : Value) (s : String) (st st' : State) (k : Slot)
    (h : st.read k = st'.read k) : (v.Set w s st).1.read k = (v.Set w s st').1.read k := by
  by_cases hk : v.slot = k
  · subst hk
    cases v with
    | StringVar p => cases p <;> simp_all [Value.Set, Value.slot, State.read, State.setString]
    | StringsVar => simp_all [Value.Set, Value.slot, State.read]
    | EnumVar p options =>
      by_cases hm : s ∈ options <;>
        cases p <;> simp_all [Value.Set, Value.slot, State.read, State.setString]
    | BoolVar p =>
      cases hb : strconv.ParseBool s <;>
        cases p <;> simp_all [Value.Set, Value.slot, State.read, State.setBool]
    | DurationVar p =>
      cases hd : time.ParseDuration w.fracNanos s <;>
        cases p <;> simp_all [Value.Set, Value.slot, State.read, State.setDuration]
  · rw [Set_frame w v s st k hk, Set_frame w v s st' k hk, h]

/-- `Set` reads nothing of the world but the float arithmetic. -/
theorem Set_congr (w w' : World) (h : w.fracNanos = w'.fracNanos) (v : Value) (s : String)
    (st : State) : v.Set w s st = v.Set w' s st := by
  cases v <;> simp [Value.Set, h]

theorem setEach_congr (w w' : World) (h : w.fracNanos = w'.fracNanos) (g : Value) :
    ∀ (vals : List String) (st : State), setEach w g vals st = setEach w' g vals st
  | [], st => by simp [setEach]
  | s :: rest, st => by
    simp only [setEach, Set_congr w w' h]
    cases g.Set w' s st with
    | mk st1 e =>
      cases e with
      | some e => rfl
      | none => exact setEach_congr w w' h g rest st1

theorem setDefault_congr (w w' : World) (h : w.fracNanos = w'.fracNanos) (g : FlagClause)
    (he : g.GetEnvarValue w = g.GetEnvarValue w') (st : State) :
    g.setDefault w st = g.setDefault w' st := by
  unfold FlagClause.setDefault
  rw [he]
  split_ifs <;> exact setEach_congr w w' h g.value _ st

theorem setValues_congr (w w' : World) (h : w.fracNanos = w'.fracNanos) :
    ∀ (E : List ParseElement) (fs fs' : List String) (st : State),
      (∀ el ∈ E, el.Clause.name ∈ fs ↔ el.Clause.name ∈ fs') →
      setValues w E fs st = setValues w' E fs' st
  | [], fs, fs', st, _ => by simp [setValues]
  | el :: rest, fs, fs', st, hfs => by
    have ih := setValues_congr w w' h rest
    have h1 := hfs el (List.mem_cons_self _ _)
    simp only [setValues, Set_congr w w' h]
    by_cases hm : el.Clause.name ∈ fs
    · have hm' := h1.1 hm
      simp only [hm, hm', true_and]
      split_ifs
      · rfl
      · cases el.Clause.value.Set w' el.Value st with
        | mk st1 e =>
          cases e with
          | some e => rfl
          | none =>
            refine ih _ _ st1 ?_
            intro x hx
            simp [hfs x (List.mem_cons_of_mem _ hx)]
    · have hm' : el.Clause.name ∉ fs' := fun x => hm (h1.2 x)
      simp only [hm, hm', false_and, if_false]
      cases el.Clause.value.Set w' el.Value st with
      | mk st1 e =>
        cases e with
        | some e => rfl
        | none =>
          refine ih _ _ st1 ?_
          intro x hx
          simp [hfs x (List.mem_cons_of_mem _ hx)]

/-- Whether `setValues` fails, and how, does not depend on the state; what it leaves in a
slot depends only on what the slot held. -/
theorem setValues_local (w : World) :
    ∀ (E : List ParseElement) (fs : List String) (st st' : State),
      (setValues w E fs st).2 = (setValues w E fs st').2 ∧
      ∀ k, st.read k = st'.read k →
        (setValues w E fs st).1.read k = (setValues w E fs st').1.read k
  | [], fs, st, st' => by simp [setValues]
  | el :: rest, fs, st, st' => by
    have ih := setValues_local w rest
    have he := Set_error w el.Clause.value el.Value st st'
    have hl := Set_local w el.Clause.value el.Value st st'
    simp only [setValues]
    split_ifs with hm
    · simp
    · cases h1 : el.Clause.value.Set w el.Value st with
      | mk st1 e1 =>
        cases h2 : el.Clause.value.Set w el.Value st' with
        | mk st2 e2 =>
          rw [h1, h2] at he hl
          simp only [] at he hl
          subst he
          cases e1 with
          | some e => exact ⟨rfl, hl⟩
          | none =>
            simp only []
            refine ⟨(ih _ st1 st2).1, ?_⟩
            intro k hk
            exact (ih _ st1 st2).2 k (hl k hk)

theorem ExpandArgsFromFile_congr (w w' : World) (h : w.readLines = w'.readLines)
    (filename : String) : ExpandArgsFromFile w filename = ExpandArgsFromFile w' filename := by
  simp [ExpandArgsFromFile, h]

theorem Next_congr (w w' : World) (h : w.readLines = w'.readLines) :
    ∀ (fuel : Nat) (p : ParseContext), p.Next w fuel = p.Next w' fuel
  | 0, p => by simp [ParseContext.Next]
  | fuel + 1, p => by
    have ih := Next_congr w w' h fuel
    simp only [ParseContext.Next, ExpandArgsFromFile_congr w w' h, ih]

theorem Peek_congr (w w' : World) (h : w.readLines = w'.readLines) (fuel : Nat)
    (p : ParseContext) : p.Peek w fuel = p.Peek w' fuel := by
  simp only [ParseContext.Peek, Next_congr w w' h]

theorem flagGroupParse_congr (w w' : World) (h : w.readLines = w'.readLines) (fuel : Nat)
    (flags : List FlagClause) (p : ParseContext) :
    flagGroupParse w fuel flags p = flagGroupParse w' fuel flags p := by
  simp only [flagGroupParse, Peek_congr w w' h, Next_congr w w' h]

theorem parse_congr (w w' : World) (h : w.readLines = w'.readLines)
    (flags : List FlagClause) :
    ∀ (fuel : Nat) (p : ParseContext), parse w flags fuel p = parse w' flags fuel p
  | 0, p => by simp [parse]
  | fuel + 1, p => by
    have ih := parse_congr w w' h flags fuel
    simp only [parse, Peek_congr w w' h, flagGroupParse_congr w w' h, ih]

theorem takeWhile_ne_eq (l r : List Char) (h : '=' ∉ l) :
    (l ++ '=' :: r).takeWhile (fun c => c != '=') = l ∧
    (l ++ '=' :: r).dropWhile (fun c => c != '=') = '=' :: r := by
  induction l with
  | nil => simp
  | cons a t ih =>
    have ha : (a != '=') = true := by
      simp only [bne_iff_ne]
      exact fun e => h (by simp [e])
    have ht : '=' ∉ t := fun e => h (by simp [e])
    simp [List.takeWhile, List.dropWhile, ha, ih ht]

theorem takeWhile_ne_eq_nil (l : List Char) (h : '=' ∉ l) :
    l.takeWhile (fun c => c != '=') = l ∧ l.dropWhile (fun c => c != '=') = [] := by
  induction l with
  | nil => simp
  | cons a t ih =>
    have ha : (a != '=') = true := by
      simp only [bne_iff_ne]
      exact fun e => h (by simp [e])
    have ht : '=' ∉ t := fun e => h (by simp [e])
    simp [List.takeWhile, List.dropWhile, ha, ih ht]

theorem data_two_dashes : ("--" : String).data = ['-', '-'] := rfl

theorem Next_long_value_of_data (w : World) (n : Nat) (arg name v : String)
    (args : List String) (E : List ParseElement) (h : '=' ∉ name.data)
    (hd : arg.data = '-' :: '-' :: (name.data ++ '=' :: v.data)) :
    ParseContext.Next w (n + 1) ⟨arg :: args, [], false, E⟩ =
      some (⟨.TokenLong, name⟩, ⟨args, [⟨.TokenArg, v⟩], false, E⟩) := by
  have hne : arg ≠ "--" := by
    intro e
    have := congrArg String.data e
    rw [hd, data_two_dashes] at this
    simp at this
  have hp : strings.HasPrefix arg "--" = true := by
    simp [strings.HasPrefix, hd, data_two_dashes]
  simp only [ParseContext.Next, hne, hp, hd, if_true, if_false, List.drop]
  rw [(takeWhile_ne_eq name.data v.data h).1, (takeWhile_ne_eq name.data v.data h).2]
  simp

theorem Next_long_value (w : World) (n : Nat) (name v : String) (args : List String)
    (E : List ParseElement) (h : '=' ∉ name.data) :
    ParseContext.Next w (n + 1) ⟨("--" ++ name ++ "=" ++ v) :: args, [], false, E⟩ =
      some (⟨.TokenLong, name⟩, ⟨args, [⟨.TokenArg, v⟩], false, E⟩) := by
  apply Next_long_value_of_data w n _ name v args E h
  have h1 : ("=" : String).data = ['='] := rfl
  simp [String.data_append, data_two_dashes, h1]

theorem Next_long_of_data (w : World) (n : Nat) (arg name : String) (args : List String)
    (E : List ParseElement) (h : '=' ∉ name.data) (hn : name ≠ "")
    (hd : arg.data = '-' :: '-' :: name.data) :
    ParseContext.Next w (n + 1) ⟨arg :: args, [], false, E⟩ =
      some (⟨.TokenLong, name⟩, ⟨args, [], false, E⟩) := by
  have hne : arg ≠ "--" := by
    intro e
    have := congrArg String.data e
    rw [hd, data_two_dashes] at this
    simp at this
    exact hn (by cases name; simp_all)
  have hp : strings.HasPrefix arg "--" = true := by
    simp [strings.HasPrefix, hd, data_two_dashes]
  simp only [ParseContext.Next, hne, hp, hd, if_true, if_false, List.drop]
  rw [(takeWhile_ne_eq_nil name.data h).1, (takeWhile_ne_eq_nil name.data h).2]
  simp

theorem Next_long (w : World) (n : Nat) (name : String) (args : List String)
    (E : List ParseElement) (h : '=' ∉ name.data) (hn : name ≠ "") :
    ParseContext.Next w (n + 1) ⟨("--" ++ name) :: args, [], false, E⟩ =
      some (⟨.TokenLong, name⟩, ⟨args, [], false, E⟩) := by
  apply Next_long_of_data w n _ name args E h hn
  simp [String.data_append, data_two_dashes]

/-- An argument that the tokenizer passes on as it is: it starts neither with `-` nor
with `@`. -/
theorem Next_plain (w : World) (n : Nat) (v : String) (args : List String)
    (E : List ParseElement) (h1 : strings.HasPrefix v "-" = false)
    (h2 : strings.HasPrefix v "@" = false) :
    ParseContext.Next w (n + 1) ⟨v :: args, [], false, E⟩ =
      some (⟨.TokenArg, v⟩, ⟨args, [], false, E⟩) := by
  have h3 : strings.HasPrefix v "--" = false := by
    obtain ⟨d⟩ := v
    cases d with
    | nil => rfl
    | cons c t =>
      have hm : ("-" : String).data = ['-'] := rfl
      simp only [strings.HasPrefix, hm, data_two_dashes] at h1 ⊢
      simp [List.isPrefixOf] at h1 ⊢
      intro hc
      exact absurd hc h1
  have h4 : v ≠ "--" := by
    intro e
    rw [e] at h1
    exact absurd h1 (by decide)
  simp [ParseContext.Next, h1, h2, h3, h4]

theorem Next_pop (w : World) (n : Nat) (t : Token) (args : List String) (rest : List Token)
    (b : Bool) (E : List ParseElement) :
    ParseContext.Next w (n + 1) ⟨args, t :: rest, b, E⟩ = some (t, ⟨args, rest, b, E⟩) := by
  simp [ParseContext.Next]

/-- One step of `parse` on `--name=value` for a flag that takes a value. -/
theorem parse_long_value (w : World) (flags : List FlagClause) (n : Nat) (name v : String)
    (args : List String) (E : List ParseElement) (F : FlagClause)
    (h : '=' ∉ name.data) (hF : lookupLong flags name = some F)
    (hb : F.value.IsBoolFlag = false) :
    parse w flags (n + 2) ⟨("--" ++ name ++ "=" ++ v) :: args, [], false, E⟩ =
      parse w flags (n + 1) ⟨args, [], false, E ++ [⟨F, v⟩]⟩ := by
  rw [parse]
  simp only [ParseContext.Peek, Next_long_value w n name v args E h, flagGroupParse, Next_pop,
    hF, hb, ParseContext.matchedFlag]
  simp [hb]

/-- One step of `parse` on `--name value` for a flag that takes a value, when the
tokenizer passes `value` on as an argument. -/
theorem parse_long_plain (w : World) (flags : List FlagClause) (n : Nat) (name v : String)
    (args : List String) (E : List ParseElement) (F : FlagClause)
    (h : '=' ∉ name.data) (hn : name ≠ "") (hF : lookupLong flags name = some F)
    (hb : F.value.IsBoolFlag = false) (h1 : strings.HasPrefix v "-" = false)
    (h2 : strings.HasPrefix v "@" = false) :
    parse w flags (n + 2) ⟨("--" ++ name) :: v :: args, [], false, E⟩ =
      parse w flags (n + 1) ⟨args, [], false, E ++ [⟨F, v⟩]⟩ := by
  rw [parse]
  simp only [ParseContext.Peek, Next_long w n name (v :: args) E h hn, flagGroupParse, Next_pop,
    hF, hb, ParseContext.matchedFlag, Next_plain w n v args E h1 h2]
  simp [hb]

/-- The parse of a command line whose first flag is already matched. -/
theorem parse_with_first (w : World) (flags : List FlagClause) (fuel : Nat)
    (args : List String) (el : ParseElement) :
    parse w flags fuel ⟨args, [], false, [el]⟩ =
      (parse w flags fuel ⟨args, [], false, []⟩).map fun r =>
        (⟨r.1.args, r.1.peek, r.1.argsOnly, el :: r.1.Elements⟩, r.2) := by
  have := parse_addPre w [el] flags fuel ⟨args, [], false, []⟩
  simpa [ParseContext.addPre] using this

end kingpin
open kingpin

set_option maxRecDepth 100000 in
theorem ownFlags_facts : ∀ F ∈ ownFlags,
    lookupLong app.init.flags F.name = some F ∧ '=' ∉ F.name.data ∧ F.name ≠ "" ∧
    F.envar ≠ "" ∧ F.value.slot ≠ .bool .completion ∧
    (∀ g ∈ app.init.flags, g.envar = F.envar → g = F) ∧
    (∀ g ∈ app.init.flags, g.envar ≠ "") := by
  decide

open kingpin

theorem ParseFlags_eq_finish (w : World) (fuel : Nat) (cfg : Config) (args : List String) :
    Config.ParseFlags w fuel cfg args =
      (parse w app.init.flags fuel ⟨args, [], false, []⟩).map fun r =>
        app.init.finish w r.1.Elements r.2 cfg := by
  unfold Config.ParseFlags
  exact Parse_eq_finish app w fuel cfg args

theorem ParseFlags_of_parse (w : World) (fuel : Nat) (cfg : Config) (args : List String)
    (context : ParseContext) (perr : Option Error)
    (hp : parse w app.init.flags fuel ⟨args, [], false, []⟩ = some (context, perr)) :
    Config.ParseFlags w fuel cfg args =
      some (app.init.finish w context.Elements perr cfg) := by
  rw [ParseFlags_eq_finish, hp]
  rfl

/-- A matched flag whose value `Set` rejects: `Application.Parse` does not return nil. -/
theorem finish_invalid_flag (w : World) (F : FlagClause) (v : String)
    (hinv : (F.value.Set w v ⟨Config.zero, false⟩).2 ≠ none) (E : List ParseElement)
    (perr : Option Error) (cfg cfg' : Config) :
    app.init.finish w (⟨F, v⟩ :: E) perr cfg ≠ .ok cfg' := by
  unfold Application.finish
  cases app.init.setDefaults w ⟨[], [], false, ⟨F, v⟩ :: E⟩ ⟨cfg, false⟩ with
  | error e => simp
  | ok st =>
    simp only [setValues, List.not_mem_nil, false_and, if_false]
    have he := Set_error w F.value v st ⟨Config.zero, false⟩
    cases h1 : F.value.Set w v st with
    | mk st1 e1 =>
      rw [h1] at he
      simp only [] at he
      cases e1 with
      | none => exact absurd he.symm hinv
      | some e =>
        simp only []
        cases perr <;> split_ifs <;> simp

/-- Two values for the same matched flag, one of which leads to a nil return: the other
leads to a nil return exactly when `Set` accepts it. -/
theorem finish_accepts (w : World) (F : FlagClause) (hF : F ∈ ownFlags) (s t : String)
    (E : List ParseElement) (perr : Option Error) (cfg c : Config)
    (hbase : app.init.finish w (⟨F, t⟩ :: E) perr cfg = .ok c) :
    (∃ c', app.init.finish w (⟨F, s⟩ :: E) perr cfg = .ok c') ↔
      (F.value.Set w s ⟨Config.zero, false⟩).2 = none := by
  obtain ⟨_, _, _, _, hcomp, _, _⟩ := ownFlags_facts F hF
  constructor
  · intro ⟨c', hc'⟩
    by_contra hinv
    exact finish_invalid_flag w F s hinv E perr cfg c' hc'
  · intro hval
    have htval : (F.value.Set w t ⟨Config.zero, false⟩).2 = none := by
      by_contra hinv
      exact finish_invalid_flag w F t hinv E perr cfg c hbase
    unfold Application.finish at hbase ⊢
    simp only [Application.setDefaults, List.any_cons, List.map_cons] at hbase ⊢
    cases hd : (if (decide (F.name = "help") ||
          E.any fun element => decide (element.Clause.name = "help")) = true
        then Except.ok (⟨cfg, false⟩ : State)
        else setDefaultsLoop w (F.name :: E.map fun element => element.Clause.name)
          (w.range app.init.flags) ⟨cfg, false⟩) with
    | error e => rw [hd] at hbase; simp at hbase
    | ok st =>
      rw [hd] at hbase
      simp only [setValues, List.not_mem_nil, false_and, if_false] at hbase ⊢
      have hes := Set_error w F.value s st ⟨Config.zero, false⟩
      have het := Set_error w F.value t st ⟨Config.zero, false⟩
      have hfs := Set_frame w F.value s st _ hcomp
      have hft := Set_frame w F.value t st _ hcomp
      cases h1 : F.value.Set w s st with
      | mk us es =>
        cases h2 : F.value.Set w t st with
        | mk ut et =>
          rw [h1] at hes hfs
          rw [h2] at het hft
          rw [h2] at hbase
          simp only [] at hes het hfs hft
          rw [hval] at hes
          rw [htval] at het
          subst hes
          subst het
          simp only [] at hbase ⊢
          have hloc := setValues_local w E [F.name] us ut
          have hc := hloc.2 (.bool .completion) (hfs.trans hft.symm)
          have he := hloc.1
          cases hv : setValues w E [F.name] ut with
          | mk st1 e1 =>
            cases hv' : setValues w E [F.name] us with
            | mk st1' e1' =>
              rw [hv, hv'] at hc he
              simp only [State.read, Stored.b.injEq] at hc he
              rw [hv] at hbase
              simp only [] at hbase ⊢
              subst he
              rw [hc]
              cases perr <;> cases e1' <;> split_ifs at hbase ⊢ <;> (simp at hbase ⊢)

open kingpin

/-- `ParseFlags` on a command line whose first flag is matched in one step of `parse`:
the rest of the line is parsed as it would be alone, and the flag comes first among the
matched elements. -/
theorem ParseFlags_step_eq (w : World) (fuel : Nat) (cfg : Config)
    (argsFull args : List String) (F : FlagClause) (v : String)
    (hstep : ∀ n, parse w app.init.flags (n + 2) ⟨argsFull, [], false, []⟩ =
      parse w app.init.flags (n + 1) ⟨args, [], false, [] ++ [⟨F, v⟩]⟩) :
    Config.ParseFlags w (fuel + 1) cfg argsFull =
      (parse w app.init.flags fuel ⟨args, [], false, []⟩).map fun r =>
        app.init.finish w (⟨F, v⟩ :: r.1.Elements) r.2 cfg := by
  cases fuel with
  | zero => simp [ParseFlags_eq_finish, parse, ParseContext.Peek, ParseContext.Next]
  | succ n =>
    rw [ParseFlags_eq_finish, hstep n, List.nil_append, parse_with_first]
    cases parse w app.init.flags (n + 1) ⟨args, [], false, []⟩ <;> rfl

theorem step_value (w : World) (F : FlagClause) (hF : F ∈ ownFlags)
    (hb : F.value.IsBoolFlag = false) (v : String) (args : List String) :
    ∀ n, parse w app.init.flags (n + 2) ⟨("--" ++ F.name ++ "=" ++ v) :: args, [], false, []⟩ =
      parse w app.init.flags (n + 1) ⟨args, [], false, [] ++ [⟨F, v⟩]⟩ := by
  obtain ⟨hl, he, _, _⟩ := ownFlags_facts F hF
  exact fun n => parse_long_value w _ n F.name v args [] F he hl hb

theorem step_plain (w : World) (F : FlagClause) (hF : F ∈ ownFlags)
    (hb : F.value.IsBoolFlag = false) (v : String) (args : List String)
    (h1 : strings.HasPrefix v "-" = false) (h2 : strings.HasPrefix v "@" = false) :
    ∀ n, parse w app.init.flags (n + 2) ⟨("--" ++ F.name) :: v :: args, [], false, []⟩ =
      parse w app.init.flags (n + 1) ⟨args, [], false, [] ++ [⟨F, v⟩]⟩ := by
  obtain ⟨hl, he, hn, _⟩ := ownFlags_facts F hF
  exact fun n => parse_long_plain w _ n F.name v args [] F he hn hl hb h1 h2

theorem Set_enum_error (w : World) (p : StringPtr) (opts : List String) (s : String)
    (st : State) : ((Value.EnumVar p opts).Set w s st).2 = none ↔ s ∈ opts := by
  by_cases hm : s ∈ opts <;> simp [Value.Set, hm]

open kingpin

/-- Which values a flag of `ParseFlags` accepts, given as `--name=value` in front of a
command line that leads to a nil return with some value `t`: those that `Set` accepts. -/
theorem flag_accepts (w : World) (F : FlagClause) (hF : F ∈ ownFlags)
    (hb : F.value.IsBoolFlag = false) (fuel : Nat) (cfg : Config) (args : List String)
    (t s : String)
    (hbase : ∃ c, Config.ParseFlags w (fuel + 1) cfg (("--" ++ F.name ++ "=" ++ t) :: args) =
      some (.ok c)) :
    (∃ c, Config.ParseFlags w (fuel + 1) cfg (("--" ++ F.name ++ "=" ++ s) :: args) =
      some (.ok c)) ↔ (F.value.Set w s ⟨Config.zero, false⟩).2 = none := by
  rw [ParseFlags_step_eq w fuel cfg _ args F s (step_value w F hF hb s args)]
  rw [ParseFlags_step_eq w fuel cfg _ args F t (step_value w F hF hb t args)] at hbase
  cases hp : parse w app.init.flags fuel ⟨args, [], false, []⟩ with
  | none => rw [hp] at hbase; simp at hbase
  | some r =>
    obtain ⟨context, perr⟩ := r
    rw [hp] at hbase
    simp only [Option.map_some', Option.some.injEq] at hbase ⊢
    obtain ⟨c, hc⟩ := hbase
    exact finish_accepts w F hF s t context.Elements perr cfg c hc

/-- The same for the form `--name value`, when the tokenizer passes both values on as
arguments. -/
theorem flag_accepts_plain (w : World) (F : FlagClause) (hF : F ∈ ownFlags)
    (hb : F.value.IsBoolFlag = false) (fuel : Nat) (cfg : Config) (args : List String)
    (t s : String) (ht1 : strings.HasPrefix t "-" = false)
    (ht2 : strings.HasPrefix t "@" = false) (hs1 : strings.HasPrefix s "-" = false)
    (hs2 : strings.HasPrefix s "@" = false)
    (hbase : ∃ c, Config.ParseFlags w (fuel + 1) cfg (("--" ++ F.name) :: t :: args) =
      some (.ok c)) :
    (∃ c, Config.ParseFlags w (fuel + 1) cfg (("--" ++ F.name) :: s :: args) =
      some (.ok c)) ↔ (F.value.Set w s ⟨Config.zero, false⟩).2 = none := by
  rw [ParseFlags_step_eq w fuel cfg _ args F s (step_plain w F hF hb s args hs1 hs2)]
  rw [ParseFlags_step_eq w fuel cfg _ args F t (step_plain w F hF hb t args ht1 ht2)] at hbase
  cases hp : parse w app.init.flags fuel ⟨args, [], false, []⟩ with
  | none => rw [hp] at hbase; simp at hbase
  | some r =>
    obtain ⟨context, perr⟩ := r
    rw [hp] at hbase
    simp only [Option.map_some', Option.some.injEq] at hbase ⊢
    obtain ⟨c, hc⟩ := hbase
    exact finish_accepts w F hF s t context.Elements perr cfg c hc

open kingpin

/-- A parse error never ends in a nil return. -/
theorem finish_parse_error (w : World) (E : List ParseElement) (e : Error) (cfg c : Config) :
    app.init.finish w E (some e) cfg ≠ .ok c := by
  unfold Application.finish
  cases app.init.setDefaults w ⟨[], [], false, E⟩ ⟨cfg, false⟩ with
  | error e => simp
  | ok st =>
    simp only []
    cases setValues w E [] st with
    | mk st1 e1 =>
      simp only []
      split_ifs <;> simp

/-- The elements matched on a command line whose first flag is matched in one step. -/
theorem matchedElements_step (w : World) (fuel : Nat) (argsFull args : List String)
    (F : FlagClause) (v : String)
    (hstep : ∀ n, parse w app.init.flags (n + 2) ⟨argsFull, [], false, []⟩ =
      parse w app.init.flags (n + 1) ⟨args, [], false, [] ++ [⟨F, v⟩]⟩)
    (hp : parse w app.init.flags fuel ⟨args, [], false, []⟩ ≠ none) :
    matchedElements w (fuel + 1) argsFull = ⟨F, v⟩ :: matchedElements w fuel args := by
  cases fuel with
  | zero => simp [parse] at hp
  | succ n =>
    unfold matchedElements
    rw [hstep n, List.nil_append, parse_with_first]
    cases hq : parse w app.init.flags (n + 1) ⟨args, [], false, []⟩ with
    | none => exact absurd hq hp
    | some r => rfl

/-- A value that `Set` accepts, supplied by the first flag of a command line that leads
to a nil return with another value for that flag: `ParseFlags` returns nil, and the flag
is matched with the value. -/
theorem supplied_first (w : World) (F : FlagClause) (hF : F ∈ ownFlags) (fuel : Nat)
    (cfg : Config) (argsS argsT args : List String) (s t : String)
    (hstepS : ∀ n, parse w app.init.flags (n + 2) ⟨argsS, [], false, []⟩ =
      parse w app.init.flags (n + 1) ⟨args, [], false, [] ++ [⟨F, s⟩]⟩)
    (hstepT : ∀ n, parse w app.init.flags (n + 2) ⟨argsT, [], false, []⟩ =
      parse w app.init.flags (n + 1) ⟨args, [], false, [] ++ [⟨F, t⟩]⟩)
    (hbase : ∃ c, Config.ParseFlags w (fuel + 1) cfg argsT = some (.ok c))
    (hval : (F.value.Set w s ⟨Config.zero, false⟩).2 = none) :
    ∃ c, Config.ParseFlags w (fuel + 1) cfg argsS = some (.ok c) ∧
      (⟨F, s⟩ : ParseElement) ∈ matchedElements w (fuel + 1) argsS := by
  rw [ParseFlags_step_eq w fuel cfg _ args F s hstepS]
  rw [ParseFlags_step_eq w fuel cfg _ args F t hstepT] at hbase
  cases hp : parse w app.init.flags fuel ⟨args, [], false, []⟩ with
  | none => rw [hp] at hbase; simp at hbase
  | some r =>
    obtain ⟨context, perr⟩ := r
    rw [hp] at hbase
    simp only [Option.map_some', Option.some.injEq] at hbase ⊢
    obtain ⟨c, hc⟩ := hbase
    obtain ⟨c', hc'⟩ := (finish_accepts w F hF s t context.Elements perr cfg c hc).2 hval
    refine ⟨c', hc', ?_⟩
    rw [matchedElements_step w fuel argsS args F s hstepS (by rw [hp]; simp)]
    exact List.mem_cons_self _ _

/-- A token that starts with `-` and is not `--` is a flag token, not an argument. -/
theorem Next_dash (w : World) (n : Nat) (s : String) (rest : List String)
    (E : List ParseElement) (hs : strings.HasPrefix s "-" = true) (hne : s ≠ "--") :
    ∃ tok ctx, ParseContext.Next w (n + 1) ⟨s :: rest, [], false, E⟩ = some (tok, ctx) ∧
      tok.Kind ≠ .TokenArg := by
  simp only [ParseContext.Next, hne, if_false, hs, if_true, Bool.false_eq_true]
  by_cases h2 : strings.HasPrefix s "--" = true
  · simp only [h2, if_true]
    split
    · exact ⟨_, _, rfl, by simp⟩
    · exact ⟨_, _, rfl, by simp⟩
  · simp only [h2, if_false, Bool.false_eq_true]
    split
    · exact ⟨_, _, rfl, by simp⟩
    · exact ⟨_, _, rfl, by simp⟩

/-- The parse of `--name s` for a flag that takes a value, when `s` is itself a flag
token: the error "expected argument for flag". -/
theorem parse_long_no_argument (w : World) (flags : List FlagClause) (n : Nat)
    (name s : String) (rest : List String) (E : List ParseElement) (F : FlagClause)
    (h : '=' ∉ name.data) (hn : name ≠ "") (hF : lookupLong flags name = some F)
    (hb : F.value.IsBoolFlag = false) (hs : strings.HasPrefix s "-" = true)
    (hne : s ≠ "--") :
    ∃ ctx, parse w flags (n + 2) ⟨("--" ++ name) :: s :: rest, [], false, E⟩ =
      some (ctx, some (.expectedArgument name)) := by
  obtain ⟨tok, ctx, hnext, hk⟩ := Next_dash w n s rest E hs hne
  rw [parse]
  simp only [ParseContext.Peek, Next_long w n name (s :: rest) E h hn, flagGroupParse, Next_pop,
    hF, hb, hnext]
  simp [hb, hk]

/-- `ParseFlags` on `--name s` for one of its flags that takes a value, when `s` starts
with `-` and is not `--`, does not return nil. -/
theorem ParseFlags_no_argument (w : World) (F : FlagClause) (hF : F ∈ ownFlags)
    (hb : F.value.IsBoolFlag = false) (fuel : Nat) (cfg : Config) (s : String)
    (rest : List String) (hs : strings.HasPrefix s "-" = true) (hne : s ≠ "--") (c : Config) :
    Config.ParseFlags w fuel cfg (("--" ++ F.name) :: s :: rest) ≠ some (.ok c) := by
  obtain ⟨hl, he, hn, _⟩ := ownFlags_facts F hF
  match fuel with
  | 0 => simp [ParseFlags_eq_finish, parse]
  | 1 => simp [ParseFlags_eq_finish, parse, ParseContext.Peek, ParseContext.Next]
  | n + 2 =>
    obtain ⟨ctx, hp⟩ := parse_long_no_argument w app.init.flags n F.name s rest [] F he hn hl hb
      hs hne
    rw [ParseFlags_of_parse w (n + 2) cfg _ ctx _ hp]
    simp only [ne_eq, Option.some.injEq]
    exact finish_parse_error w _ _ cfg c

open kingpin

theorem Next_double_dash (w : World) (n : Nat) (a : String) (rest : List String)
    (E : List ParseElement) :
    ParseContext.Next w (n + 2) ⟨"--" :: a :: rest, [], false, E⟩ =
      some (⟨.TokenArg, a⟩, ⟨rest, [], true, E⟩) := by
  simp [ParseContext.Next]

theorem Next_double_dash_end (w : World) (n : Nat) (E : List ParseElement) :
    ParseContext.Next w (n + 2) ⟨["--"], [], false, E⟩ =
      some (⟨.TokenEOL, ""⟩, ⟨[], [], true, E⟩) := by
  simp [ParseContext.Next]

/-- One step of `parse` on `--name -- a`: after `--` the next string is an argument,
whatever it looks like, and it becomes the value of the flag. -/
theorem parse_long_double_dash (w : World) (flags : List FlagClause) (n : Nat)
    (name a : String) (rest : List String) (E : List ParseElement) (F : FlagClause)
    (h : '=' ∉ name.data) (hn : name ≠ "") (hF : lookupLong flags name = some F)
    (hb : F.value.IsBoolFlag = false) :
    parse w flags (n + 3) ⟨("--" ++ name) :: "--" :: a :: rest, [], false, E⟩ =
      parse w flags (n + 2) ⟨rest, [], true, E ++ [⟨F, a⟩]⟩ := by
  rw [parse]
  simp only [ParseContext.Peek, Next_long w (n + 1) name ("--" :: a :: rest) E h hn,
    flagGroupParse, Next_pop, hF, hb, Next_double_dash, ParseContext.matchedFlag]
  simp [hb]

theorem parse_long_double_dash_end (w : World) (flags : List FlagClause) (n : Nat)
    (name : String) (E : List ParseElement) (F : FlagClause)
    (h : '=' ∉ name.data) (hn : name ≠ "") (hF : lookupLong flags name = some F)
    (hb : F.value.IsBoolFlag = false) :
    ∃ ctx, parse w flags (n + 3) ⟨[("--" ++ name), "--"], [], false, E⟩ =
      some (ctx, some (.expectedArgument name)) := by
  rw [parse]
  simp only [ParseContext.Peek, Next_long w (n + 1) name ["--"] E h hn,
    flagGroupParse, Next_pop, hF, hb, Next_double_dash_end]
  simp [hb]

/-- A positional argument ends the parse with the error "unexpected". -/
theorem parse_plain_unexpected (w : World) (flags : List FlagClause) (n : Nat) (a : String)
    (rest : List String) (E : List ParseElement) (h1 : strings.HasPrefix a "-" = false)
    (h2 : strings.HasPrefix a "@" = false) :
    ∃ ctx, parse w flags (n + 2) ⟨a :: rest, [], false, E⟩ = some (ctx, some (.unexpected a)) := by
  rw [parse]
  simp only [ParseContext.Peek, Next_plain w n a rest E h1 h2]
  exact ⟨_, rfl⟩

/-- `ParseFlags` on `--name --` in front of a command line that leads to a nil return
with `--name t` in front, for a flag whose accepted values are plain words: no nil
return. After `--` the first string of the rest becomes the value; if `Set` accepted it,
it would be a positional argument of the other command line. -/
theorem ParseFlags_double_dash (w : World) (F : FlagClause) (hF : F ∈ ownFlags)
    (hb : F.value.IsBoolFlag = false) (fuel : Nat) (cfg : Config) (rest : List String)
    (t : String) (ht1 : strings.HasPrefix t "-" = false)
    (ht2 : strings.HasPrefix t "@" = false)
    (hplain : ∀ a, (F.value.Set w a ⟨Config.zero, false⟩).2 = none →
      strings.HasPrefix a "-" = false ∧ strings.HasPrefix a "@" = false)
    (hbase : ∃ c, Config.ParseFlags w fuel cfg (("--" ++ F.name) :: t :: rest) = some (.ok c))
    (c : Config) :
    Config.ParseFlags w fuel cfg (("--" ++ F.name) :: "--" :: rest) ≠ some (.ok c) := by
  obtain ⟨hl, he, hn, _⟩ := ownFlags_facts F hF
  match fuel with
  | 0 => simp [ParseFlags_eq_finish, parse]
  | 1 => simp [ParseFlags_eq_finish, parse, ParseContext.Peek, ParseContext.Next]
  | 2 =>
    rw [ParseFlags_eq_finish, parse]
    simp only [ParseContext.Peek, Next_long w 0 F.name ("--" :: rest) [] he hn,
      flagGroupParse, Next_pop, hl, hb]
    simp [hb, ParseContext.Next]
  | n + 3 =>
    cases rest with
    | nil =>
      obtain ⟨ctx, hp⟩ := parse_long_double_dash_end w app.init.flags n F.name [] F he hn hl hb
      rw [ParseFlags_of_parse w (n + 3) cfg _ ctx _ hp]
      simp only [ne_eq, Option.some.injEq]
      exact finish_parse_error w _ _ cfg c
    | cons a rest =>
      rw [ParseFlags_eq_finish, parse_long_double_dash w _ n F.name a rest [] F he hn hl hb]
      have hadd := parse_addPre w [⟨F, a⟩] app.init.flags (n + 2) ⟨rest, [], true, []⟩
      simp only [ParseContext.addPre, List.append_nil] at hadd
      rw [List.nil_append, hadd]
      cases hq : parse w app.init.flags (n + 2) ⟨rest, [], true, []⟩ with
      | none => simp
      | some r =>
        simp only [Option.map_some', ne_eq, Option.some.injEq]
        by_cases hval : (F.value.Set w a ⟨Config.zero, false⟩).2 = none
        · exfalso
          obtain ⟨c0, hc0⟩ := hbase
          rw [ParseFlags_step_eq w (n + 2) cfg _ (a :: rest) F t
            (step_plain w F hF hb t (a :: rest) ht1 ht2)] at hc0
          obtain ⟨ctx, hp⟩ := parse_plain_unexpected w app.init.flags n a rest []
            (hplain a hval).1 (hplain a hval).2
          rw [hp] at hc0
          simp only [Option.map_some', Option.some.injEq] at hc0
          exact finish_parse_error w _ _ cfg c0 hc0
        · exact finish_invalid_flag w F a hval _ _ cfg c

open kingpin

/-- A duration flag that is not supplied on the command line and whose environment
variable is set ends with the duration that `time.ParseDuration` reads from the
variable. -/
theorem duration_env (w : World) (fuel : Nat) (cfg : Config) (args : List String)
    (cfg' : Config) (h : Config.ParseFlags w fuel cfg args = some (.ok cfg'))
    (F : FlagClause) (hF : F ∈ app.init.flags) (p : DurationPtr)
    (hv : F.value = .DurationVar p) (he : F.envar ≠ "")
    (hun : ∀ el ∈ matchedElements w fuel args, el.Clause.name ≠ F.name)
    (henv : w.Getenv F.envar ≠ "") :
    ∃ d, time.ParseDuration w.fracNanos (w.Getenv F.envar) = .ok d ∧
      State.read ⟨cfg', false⟩ (.dur p) = .d d := by
  have hk : F.value.slot ≠ .bool .anonymous := by rw [hv]; simp [Value.slot]
  have hsl : F.value.slot = .dur p := by rw [hv]; rfl
  obtain ⟨st1, st2, _, h1, h2⟩ := slot_default w fuel cfg args cfg' h F hF hk hun
  rw [hsl] at h2
  rw [h2]
  have hg : F.GetEnvarValue w = w.Getenv F.envar := by simp [FlagClause.GetEnvarValue, he]
  unfold FlagClause.setDefault at h1
  simp only [hg, ne_eq, henv, not_false_eq_true, if_true, hv, Value.IsCumulative,
    Bool.not_false, setEach] at h1
  cases hs : (Value.DurationVar p).Set w (w.Getenv F.envar) st1 with
  | mk st3 e3 =>
    rw [hs] at h1
    cases e3 with
    | some e => simp at h1
    | none =>
      simp only [Except.ok.injEq] at h1
      rw [← h1]
      exact Set_duration_ok w p _ st1 st3 hs

/-- A valid duration supplied by the first flag of a command line that leads to a nil
return with another value for that flag: `ParseFlags` returns nil, and the field of the
flag holds the duration. -/
theorem duration_first (w : World) (F : FlagClause) (hF : F ∈ ownFlags) (p : DurationPtr)
    (hv : F.value = .DurationVar p) (fuel : Nat) (cfg : Config)
    (argsS argsT args : List String) (s t : String) (d : time.Duration)
    (hstepS : ∀ n, parse w app.init.flags (n + 2) ⟨argsS, [], false, []⟩ =
      parse w app.init.flags (n + 1) ⟨args, [], false, [] ++ [⟨F, s⟩]⟩)
    (hstepT : ∀ n, parse w app.init.flags (n + 2) ⟨argsT, [], false, []⟩ =
      parse w app.init.flags (n + 1) ⟨args, [], false, [] ++ [⟨F, t⟩]⟩)
    (hbase : ∃ c, Config.ParseFlags w (fuel + 1) cfg argsT = some (.ok c))
    (hs : time.ParseDuration w.fracNanos s = .ok d) :
    ∃ c, Config.ParseFlags w (fuel + 1) cfg argsS = some (.ok c) ∧
      State.read ⟨c, false⟩ (.dur p) = .d d := by
  have hval : (F.value.Set w s ⟨Config.zero, false⟩).2 = none := by
    rw [hv]
    simp [Value.Set, hs]
  obtain ⟨c, hc, hmem⟩ := supplied_first w F hF fuel cfg argsS argsT args s t hstepS hstepT
    hbase hval
  obtain ⟨d', hd', hr⟩ := duration_supplied w (fuel + 1) cfg argsS c hc F
    (ownFlags_mem F hF).1 p hv ⟨F, s⟩ hmem rfl
  simp only [hs, Except.ok.injEq] at hd'
  rw [← hd'] at hr
  exact ⟨c, hc, hr⟩

namespace kingpin

/-! ## The order in which the flags are visited -/

theorem setEach_ok_state (w : World) (v : Value) :
    ∀ (vals : List String) (st st' s2 : State), setEach w v vals st = .ok s2 →
      ∃ s2', setEach w v vals st' = .ok s2'
  | [], _, st', _, _ => ⟨st', rfl⟩
  | s :: rest, st, st', s2, h => by
    simp only [setEach] at h ⊢
    have he := Set_error w v s st st'
    cases h1 : v.Set w s st with
    | mk t1 e1 =>
      cases h2 : v.Set w s st' with
      | mk t2 e2 =>
        rw [h1, h2] at he
        rw [h1] at h
        simp only [] at he h ⊢
        subst he
        cases e1 with
        | some e => simp at h
        | none => exact setEach_ok_state w v rest t1 t2 s2 h

theorem setEach_local (w : World) (v : Value) (k : Slot) :
    ∀ (vals : List String) (sa sb sa' sb' : State), setEach w v vals sa = .ok sa' →
      setEach w v vals sb = .ok sb' → sa.read k = sb.read k → sa'.read k = sb'.read k
  | [], sa, sb, sa', sb', ha, hb, h => by
    simp only [setEach, Except.ok.injEq] at ha hb
    rw [← ha, ← hb]
    exact h
  | s :: rest, sa, sb, sa', sb', ha, hb, h => by
    simp only [setEach] at ha hb
    have hl := Set_local w v s sa sb k h
    cases h1 : v.Set w s sa with
    | mk t1 e1 =>
      cases h2 : v.Set w s sb with
      | mk t2 e2 =>
        rw [h1] at ha hl
        rw [h2] at hb hl
        simp only [] at ha hb hl
        cases e1 with
        | some e => simp at ha
        | none =>
          cases e2 with
          | some e => simp at hb
          | none => exact setEach_local w v k rest t1 t2 sa' sb' ha hb hl

/-- Whether the default of a flag is accepted does not depend on the state. -/
theorem setDefault_ok_state (w : World) (f : FlagClause) (st st' s2 : State)
    (h : f.setDefault w st = .ok s2) : ∃ s2', f.setDefault w st' = .ok s2' := by
  unfold FlagClause.setDefault at h ⊢
  split_ifs at h ⊢ <;> exact setEach_ok_state w f.value _ st st' s2 h

/-- What the default of a flag leaves in a slot depends only on what the slot held. -/
theorem setDefault_local (w : World) (f : FlagClause) (k : Slot) (sa sb sa' sb' : State)
    (ha : f.setDefault w sa = .ok sa') (hb : f.setDefault w sb = .ok sb')
    (h : sa.read k = sb.read k) : sa'.read k = sb'.read k := by
  unfold FlagClause.setDefault at ha hb
  split_ifs at ha hb <;> exact setEach_local w f.value k _ sa sb sa' sb' ha hb h

theorem setDefaultsLoop_ok_mem (w : World) (m : List String) :
    ∀ (L : List FlagClause) (st st' : State), setDefaultsLoop w m L st = .ok st' →
      ∀ f ∈ L, f.name ∉ m → ∃ s1 s2, f.setDefault w s1 = .ok s2
  | [], _, _, _, f, hf, _ => by simp at hf
  | g :: rest, st, st', h, f, hf, hm => by
    simp only [setDefaultsLoop] at h
    by_cases hg : g.name ∈ m
    · simp only [hg, if_true] at h
      rcases List.mem_cons.1 hf with rfl | hf'
      · exact absurd hg hm
      · exact setDefaultsLoop_ok_mem w m rest st st' h f hf' hm
    · simp only [hg, if_false] at h
      cases hd : g.setDefault w st with
      | error e => simp [hd] at h
      | ok st1 =>
        rw [hd] at h
        rcases List.mem_cons.1 hf with rfl | hf'
        · exact ⟨st, st1, hd⟩
        · exact setDefaultsLoop_ok_mem w m rest st1 st' h f hf' hm

theorem setDefaultsLoop_ok_of (w : World) (m : List String) :
    ∀ (L : List FlagClause) (st : State),
      (∀ f ∈ L, f.name ∉ m → ∀ s, ∃ s2, f.setDefault w s = .ok s2) →
      ∃ st', setDefaultsLoop w m L st = .ok st'
  | [], st, _ => ⟨st, rfl⟩
  | g :: rest, st, h => by
    have h' : ∀ f ∈ rest, f.name ∉ m → ∀ s, ∃ s2, f.setDefault w s = .ok s2 :=
      fun f hf => h f (List.mem_cons_of_mem _ hf)
    simp only [setDefaultsLoop]
    by_cases hg : g.name ∈ m
    · simp only [hg, if_true]
      exact setDefaultsLoop_ok_of w m rest st h'
    · simp only [hg, if_false]
      obtain ⟨s2, hs2⟩ := h g (List.mem_cons_self _ _) hg st
      rw [hs2]
      exact setDefaultsLoop_ok_of w m rest s2 h'

/-- The loop of `setDefaults` leaves a slot alone to which none of the flags that get
their default writes. -/
theorem setDefaultsLoop_frame_unmatched (w : World) (m : List String) (k : Slot) :
    ∀ (L : List FlagClause) (st st' : State),
      (∀ f ∈ L, f.name ∉ m → f.value.slot ≠ k) → setDefaultsLoop w m L st = .ok st' →
      st'.read k = st.read k
  | [], st, st', _, hs => by simp [setDefaultsLoop] at hs; rw [hs]
  | g :: rest, st, st', h, hs => by
    have h' : ∀ f ∈ rest, f.name ∉ m → f.value.slot ≠ k :=
      fun f hf => h f (List.mem_cons_of_mem _ hf)
    simp only [setDefaultsLoop] at hs
    by_cases hg : g.name ∈ m
    · simp only [hg, if_true] at hs
      exact setDefaultsLoop_frame_unmatched w m k rest st st' h' hs
    · simp only [hg, if_false] at hs
      cases hd : g.setDefault w st with
      | error e => simp [hd] at hs
      | ok st1 =>
        rw [hd] at hs
        rw [setDefaultsLoop_frame_unmatched w m k rest st1 st' h' hs]
        exact setDefault_frame w g k (h g (List.mem_cons_self _ _) hg) st st1 hd

end kingpin

open kingpin

/-- Two worlds that differ at most in the order in which maps are visited. -/
theorem setDefaults_order_ok (w w' : World) (hg : w.Getenv = w'.Getenv)
    (hf : w.fracNanos = w'.fracNanos) (m : List String) (st st1 : State)
    (h : setDefaultsLoop w m (w.range app.init.flags) st = .ok st1) :
    setDefaultsLoop w' m (w'.range app.init.flags) st = .ok st1 := by
  have hcongr : ∀ (f : FlagClause) (s : State), f.setDefault w' s = f.setDefault w s := by
    intro f s
    exact (setDefault_congr w w' hf f (by simp [FlagClause.GetEnvarValue, hg]) s).symm
  have hall : ∀ f ∈ w'.range app.init.flags, f.name ∉ m →
      ∀ s, ∃ s2, f.setDefault w' s = .ok s2 := by
    intro f hfm hm s
    have hfm' : f ∈ w.range app.init.flags :=
      (w.range_mem _ f).2 ((w'.range_mem _ f).1 hfm)
    obtain ⟨s1, s2, h12⟩ := setDefaultsLoop_ok_mem w m _ st st1 h f hfm' hm
    obtain ⟨s2', hs2'⟩ := setDefault_ok_state w f s1 s s2 h12
    exact ⟨s2', by rw [hcongr]; exact hs2'⟩
  obtain ⟨st2, h2⟩ := setDefaultsLoop_ok_of w' m _ st hall
  rw [h2]
  congr 1
  apply State.ext_read
  intro k
  by_cases hk : ∃ f ∈ app.init.flags, f.name ∉ m ∧ f.value.slot = k
  · obtain ⟨f, hfm, hm, hs⟩ := hk
    by_cases ha : k = .bool .anonymous
    · rw [ha]
      rfl
    · have hka : f.value.slot ≠ .bool .anonymous := by rw [hs]; exact ha
      obtain ⟨pre, post, hsplit, hpre, hpost⟩ := range_flags_split w f hfm hka
      obtain ⟨pre', post', hsplit', hpre', hpost'⟩ := range_flags_split w' f hfm hka
      rw [hsplit] at h
      rw [hsplit'] at h2
      obtain ⟨a1, a2, ha1, ha2, ha3⟩ := setDefaultsLoop_at w m k f post hm
        (fun g hg => hs ▸ (hpost g hg).2.2) pre st st1 (fun g hg => hs ▸ (hpre g hg).2.2) h
      obtain ⟨b1, b2, hb1, hb2, hb3⟩ := setDefaultsLoop_at w' m k f post' hm
        (fun g hg => hs ▸ (hpost' g hg).2.2) pre' st st2 (fun g hg => hs ▸ (hpre' g hg).2.2) h2
      rw [hcongr] at hb2
      rw [hb3, ha3]
      exact setDefault_local w f k b1 a1 b2 a2 hb2 ha2 (hb1.trans ha1.symm)
  · have hno : ∀ (v : World), ∀ f ∈ v.range app.init.flags, f.name ∉ m → f.value.slot ≠ k := by
      intro v f hfm hm hs
      exact hk ⟨f, (v.range_mem _ f).1 hfm, hm, hs⟩
    rw [setDefaultsLoop_frame_unmatched w' m k _ st st2 (hno w') h2,
      setDefaultsLoop_frame_unmatched w m k _ st st1 (hno w) h]

/-- How `Application.Parse` ends does not depend on the order in which the flags are
visited, except for which error is returned when several defaults are rejected. -/
theorem finish_order (w w' : World) (hg : w.Getenv = w'.Getenv)
    (hf : w.fracNanos = w'.fracNanos) (E : List ParseElement) (perr : Option Error)
    (cfg : Config) :
    (∀ c, app.init.finish w E perr cfg = .ok c → app.init.finish w' E perr cfg = .ok c) ∧
    (∀ n, app.init.finish w E perr cfg = .exit n → app.init.finish w' E perr cfg = .exit n) ∧
    (∀ e, app.init.finish w E perr cfg = .err e →
      ∃ e', app.init.finish w' E perr cfg = .err e') := by
  have hv : ∀ st, setValues w' E [] st = setValues w E [] st :=
    fun st => (setValues_congr w w' hf E [] [] st (fun _ _ => Iff.rfl)).symm
  unfold Application.finish
  simp only [Application.setDefaults, hv]
  by_cases hh : (E.any fun element => decide (element.Clause.name = "help")) = true
  · simp only [hh, if_true]
    exact ⟨fun c h => h, fun n h => h, fun e h => ⟨e, h⟩⟩
  · simp only [hh, if_false, Bool.false_eq_true]
    cases h1 : setDefaultsLoop w (E.map fun element => element.Clause.name)
        (w.range app.init.flags) ⟨cfg, false⟩ with
    | ok st1 =>
      rw [setDefaults_order_ok w w' hg hf _ _ st1 h1]
      exact ⟨fun c h => h, fun n h => h, fun e h => ⟨e, h⟩⟩
    | error e1 =>
      cases h2 : setDefaultsLoop w' (E.map fun element => element.Clause.name)
          (w'.range app.init.flags) ⟨cfg, false⟩ with
      | ok st2 =>
        have := setDefaults_order_ok w' w hg.symm hf.symm _ _ st2 h2
        rw [h1] at this
        simp at this
      | error e2 =>
        simp only []
        exact ⟨fun c h => by simp at h, fun n h => by simp at h, fun e _ => ⟨e2, rfl⟩⟩

/-- The order in which the flags are visited decides nothing about `ParseFlags` but which
error it returns when it returns one: two worlds with the same variables, files and float
arithmetic agree on nil returns, with the same `Config`, on exits, and on whether an
error is returned. -/
theorem ParseFlags_order (w w' : World) (hg : w.Getenv = w'.Getenv)
    (hr : w.readLines = w'.readLines) (hf : w.fracNanos = w'.fracNanos) (fuel : Nat)
    (cfg : Config) (args : List String) :
    (∀ c, Config.ParseFlags w fuel cfg args = some (.ok c) →
      Config.ParseFlags w' fuel cfg args = some (.ok c)) ∧
    (∀ n, Config.ParseFlags w fuel cfg args = some (.exit n) →
      Config.ParseFlags w' fuel cfg args = some (.exit n)) ∧
    (∀ e, Config.ParseFlags w fuel cfg args = some (.err e) →
      ∃ e', Config.ParseFlags w' fuel cfg args = some (.err e')) := by
  rw [ParseFlags_eq_finish, ParseFlags_eq_finish, parse_congr w w' hr]
  cases parse w' app.init.flags fuel ⟨args, [], false, []⟩ with
  | none => simp
  | some r =>
    simp only [Option.map_some', Option.some.injEq]
    exact finish_order w w' hg hf r.1.Elements r.2 cfg

open adapter

/-! ## The record mapper -/

theorem splitAt_chars (sep : Char) (P : List Char → Bool) (Q : Char → Bool)
    (hPQ : ∀ field, P field = true → ∀ c ∈ field, Q c = true) :
    ∀ (cs cur : List Char), (splitAt sep cs cur).all P = true →
      ∀ c ∈ cs, c = sep ∨ Q c = true := by
  intro cs
  induction cs with
  | nil => intro cur _ c hc; simp at hc
  | cons a rest ih =>
    intro cur h c hc
    unfold splitAt at h
    by_cases ha : a = sep
    · simp only [ha, if_true, List.all_cons, Bool.and_eq_true] at h
      rcases List.mem_cons.1 hc with rfl | hc
      · exact Or.inl ha
      · exact ih [] h.2 c hc
    · simp only [ha, if_false] at h
      rcases List.mem_cons.1 hc with rfl | hc
      · have hmem := ih (c :: cur) h
        right
        -- the field that holds `c` satisfies `P`
        have hfield : ∀ (cs cur : List Char), (splitAt sep cs cur).all P = true →
            ∀ d ∈ cur, Q d = true := by
          intro cs
          induction cs with
          | nil =>
            intro cur h d hd
            simp only [splitAt, List.all_cons, List.all_nil, Bool.and_true] at h
            exact hPQ _ h d (by simpa using hd)
          | cons b rest ih2 =>
            intro cur h d hd
            unfold splitAt at h
            by_cases hb : b = sep
            · simp only [hb, if_true, List.all_cons, Bool.and_eq_true] at h
              exact hPQ _ h.1 d (by simpa using hd)
            · simp only [hb, if_false] at h
              exact ih2 (b :: cur) h d (List.mem_cons_of_mem _ hd)
        exact hfield rest (c :: cur) h c (List.mem_cons_self _ _)
      · exact ih (a :: cur) h c hc

theorem splitAt_absent (sep : Char) :
    ∀ (cs cur : List Char), sep ∉ cs → splitAt sep cs cur = [cur.reverse ++ cs] := by
  intro cs
  induction cs with
  | nil => intro cur _; simp [splitAt]
  | cons a rest ih =>
    intro cur h
    have ha : a ≠ sep := fun e => h (by simp [e])
    have hr : sep ∉ rest := fun e => h (List.mem_cons_of_mem _ e)
    unfold splitAt
    simp only [ha, if_false]
    rw [ih (a :: cur) hr]
    simp

theorem splitAtGap_absent :
    ∀ (n : Nat) (cs seen : List Char), cs.length ≤ n → ':' ∉ cs → splitAtGap cs seen = none := by
  intro n
  induction n with
  | zero =>
    intro cs seen hn _
    cases cs with
    | nil => rfl
    | cons a rest => simp at hn
  | succ n ih =>
    intro cs seen hn h
    match cs, hn, h with
    | [], _, _ => rfl
    | [_], _, _ => rfl
    | c :: d :: rest, hn, h =>
      have hc : c ≠ ':' := fun e => h (by simp [e])
      unfold splitAtGap
      simp only [hc, false_and, if_false]
      exact ih (d :: rest) (c :: seen) (by simpa using hn)
        (fun e => h (List.mem_cons_of_mem _ e))

theorem isOctet_chars (field : List Char) (h : isOctet field = true) :
    ∀ c ∈ field, time.isDigit c = true := by
  unfold isOctet at h
  simp only [Bool.and_eq_true, List.all_eq_true] at h
  exact h.1.2

/-- An IPv4 literal is not an IPv6 literal: the two syntaxes of section 4.2 are
disjoint. -/
theorem isIPv6Literal_of_isIPv4Literal (target : String)
    (h : isIPv4Literal target = true) : isIPv6Literal target = false := by
  unfold isIPv4Literal at h
  simp only [Bool.and_eq_true, decide_eq_true_eq] at h
  have hchars := splitAt_chars '.' isOctet time.isDigit isOctet_chars target.data [] h.2
  have hcolon : ':' ∉ target.data := by
    intro hmem
    rcases hchars ':' hmem with h1 | h1
    · exact absurd h1 (by decide)
    · exact absurd h1 (by decide)
  have hne : target.data ≠ [] := by
    intro e
    rw [e] at h
    simp [splitAt] at h
  unfold isIPv6Literal
  rw [splitAtGap_absent _ target.data [] (le_refl _) hcolon]
  simp only
  unfold groupCount
  rw [splitAt_absent ':' target.data [] hcolon]
  simp only [hne, if_false, List.reverse_nil, List.nil_append, List.reverse_cons,
    List.all_nil, if_true]
  have hdot : '.' ∈ target.data := by
    by_contra hd
    rw [splitAt_absent '.' target.data [] hd] at h
    simp at h
  have hhex : isHexGroup target.data = false := by
    by_contra hx
    simp only [Bool.not_eq_false] at hx
    unfold isHexGroup at hx
    simp only [Bool.and_eq_true, List.all_eq_true] at hx
    exact absurd (hx.2 '.' hdot) (by decide)
  simp only [hhex, Bool.false_eq_true, if_false]
  split_ifs <;> simp

theorem hostnames_mem (h : String) :
    ∀ rules : List VendorRewriteRule, (∀ rule ∈ rules, rule.hostname = h) →
      ∀ x ∈ hostnames rules, x = h := by
  intro rules
  induction rules with
  | nil => intro _ x hx; simp [hostnames] at hx
  | cons r rest ih =>
    intro hall x hx
    simp only [hostnames, List.mem_cons, List.mem_filter] at hx
    rcases hx with rfl | hx
    · exact hall r (List.mem_cons_self _ _)
    · exact ih (fun rule hr => hall rule (List.mem_cons_of_mem _ hr)) x hx.1

theorem hostnames_single (h : String) (rules : List VendorRewriteRule)
    (hall : ∀ rule ∈ rules, rule.hostname = h) (hne : rules ≠ []) :
    hostnames rules = [h] := by
  cases rules with
  | nil => exact absurd rfl hne
  | cons r rest =>
    have hr : r.hostname = h := hall r (List.mem_cons_self _ _)
    have hrest := hostnames_mem h rest (fun rule hm => hall rule (List.mem_cons_of_mem _ hm))
    simp only [hostnames, hr]
    congr 1
    rw [List.filter_eq_nil_iff]
    intro x hx
    simp [hrest x hx]

/-- The mapper applied to the rules of one hostname with at least one target gives one
endpoint with that hostname, these targets in their order, and the type inferred from
the first target. -/
theorem toEndpoints_single (h : String) (rules : List VendorRewriteRule)
    (hall : ∀ rule ∈ rules, rule.hostname = h) (hne : rules ≠ []) :
    toEndpoints rules =
      [{ dnsName := h
         recordType := match rules.map fun rule => rule.targetAddress with
           | [] => .CNAME
           | target :: _ => inferRecordType target
         targets := rules.map fun rule => rule.targetAddress
         recordTTL := none
         labels := [] }] := by
  have hf : (rules.filter fun rule => decide (rule.hostname = h)) = rules := by
    rw [List.filter_eq_self]
    intro rule hr
    simp [hall rule hr]
  unfold toEndpoints
  rw [hostnames_single h rules hall hne]
  simp only [List.map_cons, List.map_nil, hf]

/-- The round trip for any rules that hold exactly the pairs of an endpoint with at least
one target, in any order and any number of copies: one endpoint with the name of `e`, the
targets of `e` as a set, the type inferred from one of them, and no TTL. -/
theorem toEndpoints_of_pairs (e : Endpoint) (rules : List VendorRewriteRule)
    (hsub : ∀ p ∈ rules.map VendorRewriteRule.pair, p ∈ toVendorRules e)
    (hsup : ∀ p ∈ toVendorRules e, p ∈ rules.map VendorRewriteRule.pair)
    (hne : e.targets ≠ [])
    (hinfer : ∀ t ∈ e.targets, inferRecordType t = e.recordType) :
    ∃ ep, toEndpoints rules = [ep] ∧ ep.dnsName = e.dnsName ∧
      ep.recordType = e.recordType ∧ (∀ t, t ∈ ep.targets ↔ t ∈ e.targets) ∧
      ep.recordTTL = none := by
  have hall : ∀ rule ∈ rules, rule.hostname = e.dnsName := by
    intro rule hr
    have := hsub rule.pair (List.mem_map_of_mem _ hr)
    unfold toVendorRules at this
    obtain ⟨t, _, ht⟩ := List.mem_map.1 this
    exact (congrArg RulePair.hostname ht).symm
  have htar : ∀ t, t ∈ rules.map (fun rule => rule.targetAddress) ↔ t ∈ e.targets := by
    intro t
    constructor
    · intro ht
      obtain ⟨rule, hr, hrt⟩ := List.mem_map.1 ht
      have := hsub rule.pair (List.mem_map_of_mem _ hr)
      unfold toVendorRules at this
      obtain ⟨t2, ht2, hp⟩ := List.mem_map.1 this
      have : t2 = t := by
        have := congrArg RulePair.targetAddress hp
        simp only [VendorRewriteRule.pair] at this
        rw [this, hrt]
      rw [← this]
      exact ht2
    · intro ht
      have hp : (⟨e.dnsName, t⟩ : RulePair) ∈ toVendorRules e := by
        unfold toVendorRules
        exact List.mem_map.2 ⟨t, ht, rfl⟩
      obtain ⟨rule, hr, hrp⟩ := List.mem_map.1 (hsup _ hp)
      refine List.mem_map.2 ⟨rule, hr, ?_⟩
      have := congrArg RulePair.targetAddress hrp
      simpa [VendorRewriteRule.pair] using this
  have hrules : rules ≠ [] := by
    intro hnil
    cases hts : e.targets with
    | nil => exact hne hts
    | cons t rest =>
      have := (htar t).2 (by rw [hts]; exact List.mem_cons_self _ _)
      rw [hnil] at this
      simp at this
  refine ⟨_, toEndpoints_single e.dnsName rules hall hrules, rfl, ?_, htar, rfl⟩
  cases hm : rules.map (fun rule => rule.targetAddress) with
  | nil =>
    rw [List.map_eq_nil_iff] at hm
    exact absurd hm hrules
  | cons t rest =>
    simp only []
    exact hinfer t ((htar t).1 (by rw [hm]; exact List.mem_cons_self _ _))

/-- The type that the mapper infers from a target of the syntax that belongs to a type
is that type. -/
theorem inferRecordType_of_syntax (ty : RecordType) (t : String)
    (hty : ty = .A ∨ ty = .AAAA ∨ ty = .CNAME)
    (hA : ty = .A → isIPv4Literal t = true)
    (hAAAA : ty = .AAAA → isIPv6Literal t = true)
    (hCNAME : ty = .CNAME → isIPv4Literal t = false ∧ isIPv6Literal t = false) :
    inferRecordType t = ty := by
  unfold inferRecordType
  rcases hty with h | h | h
  · simp [h, hA h]
  · have h6 := hAAAA h
    have h4 : isIPv4Literal t = false := by
      by_contra hx
      simp only [Bool.not_eq_false] at hx
      rw [isIPv6Literal_of_isIPv4Literal t hx] at h6
      exact absurd h6 (by decide)
    simp [h, h4, h6]
  · simp [h, (hCNAME h).1, (hCNAME h).2]

/-- The operations that a live run records are the planned ones, in their order. -/
theorem executeAll_recorded (cfg : ProviderConfig) :
    ∀ (ops : List Operation) (vendor : Vendor) (calls : List VendorCall)
      (recorded : List (Operation × Option VendorError)),
      (executeAll cfg ops vendor calls recorded).2.2.map Prod.fst =
        recorded.map Prod.fst ++ ops := by
  intro ops
  induction ops with
  | nil => intro vendor calls recorded; simp [executeAll]
  | cons op rest ih =>
    intro vendor calls recorded
    unfold executeAll
    rcases hx : executeOperation cfg vendor calls op with ⟨v, c, r⟩
    simp only
    rw [ih]
    simp

/-- The live execution reads only the profile id of the configuration. -/
theorem executeAll_congr (cfg cfg2 : ProviderConfig) (h : cfg2.profileId = cfg.profileId) :
    ∀ (ops : List Operation) (vendor : Vendor) (calls : List VendorCall)
      (recorded : List (Operation × Option VendorError)),
      executeAll cfg2 ops vendor calls recorded = executeAll cfg ops vendor calls recorded := by
  intro ops
  induction ops with
  | nil => intro vendor calls recorded; rfl
  | cons op rest ih =>
    intro vendor calls recorded
    have hop : executeOperation cfg2 vendor calls op = executeOperation cfg vendor calls op := by
      cases op <;> simp only [executeOperation, h]
    unfold executeAll
    rw [hop]
    rcases executeOperation cfg vendor calls op with ⟨v, c, r⟩
    exact ih v c _

/-- What a dry run and the live run with the same configuration have in common: the
validation failures and the recorded operations; and the dry run itself. -/
theorem ApplyChanges_dry (pc : ProviderConfig) (vendor : Vendor) (changes : ChangeSet)
    (hdry : pc.dryRun = true) :
    (ApplyChanges pc vendor changes).calls = [] ∧
    (ApplyChanges pc vendor changes).vendor = vendor ∧
    (ApplyChanges pc vendor changes).recorded =
      (planOperations pc changes).1.map (fun op => (op, none)) ∧
    (ApplyChanges pc vendor changes).invalid =
      (ApplyChanges { pc with dryRun := false } vendor changes).invalid ∧
    (ApplyChanges pc vendor changes).recorded.map Prod.fst =
      (ApplyChanges { pc with dryRun := false } vendor changes).recorded.map Prod.fst := by
  have hplan : planOperations { pc with dryRun := false } changes =
      planOperations pc changes := rfl
  have hlive : ∀ ops, executeAll { pc with dryRun := false } ops vendor [] [] =
      executeAll pc ops vendor [] [] := fun ops =>
    executeAll_congr pc { pc with dryRun := false } rfl ops vendor [] []
  unfold ApplyChanges
  rw [hplan]
  rcases hp : planOperations pc changes with ⟨ops, invalid⟩
  simp only [hdry, if_true, Bool.false_eq_true, if_false, hlive]
  have hrec := executeAll_recorded pc ops vendor [] []
  rcases hx : executeAll pc ops vendor [] [] with ⟨v, c, r⟩
  rw [hx] at hrec
  have hr : List.map Prod.fst r = ops := hrec
  simp only [hr, List.map_map, true_and]
  exact (List.map_congr_left fun _ _ => rfl).trans (List.map_id _)

open adapter

/-- Creating the targets of one hostname on a remote service where no call fails: the
service then holds the pairs it held before and one pair for each target. -/
theorem executeAll_creates (cfg : ProviderConfig) (h : String) :
    ∀ (targets : List String) (vendor : Vendor) (calls : List VendorCall)
      (recorded : List (Operation × Option VendorError)),
      (∀ call, vendor.failure call = none) →
      (∀ call, (executeAll cfg (targets.map (Operation.createRule h)) vendor calls
        recorded).1.failure call = none) ∧
      ∀ p, p ∈ (executeAll cfg (targets.map (Operation.createRule h)) vendor calls
          recorded).1.rules.map VendorRewriteRule.pair ↔
        (p ∈ vendor.rules.map VendorRewriteRule.pair ∨
          p ∈ targets.map fun t => (⟨h, t⟩ : RulePair)) := by
  intro targets
  induction targets with
  | nil =>
    intro vendor calls recorded hf
    simp [executeAll, hf]
  | cons t rest ih =>
    intro vendor calls recorded hf
    simp only [List.map_cons, executeAll, executeOperation, hf]
    by_cases hex : (vendor.rules.any fun rule =>
        decide (rule.hostname = h ∧ rule.targetAddress = t)) = true
    · simp only [hex, if_true]
      obtain ⟨h1, h2⟩ := ih vendor (calls ++ [VendorCall.createRule cfg.profileId h t])
        (recorded ++ [(Operation.createRule h t, none)]) hf
      refine ⟨h1, fun p => ?_⟩
      rw [h2 p]
      have hin : (⟨h, t⟩ : RulePair) ∈ vendor.rules.map VendorRewriteRule.pair := by
        obtain ⟨rule, hr, hd⟩ := List.any_eq_true.1 hex
        simp only [decide_eq_true_eq] at hd
        refine List.mem_map.2 ⟨rule, hr, ?_⟩
        simp [VendorRewriteRule.pair, hd.1, hd.2]
      constructor
      · rintro (hp | hp)
        · exact Or.inl hp
        · exact Or.inr (List.mem_cons_of_mem _ hp)
      · rintro (hp | hp)
        · exact Or.inl hp
        · rcases List.mem_cons.1 hp with rfl | hp
          · exact Or.inl hin
          · exact Or.inr hp
    · simp only [hex, if_false, Bool.false_eq_true]
      obtain ⟨h1, h2⟩ := ih
        { vendor with
          rules := vendor.rules ++ [⟨toString vendor.nextId, h, t⟩]
          nextId := vendor.nextId + 1 }
        (calls ++ [VendorCall.createRule cfg.profileId h t])
        (recorded ++ [(Operation.createRule h t, none)]) hf
      refine ⟨h1, fun p => ?_⟩
      rw [h2 p]
      simp only [List.map_append, List.map_cons, List.map_nil, List.mem_append,
        List.mem_singleton, List.mem_cons, VendorRewriteRule.pair]
      tauto

/-- Creating one supported endpoint on a remote service without rules, where no call
fails: the service then holds exactly the pairs of `toVendorRules`. -/
theorem ApplyChanges_create (cfg : ProviderConfig) (vendor : Vendor) (e : Endpoint)
    (hlive : cfg.dryRun = false) (hsup : isSupported cfg e = true)
    (hrules : vendor.rules = []) (hf : ∀ call, vendor.failure call = none) :
    (∀ p ∈ (ApplyChanges cfg vendor ⟨[e], [], [], []⟩).vendor.rules.map VendorRewriteRule.pair,
      p ∈ toVendorRules e) ∧
    (∀ p ∈ toVendorRules e,
      p ∈ (ApplyChanges cfg vendor ⟨[e], [], [], []⟩).vendor.rules.map
        VendorRewriteRule.pair) := by
  have hm : cfg.domainFilter.Match e.dnsName = true := by
    unfold isSupported at hsup
    simp only [Bool.and_eq_true] at hsup
    exact hsup.2
  have hplan : planOperations cfg ⟨[e], [], [], []⟩ =
      (e.targets.map (Operation.createRule e.dnsName), []) := by
    simp [planOperations, hm, hsup]
  obtain ⟨_, h2⟩ := executeAll_creates cfg e.dnsName e.targets vendor [] [] hf
  unfold ApplyChanges
  rw [hplan]
  simp only [hlive, Bool.false_eq_true, if_false]
  rcases hx : executeAll cfg (e.targets.map (Operation.createRule e.dnsName)) vendor [] []
    with ⟨v, c, r⟩
  rw [hx] at h2
  simp only [hrules, List.map_nil, List.not_mem_nil, false_or] at h2
  exact ⟨fun p hp => (h2 p).1 hp, fun p hp => (h2 p).2 hp⟩

open kingpin

/-! ## The claims -/

/-- C1: for every `cfg` that a successful `ParseFlags` produces, `main` constructs the
provider exactly once, with `DryRun`, `NextDNSAPIKey` and `NextDNSProfileId` of `cfg` and
with `NewDomainFilter(cfg.DomainFilter)`; when the constructor succeeds the next and last
effect is `StartHTTPApi` with `cfg.WebhookProviderReadTimeout` as read timeout and
`cfg.WebhookProviderWriteTimeout` as write timeout, and the server is not started
before; and two runs of `main` that parse the same `cfg` have the same effects, so
nothing but the parsed `cfg` is read. -/
theorem C1_main_hands_config_over {P : Type} (w : World) (fuel : Nat)
    (NewNextDNSProvider : NextDNSConfig → Except Error P) (args : List String) (cfg : Config)
    (h : Config.ParseFlags w fuel Config.zero args = some (.ok cfg)) :
    (∃ pre post,
      main w fuel NewNextDNSProvider args = some (pre ++
        Effect.NewNextDNSProvider
          { DryRun := cfg.DryRun
            NextDNSAPIKey := cfg.NextDNSAPIKey
            NextDNSProfileId := cfg.NextDNSProfileId
            DomainFilter := endpoint.NewDomainFilter cfg.DomainFilter } :: post) ∧
      (∀ c, Effect.NewNextDNSProvider c ∉ pre ∧ Effect.NewNextDNSProvider c ∉ post) ∧
      (∀ p r t a, Effect.StartHTTPApi p r t a ∉ pre) ∧
      (∀ p, NewNextDNSProvider
          { DryRun := cfg.DryRun
            NextDNSAPIKey := cfg.NextDNSAPIKey
            NextDNSProfileId := cfg.NextDNSProfileId
            DomainFilter := endpoint.NewDomainFilter cfg.DomainFilter } = .ok p →
        post = [Effect.StartHTTPApi p cfg.WebhookProviderReadTimeout
          cfg.WebhookProviderWriteTimeout "127.0.0.1:8888"])) ∧
    (∀ (w' : World) (fuel' : Nat) (args' : List String),
      Config.ParseFlags w' fuel' Config.zero args' = some (.ok cfg) →
      main w' fuel' NewNextDNSProvider args' = main w fuel NewNextDNSProvider args) := by
  obtain ⟨l, hl, hm⟩ := main_ok w fuel NewNextDNSProvider args cfg h
  refine ⟨⟨_, _, hm, ?_, ?_, ?_⟩, ?_⟩
  · intro c
    constructor
    · by_cases hj : cfg.LogFormat = "json" <;> by_cases hdr : cfg.DryRun = true <;>
        simp [hj, hdr]
    · split <;> simp
  · intro p r t a
    by_cases hj : cfg.LogFormat = "json" <;> by_cases hdr : cfg.DryRun = true <;>
      simp [hj, hdr]
  · intro p hp
    simp [hp]
  · intro w' fuel' args' h'
    obtain ⟨l', hl', hm'⟩ := main_ok w' fuel' NewNextDNSProvider args' cfg h'
    rw [hl] at hl'
    cases hl'
    rw [hm, hm']

/-- Witness of C1: the run without arguments and environment, with a constructor that
returns its configuration. -/
theorem C1_main_hands_config_over_witness :
    Config.ParseFlags World.empty 2 Config.zero [] = some (.ok Config.parsedDefaults) ∧
    ∃ pre post,
      main World.empty 2 (fun c => (.ok c : Except Error NextDNSConfig)) [] = some (pre ++
        Effect.NewNextDNSProvider
          { DryRun := false
            NextDNSAPIKey := ""
            NextDNSProfileId := ""
            DomainFilter := endpoint.NewDomainFilter [""] } :: post) :=
  ⟨ParseFlags_empty,
    let ⟨⟨pre, post, h, _⟩, _⟩ := C1_main_hands_config_over World.empty 2
      (fun c => (.ok c : Except Error NextDNSConfig)) [] Config.parsedDefaults ParseFlags_empty
    ⟨pre, post, h⟩⟩

/-- C4: whenever `main` starts the webhook server, the listen address it passes to
`StartHTTPApi` is the constant "127.0.0.1:8888", a loopback address, whatever the
arguments, the environment and the parsed `Config` are; `ParseFlags` never writes
`WebhookProviderURL` (it keeps the value it had before, which in `main` is the empty
string of `Config{}`), and the address passed is not that field. -/
theorem C4_listen_address_constant :
    (∀ {P : Type} (w : World) (fuel : Nat) (NewNextDNSProvider : NextDNSConfig → Except Error P)
      (args : List String) (fx : List (Effect P)),
      main w fuel NewNextDNSProvider args = some fx →
      ∀ p r t a, Effect.StartHTTPApi p r t a ∈ fx → a = "127.0.0.1:8888") ∧
    (∀ (w : World) (fuel : Nat) (cfg0 : Config) (args : List String) (cfg : Config),
      Config.ParseFlags w fuel cfg0 args = some (.ok cfg) →
      cfg.WebhookProviderURL = cfg0.WebhookProviderURL) ∧
    (∀ (w : World) (fuel : Nat) (args : List String) (cfg : Config),
      Config.ParseFlags w fuel Config.zero args = some (.ok cfg) →
      cfg.WebhookProviderURL = "" ∧ cfg.WebhookProviderURL ≠ "127.0.0.1:8888") := by
  refine ⟨?_, ?_, ?_⟩
  · intro P w fuel newP args fx hfx p r t a hmem
    cases hp : Config.ParseFlags w fuel Config.zero args with
    | none => simp [main, hp] at hfx
    | some o =>
      cases o with
      | exit code => simp [main, hp] at hfx; rw [← hfx] at hmem; simp at hmem
      | err e => simp [main, hp] at hfx; rw [← hfx] at hmem; simp at hmem
      | ok cfg =>
        obtain ⟨l, hl, hm⟩ := main_ok w fuel newP args cfg hp
        rw [hm] at hfx
        simp at hfx
        rw [← hfx] at hmem
        by_cases hj : cfg.LogFormat = "json" <;> by_cases hdr : cfg.DryRun = true <;>
          simp [hj, hdr] at hmem <;>
          (split at hmem <;> simp at hmem <;> exact hmem.2.2.2)
  · intro w fuel cfg0 args cfg h
    exact url_frame w fuel cfg0 args cfg h
  · intro w fuel args cfg h
    have := url_frame w fuel Config.zero args cfg h
    rw [this]
    decide

/-- Witness of C4: the run without arguments and environment starts the server on
"127.0.0.1:8888". -/
theorem C4_listen_address_constant_witness :
    Effect.StartHTTPApi () (5 * time.Second) (10 * time.Second) "127.0.0.1:8888" ∈
      (main World.empty 2 (fun _ => (.ok () : Except Error Unit)) []).getD [] ∧
    "127.0.0.1:8888" = "127.0.0.1:8888" :=
  ⟨by decide,
    C4_listen_address_constant.1 World.empty 2 (fun _ => (.ok () : Except Error Unit)) []
      ((main World.empty 2 (fun _ => (.ok () : Except Error Unit)) []).getD [])
      (by decide) () (5 * time.Second) (10 * time.Second) "127.0.0.1:8888" (by decide)⟩

/-- C10: after every successful `ParseFlags` the field `LogLevel` is one of
`allLogLevelsAsStrings()` and `logrus.ParseLevel` accepts it; for every level `l` of
`AllLevels`, `ParseLevel(l.String())` returns `l`; `allLogLevelsAsStrings` is the list of
`String()` of the elements of `AllLevels` in order; so no run of `main` ends in the fatal
exit "failed to parse log level". -/
theorem C10_log_level_error_unreachable :
    (∀ (w : World) (fuel : Nat) (cfg0 : Config) (args : List String) (cfg : Config),
      Config.ParseFlags w fuel cfg0 args = some (.ok cfg) →
      cfg.LogLevel ∈ allLogLevelsAsStrings ∧
        ∃ l ∈ logrus.AllLevels, logrus.ParseLevel cfg.LogLevel = .ok l) ∧
    (∀ l ∈ logrus.AllLevels, logrus.ParseLevel l.String = .ok l) ∧
    allLogLevelsAsStrings = logrus.AllLevels.map logrus.Level.String ∧
    (∀ {P : Type} (w : World) (fuel : Nat) (NewNextDNSProvider : NextDNSConfig → Except Error P)
      (args : List String) (fx : List (Effect P)),
      main w fuel NewNextDNSProvider args = some fx →
      ∀ err, Effect.Fatalf "failed to parse log level: %v" err ∉ fx) := by
  refine ⟨?_, ParseLevel_allLevels, allLogLevelsAsStrings_eq, ?_⟩
  · intro w fuel cfg0 args cfg h
    have hmem := logLevel_invariant w fuel cfg0 args cfg h
    obtain ⟨l, hl, _, hp⟩ := ParseLevel_of_mem cfg.LogLevel hmem
    exact ⟨hmem, l, hl, hp⟩
  · intro P w fuel newP args fx hfx err hmem
    cases hp : Config.ParseFlags w fuel Config.zero args with
    | none => simp [main, hp] at hfx
    | some o =>
      cases o with
      | exit code => simp [main, hp] at hfx; rw [← hfx] at hmem; simp at hmem
      | err e =>
        simp [main, hp] at hfx; rw [← hfx] at hmem; simp at hmem
      | ok cfg =>
        obtain ⟨l, hl, hm⟩ := main_ok w fuel newP args cfg hp
        rw [hm] at hfx
        simp at hfx
        rw [← hfx] at hmem
        by_cases hj : cfg.LogFormat = "json" <;> by_cases hdr : cfg.DryRun = true <;>
          simp [hj, hdr] at hmem <;>
          (split at hmem <;> simp at hmem)

/-- Witness of C10: the run without arguments and environment parses "info". -/
theorem C10_log_level_error_unreachable_witness :
    Config.ParseFlags World.empty 2 Config.zero [] = some (.ok Config.parsedDefaults) ∧
    Config.parsedDefaults.LogLevel ∈ allLogLevelsAsStrings :=
  ⟨ParseFlags_empty,
    (C10_log_level_error_unreachable.1 World.empty 2 Config.zero [] Config.parsedDefaults
      ParseFlags_empty).1⟩

open kingpin

/-- C2: the default timeouts survive the round trip through `Duration.String()` and the
duration parser (for "5s" and "10s" it is the identity); after a successful `ParseFlags`
with neither `--read-timeout` (`--write-timeout`) matched on the command line nor its
environment variable set, the read timeout is exactly 5 seconds (the write timeout exactly
10 seconds); when the flag is matched with a value, that value is a valid duration and
the field equals the duration it denotes; when the flag is not matched and its variable
is set, the field is the duration that the variable denotes. Such runs exist: for every
string `s` that denotes a duration `d`, `--read-timeout=s` (`--write-timeout=s`) in front
of a command line on which the other flags are valid leads to a nil return with the field
equal to `d`, and so does `--read-timeout s` when `s` starts neither with `-` nor with
`@`; and the run without arguments and variables returns nil with 5 and 10 seconds, the
run `--read-timeout 1m30s --write-timeout=2s` with 90 and 2 seconds, the run with the
variable `NEXTDNS_WEBHOOK_READ_TIMEOUT` set to `1m` with 60 seconds. -/
theorem C2_timeout_defaults_and_flags :
    (∀ frac : Nat → Nat → Nat → Nat,
      time.ParseDuration frac defaultConfig.WebhookProviderReadTimeout.String =
        .ok (5 * time.Second) ∧
      time.ParseDuration frac defaultConfig.WebhookProviderWriteTimeout.String =
        .ok (10 * time.Second)) ∧
    (∀ (w : World) (fuel : Nat) (cfg0 : Config) (args : List String) (cfg : Config),
      Config.ParseFlags w fuel cfg0 args = some (.ok cfg) →
      ((∀ el ∈ matchedElements w fuel args, el.Clause.name ≠ "read-timeout") →
        w.Getenv "NEXTDNS_WEBHOOK_READ_TIMEOUT" = "" →
        cfg.WebhookProviderReadTimeout = 5 * time.Second) ∧
      ((∀ el ∈ matchedElements w fuel args, el.Clause.name ≠ "write-timeout") →
        w.Getenv "NEXTDNS_WEBHOOK_WRITE_TIMEOUT" = "" →
        cfg.WebhookProviderWriteTimeout = 10 * time.Second) ∧
      (∀ el ∈ matchedElements w fuel args, el.Clause.name = "read-timeout" →
        time.ParseDuration w.fracNanos el.Value = .ok cfg.WebhookProviderReadTimeout) ∧
      (∀ el ∈ matchedElements w fuel args, el.Clause.name = "write-timeout" →
        time.ParseDuration w.fracNanos el.Value = .ok cfg.WebhookProviderWriteTimeout) ∧
      ((∀ el ∈ matchedElements w fuel args, el.Clause.name ≠ "read-timeout") →
        w.Getenv "NEXTDNS_WEBHOOK_READ_TIMEOUT" ≠ "" →
        time.ParseDuration w.fracNanos (w.Getenv "NEXTDNS_WEBHOOK_READ_TIMEOUT") =
          .ok cfg.WebhookProviderReadTimeout) ∧
      ((∀ el ∈ matchedElements w fuel args, el.Clause.name ≠ "write-timeout") →
        w.Getenv "NEXTDNS_WEBHOOK_WRITE_TIMEOUT" ≠ "" →
        time.ParseDuration w.fracNanos (w.Getenv "NEXTDNS_WEBHOOK_WRITE_TIMEOUT") =
          .ok cfg.WebhookProviderWriteTimeout)) ∧
    (∀ (w : World) (fuel : Nat) (cfg0 : Config) (args : List String) (t s : String)
      (d : time.Duration),
      time.ParseDuration w.fracNanos s = .ok d →
      ((∃ c, Config.ParseFlags w (fuel + 1) cfg0 (("--read-timeout=" ++ t) :: args) =
          some (.ok c)) →
        (∃ c, Config.ParseFlags w (fuel + 1) cfg0 (("--read-timeout=" ++ s) :: args) =
            some (.ok c) ∧ c.WebhookProviderReadTimeout = d) ∧
        (strings.HasPrefix s "-" = false → strings.HasPrefix s "@" = false →
          ∃ c, Config.ParseFlags w (fuel + 1) cfg0 ("--read-timeout" :: s :: args) =
            some (.ok c) ∧ c.WebhookProviderReadTimeout = d)) ∧
      ((∃ c, Config.ParseFlags w (fuel + 1) cfg0 (("--write-timeout=" ++ t) :: args) =
          some (.ok c)) →
        (∃ c, Config.ParseFlags w (fuel + 1) cfg0 (("--write-timeout=" ++ s) :: args) =
            some (.ok c) ∧ c.WebhookProviderWriteTimeout = d) ∧
        (strings.HasPrefix s "-" = false → strings.HasPrefix s "@" = false →
          ∃ c, Config.ParseFlags w (fuel + 1) cfg0 ("--write-timeout" :: s :: args) =
            some (.ok c) ∧ c.WebhookProviderWriteTimeout = d))) ∧
    Config.ParseFlags World.empty 2 Config.zero [] = some (.ok Config.parsedDefaults) ∧
    Config.parsedDefaults.WebhookProviderReadTimeout = 5 * time.Second ∧
    Config.parsedDefaults.WebhookProviderWriteTimeout = 10 * time.Second ∧
    Config.ParseFlags World.empty 4 Config.zero
        ["--read-timeout", "1m30s", "--write-timeout=2s"] =
      some (.ok { Config.parsedDefaults with
        WebhookProviderReadTimeout := 90 * time.Second
        WebhookProviderWriteTimeout := 2 * time.Second }) ∧
    Config.ParseFlags (World.empty.setenv "NEXTDNS_WEBHOOK_READ_TIMEOUT" "1m") 2 Config.zero
        [] =
      some (.ok { Config.parsedDefaults with WebhookProviderReadTimeout := 60 * time.Second })
    := by
  have er1 : ∀ t, "--" ++ readTimeoutFlag.name ++ "=" ++ t = "--read-timeout=" ++ t := by
    intro t
    rw [show "--" ++ readTimeoutFlag.name ++ "=" = "--read-timeout=" from by decide]
  have er2 : "--" ++ readTimeoutFlag.name = "--read-timeout" := by decide
  have ew1 : ∀ t, "--" ++ writeTimeoutFlag.name ++ "=" ++ t = "--write-timeout=" ++ t := by
    intro t
    rw [show "--" ++ writeTimeoutFlag.name ++ "=" = "--write-timeout=" from by decide]
  have ew2 : "--" ++ writeTimeoutFlag.name = "--write-timeout" := by decide
  refine ⟨fun frac => ⟨rfl, rfl⟩, ?_, ?_, ParseFlags_empty, rfl, rfl, by decide, by decide⟩
  · intro w fuel cfg0 args cfg h
    refine ⟨?_, ?_, ?_, ?_, ?_, ?_⟩
    · intro hun henv
      have := duration_default w fuel cfg0 args cfg h readTimeoutFlag
        (ownFlags_mem _ (by decide)).1 .WebhookProviderReadTimeout "5s" _ rfl rfl
        (ParseDuration_5s _) hun henv
      simpa [State.read] using this
    · intro hun henv
      have := duration_default w fuel cfg0 args cfg h writeTimeoutFlag
        (ownFlags_mem _ (by decide)).1 .WebhookProviderWriteTimeout "10s" _ rfl rfl
        (ParseDuration_10s _) hun henv
      simpa [State.read] using this
    · intro el hel hn
      obtain ⟨d, hd, hr⟩ := duration_supplied w fuel cfg0 args cfg h readTimeoutFlag
        (ownFlags_mem _ (by decide)).1 .WebhookProviderReadTimeout rfl el hel hn
      simp [State.read] at hr
      rw [hd, hr]
    · intro el hel hn
      obtain ⟨d, hd, hr⟩ := duration_supplied w fuel cfg0 args cfg h writeTimeoutFlag
        (ownFlags_mem _ (by decide)).1 .WebhookProviderWriteTimeout rfl el hel hn
      simp [State.read] at hr
      rw [hd, hr]
    · intro hun henv
      obtain ⟨d, hd, hr⟩ := duration_env w fuel cfg0 args cfg h readTimeoutFlag
        (ownFlags_mem _ (by decide)).1 .WebhookProviderReadTimeout rfl (by decide) hun henv
      simp [State.read] at hr
      rw [hr]
      exact hd
    · intro hun henv
      obtain ⟨d, hd, hr⟩ := duration_env w fuel cfg0 args cfg h writeTimeoutFlag
        (ownFlags_mem _ (by decide)).1 .WebhookProviderWriteTimeout rfl (by decide) hun henv
      simp [State.read] at hr
      rw [hr]
      exact hd
  · intro w fuel cfg0 args t s d hs
    refine ⟨fun hbase => ⟨?_, fun h1 h2 => ?_⟩, fun hbase => ⟨?_, fun h1 h2 => ?_⟩⟩
    · have h := duration_first w readTimeoutFlag (by decide) .WebhookProviderReadTimeout rfl
        fuel cfg0 _ _ args s t d (step_value w readTimeoutFlag (by decide) rfl s args)
        (step_value w readTimeoutFlag (by decide) rfl t args) (by rw [er1]; exact hbase) hs
      rw [er1] at h
      simpa [State.read] using h
    · have h := duration_first w readTimeoutFlag (by decide) .WebhookProviderReadTimeout rfl
        fuel cfg0 _ _ args s t d (step_plain w readTimeoutFlag (by decide) rfl s args h1 h2)
        (step_value w readTimeoutFlag (by decide) rfl t args) (by rw [er1]; exact hbase) hs
      rw [er2] at h
      simpa [State.read] using h
    · have h := duration_first w writeTimeoutFlag (by decide) .WebhookProviderWriteTimeout rfl
        fuel cfg0 _ _ args s t d (step_value w writeTimeoutFlag (by decide) rfl s args)
        (step_value w writeTimeoutFlag (by decide) rfl t args) (by rw [ew1]; exact hbase) hs
      rw [ew1] at h
      simpa [State.read] using h
    · have h := duration_first w writeTimeoutFlag (by decide) .WebhookProviderWriteTimeout rfl
        fuel cfg0 _ _ args s t d (step_plain w writeTimeoutFlag (by decide) rfl s args h1 h2)
        (step_value w writeTimeoutFlag (by decide) rfl t args) (by rw [ew1]; exact hbase) hs
      rw [ew2] at h
      simpa [State.read] using h

/-- Witness of C2: in the world without variables, `--read-timeout=1m30s` in front of the
empty command line returns nil with a read timeout of 90 seconds; and after
`--write-timeout 2s` the matched value denotes the write timeout of the result. -/
theorem C2_timeout_defaults_and_flags_witness :
    (∃ c, Config.ParseFlags World.empty (2 + 1) Config.zero [("--read-timeout=" ++ "1m30s")] =
      some (.ok c) ∧ c.WebhookProviderReadTimeout = 90 * time.Second) ∧
    time.ParseDuration World.empty.fracNanos "2s" = .ok (2 * time.Second) :=
  ⟨((C2_timeout_defaults_and_flags.2.2.1 World.empty 2 Config.zero [] "5s" "1m30s"
      (90 * time.Second) (by decide)).1 ⟨Config.parsedDefaults, by decide⟩).1,
    (C2_timeout_defaults_and_flags.2.1 World.empty 3 Config.zero ["--write-timeout", "2s"]
      { Config.parsedDefaults with WebhookProviderWriteTimeout := 2 * time.Second }
      (by decide)).2.2.2.1 ⟨writeTimeoutFlag, "2s"⟩ (by decide) (by decide)⟩

/-- C3: after a successful `ParseFlags` with `--domain-filter` not matched on the command
line and its environment variable unset, `cfg.DomainFilter` is the initial list followed
by the empty string, so for `main`, which starts from `Config{}`, the one-element list
`[""]` (not the empty list of `defaultConfig`); `NewDomainFilter([""])` drops the empty
pattern, has no pattern left, and matches every dnsName; `main` then constructs the
provider, once, with this filter, which matches every dnsName; and the run of `main`
without arguments and variables does so. -/
theorem C3_default_domain_filter_matches_all :
    (∀ (w : World) (fuel : Nat) (cfg0 : Config) (args : List String) (cfg : Config),
      Config.ParseFlags w fuel cfg0 args = some (.ok cfg) →
      (∀ el ∈ matchedElements w fuel args, el.Clause.name ≠ "domain-filter") →
      w.Getenv "NEXTDNS_WEBHOOK_DOMAIN_FILTER" = "" →
      cfg.DomainFilter = cfg0.DomainFilter ++ [""]) ∧
    (endpoint.NewDomainFilter [""] = ⟨[], []⟩ ∧
      ∀ dnsName : String, (endpoint.NewDomainFilter [""]).Match dnsName = true) ∧
    (∀ {P : Type} (w : World) (fuel : Nat) (NewNextDNSProvider : NextDNSConfig → Except Error P)
      (args : List String) (cfg : Config),
      Config.ParseFlags w fuel Config.zero args = some (.ok cfg) →
      (∀ el ∈ matchedElements w fuel args, el.Clause.name ≠ "domain-filter") →
      w.Getenv "NEXTDNS_WEBHOOK_DOMAIN_FILTER" = "" →
      ∃ pre config post,
        main w fuel NewNextDNSProvider args =
          some (pre ++ Effect.NewNextDNSProvider config :: post) ∧
        (∀ c, Effect.NewNextDNSProvider c ∉ pre ∧ Effect.NewNextDNSProvider c ∉ post) ∧
        config.DomainFilter = endpoint.NewDomainFilter [""] ∧
        ∀ dnsName : String, config.DomainFilter.Match dnsName = true) ∧
    (∀ {P : Type} (w : World) (fuel : Nat) (NewNextDNSProvider : NextDNSConfig → Except Error P)
      (args : List String) (fx : List (Effect P)),
      main w fuel NewNextDNSProvider args = some fx →
      (∀ el ∈ matchedElements w fuel args, el.Clause.name ≠ "domain-filter") →
      w.Getenv "NEXTDNS_WEBHOOK_DOMAIN_FILTER" = "" →
      ∀ config, Effect.NewNextDNSProvider config ∈ fx →
        config.DomainFilter = endpoint.NewDomainFilter [""] ∧
        ∀ dnsName : String, config.DomainFilter.Match dnsName = true) ∧
    main World.empty 2 (fun config => (.ok config : Except Error NextDNSConfig)) [] =
      some [Effect.SetLevel .InfoLevel,
        Effect.NewNextDNSProvider ⟨false, "", "", ⟨[], []⟩⟩,
        Effect.StartHTTPApi ⟨false, "", "", ⟨[], []⟩⟩ (5 * time.Second) (10 * time.Second)
          "127.0.0.1:8888"] := by
  have hempty : ∀ dnsName : String, (endpoint.NewDomainFilter [""]).Match dnsName = true :=
    fun dnsName => (NewDomainFilter_empty_pattern dnsName).2
  have hmain : ∀ {P : Type} (w : World) (fuel : Nat)
      (NewNextDNSProvider : NextDNSConfig → Except Error P) (args : List String) (cfg : Config),
      Config.ParseFlags w fuel Config.zero args = some (.ok cfg) →
      (∀ el ∈ matchedElements w fuel args, el.Clause.name ≠ "domain-filter") →
      w.Getenv "NEXTDNS_WEBHOOK_DOMAIN_FILTER" = "" →
      ∃ pre config post,
        main w fuel NewNextDNSProvider args =
          some (pre ++ Effect.NewNextDNSProvider config :: post) ∧
        (∀ c, Effect.NewNextDNSProvider c ∉ pre ∧ Effect.NewNextDNSProvider c ∉ post) ∧
        config.DomainFilter = endpoint.NewDomainFilter [""] ∧
        ∀ dnsName : String, config.DomainFilter.Match dnsName = true := by
    intro P w fuel newP args cfg hp hun henv
    obtain ⟨l, hl, hm⟩ := main_ok w fuel newP args cfg hp
    have hdf : cfg.DomainFilter = [""] := by
      have := domainFilter_default w fuel Config.zero args cfg hp hun henv
      simpa [Config.zero] using this
    refine ⟨_, _, _, hm, ?_, ?_, ?_⟩
    · intro c
      constructor
      · by_cases hj : cfg.LogFormat = "json" <;> by_cases hdr : cfg.DryRun = true <;>
          simp [hj, hdr]
      · split <;> simp
    · simp only [hdf]
    · simp only [hdf]
      exact hempty
  refine ⟨domainFilter_default, ⟨(NewDomainFilter_empty_pattern "").1, hempty⟩, hmain, ?_,
    by decide⟩
  intro P w fuel newP args fx hfx hun henv config hmem
  cases hp : Config.ParseFlags w fuel Config.zero args with
  | none => simp [main, hp] at hfx
  | some o =>
    cases o with
    | exit code => simp [main, hp] at hfx; rw [← hfx] at hmem; simp at hmem
    | err e => simp [main, hp] at hfx; rw [← hfx] at hmem; simp at hmem
    | ok cfg =>
      obtain ⟨pre, config', post, hm, hone, hdf, hall⟩ := hmain w fuel newP args cfg hp hun henv
      rw [hm] at hfx
      simp only [Option.some.injEq] at hfx
      rw [← hfx] at hmem
      rcases List.mem_append.1 hmem with h1 | h1
      · exact absurd h1 (hone config).1
      · rcases List.mem_cons.1 h1 with h2 | h2
        · simp only [Effect.NewNextDNSProvider.injEq] at h2
          rw [h2]
          exact ⟨hdf, hall⟩
        · exact absurd h2 (hone config).2

/-- Witness of C3: the run of `main` without arguments and variables constructs the
provider once, with a filter that matches every dnsName. -/
theorem C3_default_domain_filter_matches_all_witness :
    ∃ pre config post,
      main World.empty 2 (fun config => (.ok config : Except Error NextDNSConfig)) [] =
        some (pre ++ Effect.NewNextDNSProvider config :: post) ∧
      (∀ c, Effect.NewNextDNSProvider c ∉ pre ∧ Effect.NewNextDNSProvider c ∉ post) ∧
      config.DomainFilter = endpoint.NewDomainFilter [""] ∧
      ∀ dnsName : String, config.DomainFilter.Match dnsName = true :=
  C3_default_domain_filter_matches_all.2.2.1 World.empty 2
    (fun config => (.ok config : Except Error NextDNSConfig)) [] Config.parsedDefaults
    ParseFlags_empty (by decide) (by decide)

open kingpin

/-- C6 (the code departs from it): `ParseFlags` accepts `--log-level trace`, a value
that is not among the six options of the help text (panic, debug, info, warning, error,
fatal); the accepted options are the seven strings of `allLogLevelsAsStrings`, the six
of the help text and "trace"; and `main` then sets the level `TraceLevel`. -/
theorem C6_log_level_accepts_trace :
    Config.ParseFlags World.empty 3 Config.zero ["--log-level", "trace"] =
      some (.ok { Config.parsedDefaults with LogLevel := "trace" }) ∧
    "trace" ∉ ["panic", "debug", "info", "warning", "error", "fatal"] ∧
    allLogLevelsAsStrings =
      ["panic", "fatal", "error", "warning", "info", "debug", "trace"] ∧
    Effect.SetLevel logrus.Level.TraceLevel ∈
      (main World.empty 3 (fun _ => (.ok () : Except Error Unit))
        ["--log-level", "trace"]).getD [] := by
  decide

/-- C7 (counterexample): with the file `f` holding the one line `json`, the command line
`--log-format @f` leads to a nil return with `LogFormat` "json", although "@f" is
neither "text" nor "json" and nothing else is on the command line (with
`--log-format text` the same run returns nil): kingpin replaces an argument that starts
with `@` by the lines of the file of that name. In the form `--log-format=@f` the value
is rejected. -/
theorem C7_counterexample :
    Config.ParseFlags (World.empty.withFile "f" ["json"]) 4 Config.zero
        ["--log-format", "@f"] =
      some (.ok { Config.parsedDefaults with LogFormat := "json" }) ∧
    ¬ ("@f" = "text" ∨ "@f" = "json") ∧
    Config.ParseFlags (World.empty.withFile "f" ["json"]) 4 Config.zero
        ["--log-format", "text"] = some (.ok Config.parsedDefaults) ∧
    Config.ParseFlags (World.empty.withFile "f" ["json"]) 4 Config.zero
        ["--log-format=@f"] = some (.err (.enumValue ["text", "json"] "@f")) ∧
    Effect.SetFormatterJSON ∈
      (main (World.empty.withFile "f" ["json"]) 4 (fun _ => (.ok () : Except Error Unit))
        ["--log-format", "@f"]).getD [] := by
  decide

/-- C7 (amended): with `--log-format s` in front of a command line on which all other
flags are valid (the line leads to a nil return with `--log-format text` in front),
`ParseFlags` returns nil exactly when `s` is "text" or "json", for every string `s` that
does not start with `@`; with `--log-format=s` in front (all other flags valid: nil
return with `--log-format=text`) the same holds for every string `s`; after every
successful `ParseFlags` the field `LogFormat` is "text" or "json"; it is "text" when the
flag is not matched and its variable is unset; and `main` installs the JSON formatter
exactly when `cfg.LogFormat` is "json". -/
theorem C7_log_format_options :
    (∀ (w : World) (fuel : Nat) (cfg0 : Config) (args : List String) (s : String),
      strings.HasPrefix s "@" = false →
      (∃ c, Config.ParseFlags w (fuel + 1) cfg0 ("--log-format" :: "text" :: args) =
        some (.ok c)) →
      ((∃ c, Config.ParseFlags w (fuel + 1) cfg0 ("--log-format" :: s :: args) =
        some (.ok c)) ↔ (s = "text" ∨ s = "json"))) ∧
    (∀ (w : World) (fuel : Nat) (cfg0 : Config) (args : List String) (s : String),
      (∃ c, Config.ParseFlags w (fuel + 1) cfg0 ("--log-format=text" :: args) = some (.ok c)) →
      ((∃ c, Config.ParseFlags w (fuel + 1) cfg0 (("--log-format=" ++ s) :: args) =
        some (.ok c)) ↔ (s = "text" ∨ s = "json"))) ∧
    (∀ (w : World) (fuel : Nat) (cfg0 : Config) (args : List String) (cfg : Config),
      Config.ParseFlags w fuel cfg0 args = some (.ok cfg) →
      (cfg.LogFormat = "text" ∨ cfg.LogFormat = "json") ∧
      ((∀ el ∈ matchedElements w fuel args, el.Clause.name ≠ "log-format") →
        w.Getenv "NEXTDNS_WEBHOOK_LOG_FORMAT" = "" → cfg.LogFormat = "text")) ∧
    (∀ {P : Type} (w : World) (fuel : Nat) (NewNextDNSProvider : NextDNSConfig → Except Error P)
      (args : List String) (cfg : Config) (fx : List (Effect P)),
      Config.ParseFlags w fuel Config.zero args = some (.ok cfg) →
      main w fuel NewNextDNSProvider args = some fx →
      (Effect.SetFormatterJSON ∈ fx ↔ cfg.LogFormat = "json")) := by
  have hacc : ∀ (w : World) (s : String),
      (logFormatFlag.value.Set w s ⟨Config.zero, false⟩).2 = none ↔ (s = "text" ∨ s = "json") := by
    intro w s
    rw [show logFormatFlag.value = .EnumVar .LogFormat ["text", "json"] from rfl,
      Set_enum_error]
    simp
  have e1 : "--" ++ logFormatFlag.name = "--log-format" := by decide
  refine ⟨?_, ?_, ?_, ?_⟩
  · intro w fuel cfg0 args s hs2 hbase
    by_cases hs1 : strings.HasPrefix s "-" = true
    · have hno : ¬ (s = "text" ∨ s = "json") := by
        rintro (rfl | rfl) <;> exact absurd hs1 (by decide)
      have hfail : ∀ c, Config.ParseFlags w (fuel + 1) cfg0 ("--log-format" :: s :: args) ≠
          some (.ok c) := by
        intro c
        by_cases hdd : s = "--"
        · have h := ParseFlags_double_dash w logFormatFlag (by decide) rfl (fuel + 1) cfg0 args
            "text" (by decide) (by decide)
            (fun a ha => by
              rcases (hacc w a).1 ha with rfl | rfl <;> exact ⟨by decide, by decide⟩)
            (by rw [e1]; exact hbase) c
          rw [e1] at h
          rw [hdd]
          exact h
        · have h := ParseFlags_no_argument w logFormatFlag (by decide) rfl (fuel + 1) cfg0 s
            args hs1 hdd c
          rw [e1] at h
          exact h
      constructor
      · rintro ⟨c, hc⟩
        exact absurd hc (hfail c)
      · intro h
        exact absurd h hno
    · have hs1' : strings.HasPrefix s "-" = false := by simpa using hs1
      have h := flag_accepts_plain w logFormatFlag (by decide) rfl fuel cfg0 args "text" s
        (by decide) (by decide) hs1' hs2
      rw [e1] at h
      rw [h hbase]
      exact hacc w s
  · intro w fuel cfg0 args s hbase
    have h := flag_accepts w logFormatFlag (by decide) rfl fuel cfg0 args "text" s
    have e2 : "--" ++ logFormatFlag.name ++ "=" ++ "text" = "--log-format=text" := by decide
    have e3 : "--" ++ logFormatFlag.name ++ "=" = "--log-format=" := by decide
    rw [e2, e3] at h
    rw [h hbase]
    exact hacc w s
  · intro w fuel cfg0 args cfg h
    exact ⟨logFormat_invariant w fuel cfg0 args cfg h, logFormat_default w fuel cfg0 args cfg h⟩
  · intro P w fuel newP args cfg fx h hfx
    obtain ⟨l, hl, hm⟩ := main_ok w fuel newP args cfg h
    rw [hm] at hfx
    simp at hfx
    rw [← hfx]
    by_cases hj : cfg.LogFormat = "json" <;> by_cases hdr : cfg.DryRun = true <;>
      simp [hj, hdr] <;> (split <;> simp)

/-- Witness of C7: `--log-format json` is accepted, `--log-format -json` is not, and the
run without arguments and environment has the format "text". -/
theorem C7_log_format_options_witness :
    ((∃ c, Config.ParseFlags World.empty (2 + 1) Config.zero ["--log-format", "json"] =
        some (.ok c)) ↔ ("json" = "text" ∨ "json" = "json")) ∧
    ((∃ c, Config.ParseFlags World.empty (2 + 1) Config.zero ["--log-format", "-json"] =
        some (.ok c)) ↔ ("-json" = "text" ∨ "-json" = "json")) ∧
    (Config.parsedDefaults.LogFormat = "text" ∨ Config.parsedDefaults.LogFormat = "json") :=
  ⟨C7_log_format_options.1 World.empty 2 Config.zero [] "json" (by decide)
      ⟨{ Config.parsedDefaults with LogFormat := "text" }, by decide⟩,
    C7_log_format_options.1 World.empty 2 Config.zero [] "-json" (by decide)
      ⟨{ Config.parsedDefaults with LogFormat := "text" }, by decide⟩,
    (C7_log_format_options.2.2.1 World.empty 2 Config.zero [] Config.parsedDefaults
      ParseFlags_empty).1⟩

open kingpin

/-- C5 (the code departs from it): the help text of the application says that all flags
may be replaced with environment variables, `--flag` by `NEXTDNS_WEBHOOK_FLAG=1` and
`--flag value` by `NEXTDNS_WEBHOOK_FLAG=value`; the runs differ: (a) the variable
`NEXTDNS_WEBHOOK_LOG_FORMAT` set to the empty string counts as unset and `ParseFlags`
returns nil with the format "text", but `--log-format ""` and `--log-format=` give an
enum error; (b) the variable `NEXTDNS_WEBHOOK_API_KEY` set to "-abc" gives the key
"-abc", but the arguments `--api-key -abc` give the error "expected argument for flag";
(c) with the arguments `--version`, the variable `NEXTDNS_WEBHOOK_LOG_FORMAT` set to
"xml" makes `ParseFlags` return an enum error, but with `--version --log-format xml`
kingpin prints the version and exits with status 0; (d) the variable
`NEXTDNS_WEBHOOK_VERSION` set to "1" lets `ParseFlags` return nil, and `main` goes on to
construct the provider, but `--version` prints the version and exits with status 0.
First for the world without other variables in which kingpin visits the flags in the
order of registration, with the errors that are returned; then for every world without
other variables and files, in whatever order the flags are visited: a nil return on one
side, an error or an exit on the other. -/
theorem C5_env_var_differs_from_flag :
    ((Config.ParseFlags (World.empty.setenv "NEXTDNS_WEBHOOK_LOG_FORMAT" "") 2 Config.zero [] =
          some (.ok Config.parsedDefaults) ∧
        Config.ParseFlags World.empty 3 Config.zero ["--log-format", ""] =
          some (.err (.enumValue ["text", "json"] "")) ∧
        Config.ParseFlags World.empty 3 Config.zero ["--log-format="] =
          some (.err (.enumValue ["text", "json"] ""))) ∧
      (Config.ParseFlags (World.empty.setenv "NEXTDNS_WEBHOOK_API_KEY" "-abc") 2 Config.zero
          [] = some (.ok { Config.parsedDefaults with NextDNSAPIKey := "-abc" }) ∧
        Config.ParseFlags World.empty 3 Config.zero ["--api-key", "-abc"] =
          some (.err (.expectedArgument "api-key"))) ∧
      (Config.ParseFlags (World.empty.setenv "NEXTDNS_WEBHOOK_LOG_FORMAT" "xml") 3 Config.zero
          ["--version"] = some (.err (.enumValue ["text", "json"] "xml")) ∧
        Config.ParseFlags World.empty 4 Config.zero ["--version", "--log-format", "xml"] =
          some (.exit 0)) ∧
      (Config.ParseFlags (World.empty.setenv "NEXTDNS_WEBHOOK_VERSION" "1") 2 Config.zero [] =
          some (.ok Config.parsedDefaults) ∧
        Effect.NewNextDNSProvider ⟨false, "", "", ⟨[], []⟩⟩ ∈
          (main (World.empty.setenv "NEXTDNS_WEBHOOK_VERSION" "1") 2
            (fun _ => (.ok () : Except Error Unit)) []).getD [] ∧
        Config.ParseFlags World.empty 3 Config.zero ["--version"] = some (.exit 0) ∧
        main World.empty 3 (fun _ => (.ok () : Except Error Unit)) ["--version"] =
          some [Effect.Exit 0])) ∧
    (∀ w : World, w.Getenv = World.empty.Getenv → w.readLines = World.empty.readLines →
      w.fracNanos = World.empty.fracNanos →
      (Config.ParseFlags (w.setenv "NEXTDNS_WEBHOOK_LOG_FORMAT" "") 2 Config.zero [] =
          some (.ok Config.parsedDefaults) ∧
        (∃ e, Config.ParseFlags w 3 Config.zero ["--log-format", ""] = some (.err e)) ∧
        (∃ e, Config.ParseFlags w 3 Config.zero ["--log-format="] = some (.err e))) ∧
      (Config.ParseFlags (w.setenv "NEXTDNS_WEBHOOK_API_KEY" "-abc") 2 Config.zero [] =
          some (.ok { Config.parsedDefaults with NextDNSAPIKey := "-abc" }) ∧
        (∃ e, Config.ParseFlags w 3 Config.zero ["--api-key", "-abc"] = some (.err e))) ∧
      ((∃ e, Config.ParseFlags (w.setenv "NEXTDNS_WEBHOOK_LOG_FORMAT" "xml") 3 Config.zero
          ["--version"] = some (.err e)) ∧
        Config.ParseFlags w 4 Config.zero ["--version", "--log-format", "xml"] =
          some (.exit 0)) ∧
      (Config.ParseFlags (w.setenv "NEXTDNS_WEBHOOK_VERSION" "1") 2 Config.zero [] =
          some (.ok Config.parsedDefaults) ∧
        Config.ParseFlags w 3 Config.zero ["--version"] = some (.exit 0))) := by
  have hclosed :
      (Config.ParseFlags (World.empty.setenv "NEXTDNS_WEBHOOK_LOG_FORMAT" "") 2 Config.zero [] =
          some (.ok Config.parsedDefaults) ∧
        Config.ParseFlags World.empty 3 Config.zero ["--log-format", ""] =
          some (.err (.enumValue ["text", "json"] "")) ∧
        Config.ParseFlags World.empty 3 Config.zero ["--log-format="] =
          some (.err (.enumValue ["text", "json"] ""))) ∧
      (Config.ParseFlags (World.empty.setenv "NEXTDNS_WEBHOOK_API_KEY" "-abc") 2 Config.zero
          [] = some (.ok { Config.parsedDefaults with NextDNSAPIKey := "-abc" }) ∧
        Config.ParseFlags World.empty 3 Config.zero ["--api-key", "-abc"] =
          some (.err (.expectedArgument "api-key"))) ∧
      (Config.ParseFlags (World.empty.setenv "NEXTDNS_WEBHOOK_LOG_FORMAT" "xml") 3 Config.zero
          ["--version"] = some (.err (.enumValue ["text", "json"] "xml")) ∧
        Config.ParseFlags World.empty 4 Config.zero ["--version", "--log-format", "xml"] =
          some (.exit 0)) ∧
      (Config.ParseFlags (World.empty.setenv "NEXTDNS_WEBHOOK_VERSION" "1") 2 Config.zero [] =
          some (.ok Config.parsedDefaults) ∧
        Effect.NewNextDNSProvider ⟨false, "", "", ⟨[], []⟩⟩ ∈
          (main (World.empty.setenv "NEXTDNS_WEBHOOK_VERSION" "1") 2
            (fun _ => (.ok () : Except Error Unit)) []).getD [] ∧
        Config.ParseFlags World.empty 3 Config.zero ["--version"] = some (.exit 0) ∧
        main World.empty 3 (fun _ => (.ok () : Except Error Unit)) ["--version"] =
          some [Effect.Exit 0]) := by
    decide
  refine ⟨hclosed, ?_⟩
  intro w hg hr hf
  obtain ⟨⟨a1, a2, a3⟩, ⟨b1, b2⟩, ⟨c1, c2⟩, ⟨d1, _, d3, _⟩⟩ := hclosed
  have hset : ∀ k v, (World.empty.setenv k v).Getenv = (w.setenv k v).Getenv := by
    intro k v
    simp [World.setenv, hg]
  have same := fun fuel args => ParseFlags_order World.empty w hg.symm hr.symm hf.symm fuel
    Config.zero args
  have env := fun k v fuel args => ParseFlags_order (World.empty.setenv k v) (w.setenv k v)
    (hset k v) hr.symm hf.symm fuel Config.zero args
  exact ⟨⟨(env _ _ _ _).1 _ a1, (same _ _).2.2 _ a2, (same _ _).2.2 _ a3⟩,
    ⟨(env _ _ _ _).1 _ b1, (same _ _).2.2 _ b2⟩,
    ⟨(env _ _ _ _).2.2 _ c1, (same _ _).2.1 _ c2⟩,
    ⟨(env _ _ _ _).1 _ d1, (same _ _).2.1 _ d3⟩⟩

/-- Witness of C5: the world in which the flags are visited in the reverse order of
registration; there too the empty variable is accepted where the empty flag value is an
error. -/
theorem C5_env_var_differs_from_flag_witness :
    Config.ParseFlags (World.backwards.setenv "NEXTDNS_WEBHOOK_LOG_FORMAT" "") 2 Config.zero
        [] = some (.ok Config.parsedDefaults) ∧
    ∃ e, Config.ParseFlags World.backwards 3 Config.zero ["--log-format", ""] =
      some (.err e) :=
  ⟨(C5_env_var_differs_from_flag.2 World.backwards rfl rfl rfl).1.1,
    (C5_env_var_differs_from_flag.2 World.backwards rfl rfl rfl).1.2.1⟩

open adapter

/-- C8: (on main.go) after a successful `ParseFlags` from `Config{}` with `--dry-run` not
matched on the command line and its environment variable unset, `cfg.DryRun` is false;
(on the adapter as the specification describes it) for every remote state and every
ChangeSet, `ApplyChanges` of an adapter with `dryRun = true` makes no vendor call at all,
leaves the remote service as it was, records exactly the planned operations, each as
succeeded, and reports the same validation failures and records the same operations as
the live run with the same configuration. -/
theorem C8_dry_run_changes_nothing :
    (∀ (w : World) (fuel : Nat) (args : List String) (cfg : Config),
      Config.ParseFlags w fuel Config.zero args = some (.ok cfg) →
      (∀ el ∈ matchedElements w fuel args, el.Clause.name ≠ "dry-run") →
      w.Getenv "NEXTDNS_WEBHOOK_DRY_RUN" = "" →
      cfg.DryRun = false) ∧
    (∀ (pc : ProviderConfig) (vendor : Vendor) (changes : ChangeSet),
      pc.dryRun = true →
      (ApplyChanges pc vendor changes).calls = [] ∧
      (ApplyChanges pc vendor changes).vendor = vendor ∧
      (ApplyChanges pc vendor changes).recorded =
        (planOperations pc changes).1.map (fun op => (op, none)) ∧
      (ApplyChanges pc vendor changes).invalid =
        (ApplyChanges { pc with dryRun := false } vendor changes).invalid ∧
      (ApplyChanges pc vendor changes).recorded.map Prod.fst =
        (ApplyChanges { pc with dryRun := false } vendor changes).recorded.map Prod.fst) := by
  refine ⟨?_, ?_⟩
  · intro w fuel args cfg h hun henv
    exact dryRun_default w fuel Config.zero args cfg h hun henv
  · intro pc vendor changes hdry
    exact ApplyChanges_dry pc vendor changes hdry

/-- Witness of C8: the run without arguments and environment has `DryRun = false`, and a
dry run that creates `b.example.org -> 192.0.2.2` against a remote service holding one
rule makes no call and records the one planned creation as succeeded. -/
theorem C8_dry_run_changes_nothing_witness :
    Config.parsedDefaults.DryRun = false ∧
    (ApplyChanges ⟨"key", "profile", endpoint.NewDomainFilter [""], true⟩
      ⟨[⟨"7", "a.example.org", "192.0.2.1"⟩], 8, fun _ => none⟩
      ⟨[⟨"b.example.org", .A, ["192.0.2.2"], none, []⟩], [], [], []⟩).calls = [] ∧
    (ApplyChanges ⟨"key", "profile", endpoint.NewDomainFilter [""], true⟩
      ⟨[⟨"7", "a.example.org", "192.0.2.1"⟩], 8, fun _ => none⟩
      ⟨[⟨"b.example.org", .A, ["192.0.2.2"], none, []⟩], [], [], []⟩).recorded =
        [(Operation.createRule "b.example.org" "192.0.2.2", none)] :=
  ⟨C8_dry_run_changes_nothing.1 World.empty 2 [] Config.parsedDefaults ParseFlags_empty
      (by decide) (by decide),
    (C8_dry_run_changes_nothing.2 ⟨"key", "profile", endpoint.NewDomainFilter [""], true⟩
      ⟨[⟨"7", "a.example.org", "192.0.2.1"⟩], 8, fun _ => none⟩
      ⟨[⟨"b.example.org", .A, ["192.0.2.2"], none, []⟩], [], [], []⟩ rfl).1,
    (C8_dry_run_changes_nothing.2 ⟨"key", "profile", endpoint.NewDomainFilter [""], true⟩
      ⟨[⟨"7", "a.example.org", "192.0.2.1"⟩], 8, fun _ => none⟩
      ⟨[⟨"b.example.org", .A, ["192.0.2.2"], none, []⟩], [], [], []⟩ rfl).2.2.1.trans
      (by decide)⟩

/-- C9 (counterexample): an endpoint of type A without targets satisfies the conditions
of the round trip (its type is A, and every one of its targets is an IPv4 literal), but
`toVendorRules` gives no pair for it, so the vendor holds no rule after it was created,
and `toEndpoints` yields no endpoint, not exactly one. -/
theorem C9_counterexample :
    (⟨"a.example.org", .A, [], some 300, []⟩ : Endpoint).recordType = .A ∧
    (⟨"a.example.org", .A, [], some 300, []⟩ : Endpoint).targets.all isIPv4Literal = true ∧
    toVendorRules ⟨"a.example.org", .A, [], some 300, []⟩ = [] ∧
    isSupported ⟨"key", "profile", endpoint.NewDomainFilter [""], false⟩
      ⟨"a.example.org", .A, [], some 300, []⟩ = true ∧
    (ApplyChanges ⟨"key", "profile", endpoint.NewDomainFilter [""], false⟩
      ⟨[], 0, fun _ => none⟩
      ⟨[⟨"a.example.org", .A, [], some 300, []⟩], [], [], []⟩).vendor.rules = [] ∧
    toEndpoints (ApplyChanges ⟨"key", "profile", endpoint.NewDomainFilter [""], false⟩
      ⟨[], 0, fun _ => none⟩
      ⟨[⟨"a.example.org", .A, [], some 300, []⟩], [], [], []⟩).vendor.rules = [] ∧
    (toEndpoints ([] : List VendorRewriteRule)).length ≠ 1 := by
  decide

/-- C9 (amended): for every Endpoint `e` with at least one target, with recordType A and
all targets IPv4 literals, or recordType AAAA and all targets IPv6 literals, or
recordType CNAME and no target an IPv4 or IPv6 literal: for any rules that hold exactly
the pairs of `toVendorRules(e)` (in any order, each pair once or several times, with any
ids), `toEndpoints` yields exactly one Endpoint, whose dnsName and recordType are those
of `e`, whose set of targets is the set of targets of `e`, and whose TTL is empty; in
particular for the rules that the remote service holds after a live `ApplyChanges` has
created `e` on a service without rules, when the adapter supports `e` and no call
fails. -/
theorem C9_record_mapper_round_trip (e : Endpoint)
    (hne : e.targets ≠ [])
    (hty : e.recordType = .A ∨ e.recordType = .AAAA ∨ e.recordType = .CNAME)
    (hA : e.recordType = .A → ∀ t ∈ e.targets, isIPv4Literal t = true)
    (hAAAA : e.recordType = .AAAA → ∀ t ∈ e.targets, isIPv6Literal t = true)
    (hCNAME : e.recordType = .CNAME →
      ∀ t ∈ e.targets, isIPv4Literal t = false ∧ isIPv6Literal t = false) :
    (∀ rules : List VendorRewriteRule,
      (∀ p ∈ rules.map VendorRewriteRule.pair, p ∈ toVendorRules e) →
      (∀ p ∈ toVendorRules e, p ∈ rules.map VendorRewriteRule.pair) →
      ∃ ep, toEndpoints rules = [ep] ∧ ep.dnsName = e.dnsName ∧
        ep.recordType = e.recordType ∧ (∀ t, t ∈ ep.targets ↔ t ∈ e.targets) ∧
        ep.recordTTL = none) ∧
    (∀ (cfg : ProviderConfig) (vendor : Vendor),
      cfg.dryRun = false → isSupported cfg e = true → vendor.rules = [] →
      (∀ call, vendor.failure call = none) →
      ∃ ep, toEndpoints (ApplyChanges cfg vendor ⟨[e], [], [], []⟩).vendor.rules = [ep] ∧
        ep.dnsName = e.dnsName ∧ ep.recordType = e.recordType ∧
        (∀ t, t ∈ ep.targets ↔ t ∈ e.targets) ∧ ep.recordTTL = none) := by
  have hinfer : ∀ t ∈ e.targets, inferRecordType t = e.recordType := fun t ht =>
    inferRecordType_of_syntax e.recordType t hty (fun h => hA h t ht) (fun h => hAAAA h t ht)
      (fun h => hCNAME h t ht)
  refine ⟨fun rules hsub hsup => toEndpoints_of_pairs e rules hsub hsup hne hinfer, ?_⟩
  intro cfg vendor hlive hsupp hrules hf
  obtain ⟨hsub, hsup⟩ := ApplyChanges_create cfg vendor e hlive hsupp hrules hf
  exact toEndpoints_of_pairs e _ hsub hsup hne hinfer

/-- Witness of C9: the endpoint `a.example.org A [192.0.2.1, 192.0.2.2, 192.0.2.1]` with
a TTL of 300 seconds, created on a remote service without rules and read back: one
endpoint with the two different targets and without the TTL. -/
theorem C9_record_mapper_round_trip_witness :
    (∃ ep, toEndpoints (ApplyChanges ⟨"key", "profile", endpoint.NewDomainFilter [""], false⟩
        ⟨[], 0, fun _ => none⟩
        ⟨[⟨"a.example.org", .A, ["192.0.2.1", "192.0.2.2", "192.0.2.1"], some 300, []⟩],
          [], [], []⟩).vendor.rules = [ep] ∧
      ep.dnsName = "a.example.org" ∧ ep.recordType = .A ∧
      (∀ t, t ∈ ep.targets ↔ t ∈ ["192.0.2.1", "192.0.2.2", "192.0.2.1"]) ∧
      ep.recordTTL = none) ∧
    toEndpoints (ApplyChanges ⟨"key", "profile", endpoint.NewDomainFilter [""], false⟩
        ⟨[], 0, fun _ => none⟩
        ⟨[⟨"a.example.org", .A, ["192.0.2.1", "192.0.2.2", "192.0.2.1"], some 300, []⟩],
          [], [], []⟩).vendor.rules =
      [⟨"a.example.org", .A, ["192.0.2.1", "192.0.2.2"], none, []⟩] :=
  ⟨(C9_record_mapper_round_trip
      ⟨"a.example.org", .A, ["192.0.2.1", "192.0.2.2", "192.0.2.1"], some 300, []⟩
      (by decide) (by decide) (by decide) (by decide) (by decide)).2
      ⟨"key", "profile", endpoint.NewDomainFilter [""], false⟩ ⟨[], 0, fun _ => none⟩
      rfl (by decide) rfl (fun _ => rfl),
    by decide⟩

end NextDNSWebhook
